import Mathlib

/-!
# coupon-mcp-server: tool dispatch and request translation

A shallow embedding of `src/server.js`: the tool catalog, the call-tool handler,
`buildUrl`, `needsBody`, `serializeBody` and `readResponse`, together with the
parts of the JavaScript platform they run on (value coercions, `JSON.stringify`,
`encodeURIComponent`, the URL record with its `URLSearchParams` list, and the
body-consumption rules of a fetch `Response`).

Conventions of the embedding.

* A JavaScript string is a Lean `String` (a sequence of Unicode scalar values);
  strings holding lone surrogates are outside the embedding.
* A JavaScript number is carried by its canonical decimal text, the text that
  `String(n)` yields (`"0"` for both zeros, `"NaN"`, `"1.5"`, ...); the binary64
  values and `Number::toString` are modelled with exact arithmetic where the
  text of a number is computed (`toNumber`, `numberToString`).
* The string coercions (`String(v)`, template literals, `+`) are total: an
  object is taken to inherit `toString` and `valueOf`, so it is written
  `[object Object]` (an array by its elements). An object with an own property
  `toString` or `valueOf`, on which the coercion calls that property or throws,
  is outside the embedding, and so is a string with a lone surrogate, on which
  `encodeURIComponent` throws.
* An object is the list of its own enumerable properties in `Object.entries`
  order; the keys of a list that stands for an object are pairwise distinct.
* The upstream service, the platform URL parser and `JSON.parse` are fields of
  a `World`; a concrete URL parser following the WHATWG algorithm is given
  separately (`whatwgURL`) and is the one used where a claim depends on it, and
  so is a concrete JSON decoder (`jsonParse`), the one that matches
  `JSON.stringify`.
* The handler returns its result together with the log of `fetch` calls it made.
* An invocation is the value `req` that the handler receives: its name is `req.name` and
  its arguments are `req.arguments`, as the handler reads them.
-/

set_option autoImplicit false

namespace CouponMcp

/-! ## JavaScript values -/

/-- A JavaScript value as it can reach the handler (JSON data, plus `undefined`). -/
inductive JSValue where
  | undefined
  | null
  | bool (b : Bool)
  | num (repr : String)
  | str (s : String)
  | arr (items : List JSValue)
  | obj (props : List (String × JSValue))

/-- A thrown value: an `Error` instance (with its `name` and `message`) or any other value. -/
inductive Thrown where
  | error (name : String) (message : String)
  | value (v : JSValue)

namespace JSValue

/-- Truthiness (`ToBoolean`): `undefined`, `null`, `false`, `0`, `NaN` and `""` are falsy. -/
def truthy : JSValue → Bool
  | undefined => false
  | null => false
  | bool b => b
  | num r => !(r == "0" || r == "NaN")
  | str s => !(s == "")
  | arr _ => true
  | obj _ => true

/-- The JavaScript `a || b`. -/
def or (a b : JSValue) : JSValue := if a.truthy then a else b

/-- The JavaScript `a ?? b`. -/
def nullish (a b : JSValue) : JSValue :=
  match a with
  | undefined => b
  | null => b
  | v => v

/-- Test `Array.isArray(v)`. -/
def isArray : JSValue → Bool
  | arr _ => true
  | _ => false

/-- Test `typeof v === 'object'` (true of `null`, arrays and objects). -/
def typeofObject : JSValue → Bool
  | null => true
  | arr _ => true
  | obj _ => true
  | _ => false

mutual
/-- The string conversion `String(v)` (also the conversion applied by `+` with a string
and by a template literal). -/
def toJSString : JSValue → String
  | undefined => "undefined"
  | null => "null"
  | bool true => "true"
  | bool false => "false"
  | num r => r
  | str s => s
  | arr items => joinItems items
  | obj _ => "[object Object]"
termination_by structural v => v
/-- The text of `Array.prototype.join(",")`: `null` and `undefined` elements are empty. -/
def joinItems : List JSValue → String
  | [] => ""
  | x :: rest =>
    (match x with
      | undefined => ""
      | null => ""
      | v => toJSString v)
    ++ (match rest with
      | [] => ""
      | _ :: _ => ",")
    ++ joinItems rest
termination_by structural l => l
end

/-- First value stored under `key` in a property list. -/
def lookup (key : String) : List (String × JSValue) → JSValue
  | [] => undefined
  | (k, v) :: rest => if k = key then v else lookup key rest

/-- Property read `v[key]` on a value that is neither `null` nor `undefined`, for the
keys this program reads (`name`, `arguments`, `method`, `path`, `query`, `headers`,
`body`, `id`): an own property of an object, `undefined` on arrays and primitives. -/
def getField (v : JSValue) (key : String) : JSValue :=
  match v with
  | obj props => lookup key props
  | _ => undefined

/-- Property read `v.key` as the source performs it: a `TypeError` on `null` and
`undefined`. -/
def readProp (v : JSValue) (key : String) : Except Thrown JSValue :=
  match v with
  | undefined =>
    .error (.error "TypeError" ("Cannot read properties of undefined (reading '" ++ key ++ "')"))
  | null =>
    .error (.error "TypeError" ("Cannot read properties of null (reading '" ++ key ++ "')"))
  | w => .ok (w.getField key)

/-- Pairs an array's elements with their index keys, starting at `i`. -/
def indexed : Nat → List JSValue → List (String × JSValue)
  | _, [] => []
  | i, x :: rest => (toString i, x) :: indexed (i + 1) rest

/-- The list `Object.entries(v)` of a truthy value with `typeof v === 'object'`, and the
properties copied by an object spread `...v`: the properties of an object, the indexed
elements of an array, the indexed characters of a string, nothing for other primitives. -/
def entries : JSValue → List (String × JSValue)
  | obj props => props
  | arr items => indexed 0 items
  | str s => indexed 0 (s.data.map fun c => str (String.mk [c]))
  | _ => []

end JSValue

/-! ## Strings -/

/-- Test `s.startsWith('/')`. -/
def startsWithSlash (s : String) : Bool :=
  match s.data with
  | c :: _ => c == '/'
  | [] => false

/-- Whether `sub` occurs in `cs` as a contiguous run. -/
def includesChars (sub : List Char) : List Char → Bool
  | [] => sub.isEmpty
  | c :: cs => sub.isPrefixOf (c :: cs) || includesChars sub cs

/-- Test `s.includes(sub)`: a case-sensitive substring test. -/
def includes (s sub : String) : Bool := includesChars sub.data s.data

/-- Upper-case form of one character, for the characters whose upper-case form is made of
ASCII letters: the ASCII lower-case letters, dotless i, long s and the Latin ligatures.
Every other character is left as it is; its true upper-case form holds no ASCII letter. -/
def upperChar (c : Char) : List Char :=
  let n := c.toNat
  if 97 ≤ n ∧ n ≤ 122 then [Char.ofNat (n - 32)]
  else if n = 0x131 then ['I']
  else if n = 0x17F then ['S']
  else if n = 0xFB00 then ['F', 'F']
  else if n = 0xFB01 then ['F', 'I']
  else if n = 0xFB02 then ['F', 'L']
  else if n = 0xFB03 then ['F', 'F', 'I']
  else if n = 0xFB04 then ['F', 'F', 'L']
  else if n = 0xFB05 then ['S', 'T']
  else if n = 0xFB06 then ['S', 'T']
  else [c]

/-- The method `s.toUpperCase()`, exact wherever the result is compared with an ASCII word. -/
def toUpperCase (s : String) : String := String.mk (s.data.flatMap upperChar)

/-- ASCII lower-casing of one character. -/
def asciiLowerChar (c : Char) : Char :=
  if 65 ≤ c.toNat ∧ c.toNat ≤ 90 then Char.ofNat (c.toNat + 32) else c

/-! ## UTF-8 and percent-encoding -/

/-- The UTF-8 bytes of a scalar value. -/
def utf8Bytes (c : Char) : List Nat :=
  let n := c.toNat
  if n < 0x80 then [n]
  else if n < 0x800 then [0xC0 + n / 64, 0x80 + n % 64]
  else if n < 0x10000 then [0xE0 + n / 4096, 0x80 + n / 64 % 64, 0x80 + n % 64]
  else [0xF0 + n / 262144, 0x80 + n / 4096 % 64, 0x80 + n / 64 % 64, 0x80 + n % 64]

/-- The UTF-8 encoding of a string. -/
def utf8Encode (s : String) : List Nat := s.data.flatMap utf8Bytes

/-- Upper-case hexadecimal digit. -/
def hexDigit (n : Nat) : Char :=
  if n < 10 then Char.ofNat (48 + n) else Char.ofNat (55 + n)

/-- The percent-encoded form `%XX` of a byte. -/
def percentByte (b : Nat) : List Char := ['%', hexDigit (b / 16), hexDigit (b % 16)]

/-- Percent-encodes the bytes selected by `inSet`, keeping the others as characters. -/
def percentEncodeBytes (inSet : Nat → Bool) (bytes : List Nat) : List Char :=
  bytes.flatMap fun b => if inSet b then percentByte b else [Char.ofNat b]

/-- Percent-encode after UTF-8 encoding. -/
def percentEncode (inSet : Nat → Bool) (cs : List Char) : List Char :=
  percentEncodeBytes inSet (cs.flatMap utf8Bytes)

/-- ASCII letter or digit, as a byte. -/
def isAlnumByte (b : Nat) : Bool :=
  (48 ≤ b && b ≤ 57) || (65 ≤ b && b ≤ 90) || (97 ≤ b && b ≤ 122)

/-- The C0 control percent-encode set. -/
def c0ControlSet (b : Nat) : Bool := b ≤ 0x1F || 0x7E < b

/-- The fragment percent-encode set. -/
def fragmentSet (b : Nat) : Bool :=
  c0ControlSet b || b == 0x20 || b == 0x22 || b == 0x3C || b == 0x3E || b == 0x60

/-- The query percent-encode set. -/
def querySet (b : Nat) : Bool :=
  c0ControlSet b || b == 0x20 || b == 0x22 || b == 0x23 || b == 0x3C || b == 0x3E

/-- The special-query percent-encode set. -/
def specialQuerySet (b : Nat) : Bool := querySet b || b == 0x27

/-- The path percent-encode set of the URL Standard, which holds U+005E (`^`); a runtime
that follows an earlier text of the standard leaves `^` in a path as it is. -/
def pathSet (b : Nat) : Bool :=
  querySet b || b == 0x3F || b == 0x5E || b == 0x60 || b == 0x7B || b == 0x7D

/-- The application/x-www-form-urlencoded percent-encode set: everything but ASCII
letters, digits and `*`, `-`, `.`, `_`. -/
def urlencodedSet (b : Nat) : Bool :=
  !(isAlnumByte b || b == 0x2A || b == 0x2D || b == 0x2E || b == 0x5F)

/-- The characters `encodeURIComponent` leaves as they are. -/
def uriUnreserved (b : Nat) : Bool :=
  isAlnumByte b || b == 0x2D || b == 0x5F || b == 0x2E || b == 0x21 || b == 0x7E
    || b == 0x2A || b == 0x27 || b == 0x28 || b == 0x29

/-- The function `encodeURIComponent(v)`: the argument is converted to a string, then every
UTF-8 byte outside the unreserved characters is percent-encoded. -/
def encodeURIComponent (v : JSValue) : String :=
  String.mk (percentEncode (fun b => !uriUnreserved b) v.toJSString.data)

/-- Value of a hexadecimal digit given as a byte. -/
def hexVal (b : Nat) : Option Nat :=
  if 48 ≤ b ∧ b ≤ 57 then some (b - 48)
  else if 65 ≤ b ∧ b ≤ 70 then some (b - 55)
  else if 97 ≤ b ∧ b ≤ 102 then some (b - 87)
  else none

/-- The byte written by the two hexadecimal digits at the head of a sequence, if any. -/
def hexPair : List Nat → Option Nat
  | h :: l :: _ =>
    match hexVal h, hexVal l with
    | some x, some y => some (16 * x + y)
    | _, _ => none
  | _ => none

/-- Percent-decoding with `skip` bytes still to pass over (the digits of an escape that
has been decoded). -/
def percentDecodeFrom : Nat → List Nat → List Nat
  | _, [] => []
  | skip + 1, _ :: rest => percentDecodeFrom skip rest
  | 0, b :: rest =>
    if b = 37 then
      match hexPair rest with
      | some v => v :: percentDecodeFrom 2 rest
      | none => 37 :: percentDecodeFrom 0 rest
    else b :: percentDecodeFrom 0 rest

/-- Percent-decoding of a byte sequence: `%XX` with two hexadecimal digits becomes the
byte, every other byte is kept. -/
def percentDecode (bytes : List Nat) : List Nat := percentDecodeFrom 0 bytes

/-- What a byte starts in the UTF-8 decoder: a finished character, or a sequence with a
partial code point, a number of continuation bytes and the bounds of the next byte. -/
inductive Utf8Lead where
  | emit (c : Char)
  | more (cp remaining lower upper : Nat)

/-- The UTF-8 decoder on a byte met while no sequence is open. -/
def utf8Lead (b : Nat) : Utf8Lead :=
  if b ≤ 0x7F then .emit (Char.ofNat b)
  else if 0xC2 ≤ b ∧ b ≤ 0xDF then .more (b % 32) 1 0x80 0xBF
  else if 0xE0 ≤ b ∧ b ≤ 0xEF then
    .more (b % 16) 2 (if b = 0xE0 then 0xA0 else 0x80) (if b = 0xED then 0x9F else 0xBF)
  else if 0xF0 ≤ b ∧ b ≤ 0xF4 then
    .more (b % 8) 3 (if b = 0xF0 then 0x90 else 0x80) (if b = 0xF4 then 0x8F else 0xBF)
  else .emit (Char.ofNat 0xFFFD)

/-- The UTF-8 decoder (without BOM handling, errors replaced by U+FFFD): `cp` is the code
point being assembled, `remaining` the number of continuation bytes still expected. -/
def utf8DecodeFrom : List Nat → Nat → Nat → Nat → Nat → List Char
  | [], _, remaining, _, _ => if remaining = 0 then [] else [Char.ofNat 0xFFFD]
  | b :: rest, cp, remaining, lower, upper =>
    if remaining = 0 then
      match utf8Lead b with
      | .emit c => c :: utf8DecodeFrom rest 0 0 0x80 0xBF
      | .more cp1 n lo hi => utf8DecodeFrom rest cp1 n lo hi
    else if b < lower ∨ upper < b then
      Char.ofNat 0xFFFD ::
        (match utf8Lead b with
          | .emit c => c :: utf8DecodeFrom rest 0 0 0x80 0xBF
          | .more cp1 n lo hi => utf8DecodeFrom rest cp1 n lo hi)
    else if remaining = 1 then Char.ofNat (cp * 64 + b % 64) :: utf8DecodeFrom rest 0 0 0x80 0xBF
    else utf8DecodeFrom rest (cp * 64 + b % 64) (remaining - 1) 0x80 0xBF

/-- UTF-8 decode without BOM. -/
def utf8Decode (bytes : List Nat) : String := String.mk (utf8DecodeFrom bytes 0 0 0x80 0xBF)

/-! ## application/x-www-form-urlencoded -/

/-- Splits a byte sequence on a separator byte. -/
def splitBytes (sep : Nat) : List Nat → List (List Nat)
  | [] => [[]]
  | b :: rest =>
    if b = sep then [] :: splitBytes sep rest
    else
      match splitBytes sep rest with
      | [] => [[b]]
      | s :: ss => (b :: s) :: ss

/-- One name or value of a urlencoded body: `+` is a space, then percent-decode, then
UTF-8 decode. -/
def urlencodedDecode (bytes : List Nat) : String :=
  utf8Decode (percentDecode (bytes.map fun b => if b = 0x2B then 0x20 else b))

/-- One sequence of the urlencoded parser: an empty sequence is skipped, the name ends at
the first `=` and the value is what follows it. -/
def parsePair (seq : List Nat) : Option (String × String) :=
  if seq.isEmpty then none
  else some (urlencodedDecode (seq.takeWhile fun b => b != 0x3D),
             urlencodedDecode ((seq.dropWhile fun b => b != 0x3D).drop 1))

/-- The urlencoded parser on bytes: the sequences are separated by `&`. -/
def urlencodedParseBytes (bytes : List Nat) : List (String × String) :=
  (splitBytes 0x26 bytes).filterMap parsePair

/-- The urlencoded string parser. -/
def urlencodedParse (s : String) : List (String × String) := urlencodedParseBytes (utf8Encode s)

/-- One byte in the urlencoded byte serializer: a space becomes `+`, a byte of the
urlencoded percent-encode set is percent-encoded. -/
def urlencodedByte (b : Nat) : List Char :=
  if b = 0x20 then ['+'] else if urlencodedSet b then percentByte b else [Char.ofNat b]

/-- The urlencoded byte serializer on the UTF-8 encoding of a string. -/
def urlencodedEncode (s : String) : List Char := (utf8Encode s).flatMap urlencodedByte

/-- The urlencoded serializer on a list of name-value pairs. -/
def urlencodedSerializeChars : List (String × String) → List Char
  | [] => []
  | (n, v) :: rest =>
    urlencodedEncode n ++ ['='] ++ urlencodedEncode v ++
      (match rest with
        | [] => []
        | _ :: _ => '&' :: urlencodedSerializeChars rest)

/-- The urlencoded serializer. -/
def urlencodedSerialize (l : List (String × String)) : String :=
  String.mk (urlencodedSerializeChars l)

/-! ## The URL record and the URL object -/

/-- A URL record with a list path. -/
structure URL where
  scheme : String
  username : String
  password : String
  host : Option String
  port : Option Nat
  path : List String
  query : Option String
  fragment : Option String
  deriving DecidableEq

/-- The URL path serializer on a list path: every segment preceded by a slash. -/
def serializePath : List String → String
  | [] => ""
  | seg :: rest => "/" ++ seg ++ serializePath rest

/-- The URL serializer (the `href` of a URL). -/
def URL.serialize (u : URL) : String :=
  u.scheme ++ ":"
    ++ (match u.host with
      | some h =>
        "//"
          ++ (if u.username ≠ "" ∨ u.password ≠ "" then
                u.username ++ (if u.password ≠ "" then ":" ++ u.password else "") ++ "@"
              else "")
          ++ h
          ++ (match u.port with
            | some p => ":" ++ toString p
            | none => "")
      | none =>
        match u.path with
        | first :: _ :: _ => if first = "" then "/." else ""
        | _ => "")
    ++ serializePath u.path
    ++ (match u.query with
      | some q => "?" ++ q
      | none => "")
    ++ (match u.fragment with
      | some f => "#" ++ f
      | none => "")

/-- A `URL` object: its record and the list of its `searchParams` object. -/
structure URLObject where
  url : URL
  params : List (String × String)
  deriving DecidableEq

/-- Construction of the URL object from a parsed record: the `searchParams` list is the
urlencoded parse of the record query (of the empty string when the query is null). -/
def URLObject.ofRecord (u : URL) : URLObject :=
  { url := u, params := urlencodedParse (u.query.getD "") }

/-- The update steps of `URLSearchParams`: the record query becomes the serialization of
the list, or null when that is empty. -/
def URLObject.update (u : URL) (l : List (String × String)) : URLObject :=
  { url := { u with query := if urlencodedSerialize l = "" then none else some (urlencodedSerialize l) },
    params := l }

/-- The call `url.searchParams.append(name, value)`. -/
def URLObject.append (o : URLObject) (name value : String) : URLObject :=
  URLObject.update o.url (o.params ++ [(name, value)])

/-- Replaces the value of the first pair named `name` and removes the later ones. -/
def setFirst (name value : String) : List (String × String) → List (String × String)
  | [] => []
  | (n, v) :: rest =>
    if n = name then (n, value) :: rest.filter (fun p => p.1 != name)
    else (n, v) :: setFirst name value rest

/-- The call `url.searchParams.set(name, value)`. -/
def URLObject.set (o : URLObject) (name value : String) : URLObject :=
  URLObject.update o.url
    (if o.params.any (fun p => p.1 == name) then setFirst name value o.params
     else o.params ++ [(name, value)])

/-- The call `url.toString()`. -/
def URLObject.toString (o : URLObject) : String := o.url.serialize

/-! ## The WHATWG URL parser

`whatwgURL` follows the basic URL parser of the URL standard on an input without a base
URL, for the special schemes other than `file`, with a host that is an ASCII domain name.
Credentials, bracketed and numeric (IP address) hosts, percent-escapes and `xn--` labels
in the host, the `file` scheme and the non-special schemes are outside this fragment: on
them the result is an error named `OutsideModel`, which stands for no behaviour of the
platform. -/

/-- C0 control or space. -/
def isC0OrSpace (c : Char) : Bool := c.toNat ≤ 0x20

/-- ASCII tab or newline. -/
def isTabOrNewline (c : Char) : Bool := c.toNat == 9 || c.toNat == 10 || c.toNat == 13

/-- A solidus or a reverse solidus. -/
def isSlash (c : Char) : Bool := c.toNat == 47 || c.toNat == 92

/-- ASCII letter. -/
def isAsciiAlpha (c : Char) : Bool :=
  (65 ≤ c.toNat && c.toNat ≤ 90) || (97 ≤ c.toNat && c.toNat ≤ 122)

/-- ASCII digit. -/
def isAsciiDigit (c : Char) : Bool := 48 ≤ c.toNat && c.toNat ≤ 57

/-- ASCII hexadecimal digit. -/
def isAsciiHexDigit (c : Char) : Bool :=
  isAsciiDigit c || (65 ≤ c.toNat && c.toNat ≤ 70) || (97 ≤ c.toNat && c.toNat ≤ 102)

/-- The input with leading and trailing C0 controls and spaces removed, then every ASCII
tab and newline removed. -/
def preprocess (cs : List Char) : List Char :=
  ((cs.dropWhile isC0OrSpace).reverse.dropWhile isC0OrSpace).reverse.filter
    fun c => !isTabOrNewline c

/-- The scheme state: reads scheme characters up to the colon; `none` when the input has
no scheme. -/
def schemeState : List Char → List Char → Option (List Char × List Char)
  | _, [] => none
  | buf, c :: cs =>
    if isAsciiAlpha c || isAsciiDigit c || c == '+' || c == '-' || c == '.' then
      schemeState (buf ++ [asciiLowerChar c]) cs
    else if c == ':' then some (buf, cs)
    else none

/-- The scheme start state. -/
def schemeStartState : List Char → Option (List Char × List Char)
  | [] => none
  | c :: cs => if isAsciiAlpha c then schemeState [asciiLowerChar c] cs else none

/-- Default port of a special scheme. -/
def defaultPort (scheme : String) : Option Nat :=
  if scheme = "http" then some 80
  else if scheme = "https" then some 443
  else if scheme = "ws" then some 80
  else if scheme = "wss" then some 443
  else if scheme = "ftp" then some 21
  else none

/-- Value of a run of ASCII digits. -/
def decimalValue (cs : List Char) : Nat := cs.foldl (fun n c => 10 * n + (c.toNat - 48)) 0

/-- Splits a character list on the full stop. -/
def splitDots : List Char → List (List Char)
  | [] => [[]]
  | c :: rest =>
    if c == '.' then [] :: splitDots rest
    else
      match splitDots rest with
      | [] => [[c]]
      | s :: ss => (c :: s) :: ss

/-- Whether a label is an IPv4 number: ASCII digits, or `0x` followed by hexadecimal digits. -/
def isIPv4Number (label : List Char) : Bool :=
  match label with
  | [] => false
  | c :: d :: rest =>
    if c == '0' && (d == 'x' || d == 'X') then rest.all isAsciiHexDigit
    else (c :: d :: rest).all isAsciiDigit
  | [c] => isAsciiDigit c

/-- The ends-in-a-number checker of the host parser. -/
def endsInNumber (host : List Char) : Bool :=
  let parts := splitDots host
  let parts := if parts.getLast? = some [] ∧ 1 < parts.length then parts.dropLast else parts
  match parts.getLast? with
  | some last => isIPv4Number last
  | none => false

/-- Forbidden domain code points among the ASCII characters. -/
def isForbiddenDomainChar (c : Char) : Bool :=
  let n := c.toNat
  n ≤ 0x20 || n == 0x23 || n == 0x25 || n == 0x2F || n == 0x3A || n == 0x3C || n == 0x3E
    || n == 0x3F || n == 0x40 || n == 0x5B || n == 0x5C || n == 0x5D || n == 0x5E
    || n == 0x7C || n == 0x7F

/-- The failure of the URL parser, as `new URL` throws it. -/
def invalidURL : Thrown := .error "TypeError" "Invalid URL"

/-- The marker of an input outside the modelled fragment of the parser. -/
def outsideModel : Thrown := .error "OutsideModel" "input outside the modelled URL fragment"

/-- The host parser on the host of a special URL, for ASCII domain names. -/
def hostParser (host : List Char) : Except Thrown String :=
  if host.isEmpty then .error invalidURL
  else if host.any (fun c => 0x7F < c.toNat || c == '%' || c == '[') then .error outsideModel
  else
    let lower := host.map asciiLowerChar
    if (splitDots lower).any (fun label => ['x', 'n', '-', '-'].isPrefixOf label) then
      .error outsideModel
    else if lower.any isForbiddenDomainChar then .error invalidURL
    else if endsInNumber lower then .error outsideModel
    else .ok (String.mk lower)

/-- The port state on the characters after the colon of the authority. -/
def portState (scheme : String) (cs : List Char) : Except Thrown (Option Nat) :=
  if !cs.all isAsciiDigit then .error invalidURL
  else if cs.isEmpty then .ok none
  else if 65535 < decimalValue cs then .error invalidURL
  else if defaultPort scheme = some (decimalValue cs) then .ok none
  else .ok (some (decimalValue cs))

/-- Double-dot URL path segment. -/
def isDoubleDot (buf : List Char) : Bool :=
  let l := buf.map asciiLowerChar
  l == ['.', '.'] || l == ['.', '%', '2', 'e'] || l == ['%', '2', 'e', '.']
    || l == ['%', '2', 'e', '%', '2', 'e']

/-- Single-dot URL path segment. -/
def isSingleDot (buf : List Char) : Bool :=
  let l := buf.map asciiLowerChar
  l == ['.'] || l == ['%', '2', 'e']

/-- The path state at the end of a segment: `atSlash` tells whether the segment was ended
by a slash (as opposed to the end of the path). -/
def closeSegment (buf : List Char) (path : List String) (atSlash : Bool) : List String :=
  if isDoubleDot buf then (if atSlash then path.dropLast else path.dropLast ++ [""])
  else if isSingleDot buf then (if atSlash then path else path ++ [""])
  else path ++ [String.mk buf]

/-- The path state of a special URL, on the characters of the path. -/
def pathState : List Char → List Char → List String → List String
  | [], buf, path => closeSegment buf path false
  | c :: cs, buf, path =>
    if isSlash c then pathState cs [] (closeSegment buf path true)
    else pathState cs (buf ++ percentEncode pathSet [c]) path

/-- The path start state followed by the path state. -/
def pathStartState (cs : List Char) : List String :=
  match cs with
  | c :: rest => if isSlash c then pathState rest [] [] else pathState (c :: rest) [] []
  | [] => pathState [] [] []

/-- The query state of a special URL, on the characters after the question mark. -/
def queryState (cs : List Char) : String := String.mk (percentEncode specialQuerySet cs)

/-- The fragment state, on the characters after the number sign. -/
def fragmentState (cs : List Char) : String := String.mk (percentEncode fragmentSet cs)

/-- Query of the input that follows the path: present when a question mark follows. -/
def queryOf (afterPath : List Char) : Option String :=
  match afterPath with
  | c :: rest => if c == '?' then some (queryState (rest.takeWhile fun d => d != '#')) else none
  | [] => none

/-- Fragment of the input that follows the path: present when a number sign occurs. -/
def fragmentOf (afterPath : List Char) : Option String :=
  match afterPath.dropWhile fun d => d != '#' with
  | _ :: rest => some (fragmentState rest)
  | [] => none

/-- The states from the authority on, for a special scheme other than `file`. -/
def authorityState (scheme : String) (cs : List Char) : Except Thrown URL :=
  let isEnd := fun (c : Char) => isSlash c || c == '?' || c == '#'
  let authority := cs.takeWhile fun c => !isEnd c
  let tail := cs.dropWhile fun c => !isEnd c
  if authority.any (fun c => c == '@') then .error outsideModel
  else
    let hostChars := authority.takeWhile fun c => c != ':'
    let afterHost := authority.dropWhile fun c => c != ':'
    match hostParser hostChars with
    | .error e => .error e
    | .ok host =>
      match portState scheme (afterHost.drop 1) with
      | .error e => .error e
      | .ok port =>
        let pathChars := tail.takeWhile fun c => c != '?' && c != '#'
        let afterPath := tail.dropWhile fun c => c != '?' && c != '#'
        .ok { scheme := scheme, username := "", password := "", host := some host, port := port,
              path := pathStartState pathChars,
              query := queryOf afterPath, fragment := fragmentOf afterPath }

/-- The constructor `new URL(input)` without a base: the parsed record, or the thrown
`TypeError`. -/
def whatwgURL (input : String) : Except Thrown URL :=
  match schemeStartState (preprocess input.data) with
  | none => .error invalidURL
  | some (scheme, rest) =>
    if (defaultPort (String.mk scheme)).isSome then
      authorityState (String.mk scheme) (rest.dropWhile isSlash)
    else .error outsideModel

/-! ## JSON.stringify -/

/-- Lower-case hexadecimal digit. -/
def hexDigitLower (n : Nat) : Char :=
  if n < 10 then Char.ofNat (48 + n) else Char.ofNat (87 + n)

/-- One character inside a JSON string literal. -/
def jsonQuoteChar (c : Char) : List Char :=
  let n := c.toNat
  if n = 0x22 then [Char.ofNat 92, Char.ofNat 0x22]
  else if n = 0x5C then [Char.ofNat 92, Char.ofNat 92]
  else if n = 0x08 then [Char.ofNat 92, 'b']
  else if n = 0x0C then [Char.ofNat 92, 'f']
  else if n = 0x0A then [Char.ofNat 92, 'n']
  else if n = 0x0D then [Char.ofNat 92, 'r']
  else if n = 0x09 then [Char.ofNat 92, 't']
  else if n < 0x20 then [Char.ofNat 92, 'u', '0', '0', hexDigitLower (n / 16), hexDigitLower (n % 16)]
  else [c]

/-- The JSON string literal of a string. -/
def jsonQuote (s : String) : List Char :=
  Char.ofNat 0x22 :: s.data.flatMap jsonQuoteChar ++ [Char.ofNat 0x22]

mutual
/-- The JSON text of a value (`SerializeJSONProperty`): none for `undefined`. -/
def jsonText : JSValue → Option (List Char)
  | .undefined => none
  | .null => some ['n', 'u', 'l', 'l']
  | .bool true => some ['t', 'r', 'u', 'e']
  | .bool false => some ['f', 'a', 'l', 's', 'e']
  | .num r =>
    if r = "NaN" ∨ r = "Infinity" ∨ r = "-Infinity" then some ['n', 'u', 'l', 'l'] else some r.data
  | .str s => some (jsonQuote s)
  | .arr items => some ('[' :: jsonElements items ++ [']'])
  | .obj props => some (Char.ofNat 0x7B :: jsonMembers props false ++ [Char.ofNat 0x7D])
termination_by structural v => v
/-- The elements of a JSON array: an `undefined` element is written `null`. -/
def jsonElements : List JSValue → List Char
  | [] => []
  | x :: rest =>
    (match jsonText x with
      | some t => t
      | none => ['n', 'u', 'l', 'l'])
    ++ (match rest with
      | [] => []
      | _ :: _ => [','])
    ++ jsonElements rest
termination_by structural l => l
/-- The members of a JSON object: a property whose value is `undefined` is left out;
`comma` tells whether a member has been written before. -/
def jsonMembers : List (String × JSValue) → Bool → List Char
  | [], _ => []
  | kv :: rest, comma =>
    match jsonText kv.2 with
    | none => jsonMembers rest comma
    | some t => (if comma then [','] else []) ++ jsonQuote kv.1 ++ [':'] ++ t ++ jsonMembers rest true
termination_by structural l => l
end

/-- The function `JSON.stringify(v)`: no result (`undefined`) when `v` is `undefined`. -/
def jsonStringify (v : JSValue) : Option String := (jsonText v).map String.mk

/-! ## The upstream, responses and the call log -/

/-- The options object passed to `fetch`: `method` as given, the `headers` object when
one is passed, the `body` when it is not `undefined`. -/
structure RequestInit where
  method : JSValue
  headers : Option (List (String × JSValue))
  body : Option String

/-- One call of `fetch`. -/
structure Call where
  url : String
  init : RequestInit

/-- What the upstream answered: the status, the value of `headers.get('content-type')`
(none when the header is absent), and the body: none for a null body, otherwise the
outcome of reading the stream to its end, the decoded text or the error of the read. -/
structure HttpReply where
  status : Nat
  contentType : Option String
  body : Option (Except Thrown String)

/-- A `Response` object: the reply and whether its body stream has been read. -/
structure Response where
  reply : HttpReply
  disturbed : Bool

/-- The environment of the handler: the platform URL parser (`new URL`), the upstream
as seen through `fetch` (a reply, or the error `fetch` rejects with) and `JSON.parse`. -/
structure World where
  newURL : String → Except Thrown URL
  fetch : String → RequestInit → Except Thrown HttpReply
  parseJSON : String → Except Thrown JSValue

/-- The `TypeError` of a body method called on a response whose stream has been read. -/
def bodyUnusable : Thrown := .error "TypeError" "Body is unusable: Body has already been read"

/-- The method `res.json()`: the result, and the response after the call. A null body reads
as the empty byte sequence and never becomes unusable; a stream can be read once. -/
def Response.json (w : World) (res : Response) : Except Thrown JSValue × Response :=
  match res.reply.body with
  | none => (w.parseJSON "", res)
  | some stream =>
    if res.disturbed then (.error bodyUnusable, res)
    else
      (match stream with
        | .error e => .error e
        | .ok text => w.parseJSON text,
       { res with disturbed := true })

/-- The method `res.text()`: the result, and the response after the call. -/
def Response.text (res : Response) : Except Thrown String × Response :=
  match res.reply.body with
  | none => (.ok "", res)
  | some stream =>
    if res.disturbed then (.error bodyUnusable, res)
    else (stream, { res with disturbed := true })

/-- A result content item: `{type: "json", json}` or `{type: "text", text}`. -/
inductive ResultContent where
  | json (value : JSValue)
  | text (text : String)

/-- The result envelope `{content, isError}`; `isError` is none when the property is absent. -/
structure Envelope where
  content : List ResultContent
  isError : Option Bool

/-- An asynchronous computation run to completion: the value it resolves with or the value
it rejects with, and the `fetch` calls it made, in order. -/
structure Async (α : Type) where
  result : Except Thrown α
  calls : List Call

/-- Sequencing: the second computation runs only when the first resolves. -/
def Async.bind {α β : Type} (m : Async α) (f : α → Async β) : Async β :=
  match m.result with
  | .ok a => { result := (f a).result, calls := m.calls ++ (f a).calls }
  | .error e => { result := .error e, calls := m.calls }

instance : Monad Async where
  pure a := { result := .ok a, calls := [] }
  bind := Async.bind

/-- A computation without `fetch` calls. -/
def Async.lift {α : Type} (r : Except Thrown α) : Async α := { result := r, calls := [] }

/-- The call `await fetch(url, init)`: logged, then the fresh response or the rejection. -/
def World.doFetch (w : World) (url : String) (init : RequestInit) : Async Response :=
  { result := (w.fetch url init).map fun reply => { reply := reply, disturbed := false },
    calls := [{ url := url, init := init }] }

/-! ## The program -/

/-- The constant `BASE_URL`. -/
def BASE_URL : String := "https://mcpcounpon.onrender.com"

/-- A tool descriptor of the catalog: the name, the description, and of the input schema
the declared property names and the required ones. -/
structure ToolDescriptor where
  name : String
  description : String
  properties : List String
  required : List String

/-- The catalog `tools`. -/
def tools : List ToolDescriptor :=
  [ { name := "http.request",
      description := "Generic HTTP request tool. Proxies to the configured BASE_URL. No auth, no DB. For example, GET /coupons, POST /coupons, GET /coupons/\x7bid\x7d.",
      properties := ["method", "path", "query", "headers", "body"],
      required := ["method", "path"] },
    { name := "coupon.create",
      description := "Create a coupon via POST /coupons with JSON body.",
      properties := ["body"],
      required := ["body"] },
    { name := "coupon.get",
      description := "Get a coupon by id via GET /coupons/\x7bid\x7d.",
      properties := ["id"],
      required := ["id"] },
    { name := "coupon.list",
      description := "List coupons via GET /coupons with optional query params.",
      properties := ["query"],
      required := [] },
    { name := "jutuike.public_promo_list",
      description := "GET /api/mcp/jutuike/public_promo_list with optional query params.",
      properties := ["query"],
      required := [] } ]

/-- The list-tools handler: returns the catalog. -/
def listTools : List ToolDescriptor := tools

/-- One iteration of the loop of `buildUrl` over `Object.entries(query)`: every element of
an array value is appended, a value other than `undefined` and `null` is set. -/
def applyEntry (url : URLObject) (kv : String × JSValue) : URLObject :=
  match kv.2 with
  | .arr items => items.foldl (fun u vv => u.append kv.1 vv.toJSString) url
  | .undefined => url
  | .null => url
  | v => url.set kv.1 v.toJSString

/-- The path `p` computed by `buildUrl`: the path itself when its string form starts with
a slash, otherwise a slash followed by the string form of `path || ''`. -/
def normalizedPath (path : JSValue) : JSValue :=
  if startsWithSlash (path.or (.str "")).toJSString then path
  else .str ("/" ++ (path.or (.str "")).toJSString)

/-- The function `buildUrl` up to its return statement: the URL object whose string form is
returned. `new URL` is the platform parser; it may throw. -/
def buildUrlObject (newURL : String → Except Thrown URL) (base : String) (path query : JSValue) :
    Except Thrown URLObject :=
  let p := normalizedPath path
  match newURL (base ++ p.toJSString) with
  | .error e => .error e
  | .ok u =>
    let url := URLObject.ofRecord u
    if query.truthy && query.typeofObject then .ok (query.entries.foldl applyEntry url)
    else .ok url

/-- The function `buildUrl(base, path, query)`. -/
def buildUrl (newURL : String → Except Thrown URL) (base : String) (path query : JSValue) :
    Except Thrown String :=
  (buildUrlObject newURL base path query).map URLObject.toString

/-- The function `needsBody(method)`. -/
def needsBody (method : JSValue) : Bool :=
  ["POST", "PUT", "PATCH"].contains (toUpperCase (method.or (.str "")).toJSString)

/-- The function `serializeBody(body)`: none stands for `undefined`. `JSON.stringify` does
not throw on the values of the embedding, so the `catch` branch is never taken. -/
def serializeBody (body : JSValue) : Option String :=
  match body with
  | .undefined => none
  | .null => none
  | .str s => some s
  | v => jsonStringify v

/-- The function `readResponse(res)`. The `try` block returns the JSON item when the
content type includes `application/json` and `res.json()` resolves; an error of
`res.json()` is swallowed. Otherwise `res.text()` is awaited on the response as the
`try` block left it, outside any `try`. -/
def readResponse (w : World) (res : Response) : Except Thrown ResultContent :=
  let ct := match res.reply.contentType with
    | some h => if h = "" then "" else h
    | none => ""
  let attempt : Option ResultContent × Response :=
    if includes ct "application/json" then
      match res.json w with
      | (.ok value, res1) => (some (.json value), res1)
      | (.error _, res1) => (none, res1)
    else (none, res)
  match attempt with
  | (some out, _) => .ok out
  | (none, res1) =>
    match res1.text.1 with
    | .ok text => .ok (.text ("Status " ++ toString res.reply.status ++ ": " ++ text))
    | .error e => .error e

/-- The strict comparison `name === s` with a string literal. -/
def isName (name : JSValue) (s : String) : Bool :=
  match name with
  | .str t => t == s
  | _ => false

/-- Assignment of a property in an object under construction: the value of an existing
key is replaced in place, a new key is added at the end. -/
def setProp (props : List (String × JSValue)) (kv : String × JSValue) : List (String × JSValue) :=
  if props.any (fun p => p.1 == kv.1) then props.map (fun p => if p.1 == kv.1 then (p.1, kv.2) else p)
  else props ++ [kv]

/-- The object literal with a leading `content-type` and the spread of `headers || {}`,
in the order in which the properties are written (a caller key that is an array index
would be listed before `content-type`; the order is not part of any statement). -/
def mergedHeaders (headers : JSValue) : List (String × JSValue) :=
  (headers.or (.obj [])).entries.foldl setProp [("content-type", .str "application/json")]

/-- The destructuring `const { method, path, query, headers, body } = args`. -/
def destructureArgs (args : JSValue) :
    Except Thrown (JSValue × JSValue × JSValue × JSValue × JSValue) :=
  match args with
  | .undefined =>
    .error (.error "TypeError" "Cannot destructure property 'method' of 'args' as it is undefined.")
  | .null =>
    .error (.error "TypeError" "Cannot destructure property 'method' of 'args' as it is null.")
  | a => .ok (a.getField "method", a.getField "path", a.getField "query", a.getField "headers",
              a.getField "body")

/-- The body of the `try` block of the call-tool handler. -/
def tryBlock (w : World) (name args : JSValue) : Async Envelope :=
  if isName name "http.request" then do
    let (method, path, query, headers, body) ← Async.lift (destructureArgs args)
    let url ← Async.lift (buildUrl w.newURL BASE_URL path query)
    let res ← w.doFetch url
      { method := method,
        headers := some (mergedHeaders headers),
        body := if needsBody method then serializeBody body else none }
    let out ← Async.lift (readResponse w res)
    pure { content := [out], isError := none }
  else if isName name "coupon.create" then do
    let url ← Async.lift (buildUrl w.newURL BASE_URL (.str "/coupons") .undefined)
    let body ← Async.lift (args.readProp "body")
    let res ← w.doFetch url
      { method := .str "POST",
        headers := some [("content-type", .str "application/json")],
        body := jsonStringify (body.nullish (.obj [])) }
    let out ← Async.lift (readResponse w res)
    pure { content := [out], isError := none }
  else if isName name "coupon.get" then do
    let id ← Async.lift (args.readProp "id")
    let url ← Async.lift
      (buildUrl w.newURL BASE_URL (.str ("/coupons/" ++ encodeURIComponent id)) .undefined)
    let res ← w.doFetch url { method := .str "GET", headers := none, body := none }
    let out ← Async.lift (readResponse w res)
    pure { content := [out], isError := none }
  else if isName name "coupon.list" then do
    let query ← Async.lift (args.readProp "query")
    let url ← Async.lift (buildUrl w.newURL BASE_URL (.str "/coupons") query)
    let res ← w.doFetch url { method := .str "GET", headers := none, body := none }
    let out ← Async.lift (readResponse w res)
    pure { content := [out], isError := none }
  else if isName name "jutuike.public_promo_list" then do
    let query ← Async.lift (args.readProp "query")
    let url ← Async.lift
      (buildUrl w.newURL BASE_URL (.str "/api/mcp/jutuike/public_promo_list") query)
    let res ← w.doFetch url { method := .str "GET", headers := none, body := none }
    let out ← Async.lift (readResponse w res)
    pure { content := [out], isError := none }
  else
    pure { content := [.text ("Unknown tool: " ++ name.toJSString)], isError := some true }

/-- The message computed by the `catch` clause: `err.message` of an `Error`, the string
form of any other thrown value. -/
def errorMessage (err : Thrown) : String :=
  match err with
  | .error _ message => message
  | .value v => v.toJSString

/-- The `name` of the destructuring `const { name, arguments: args = {} } = req || {}`. -/
def requestName (req : JSValue) : JSValue := (req.or (.obj [])).getField "name"

/-- The `args` of the same destructuring: the default applies when `arguments` is
`undefined` (not when it is `null`). -/
def requestArgs (req : JSValue) : JSValue :=
  match (req.or (.obj [])).getField "arguments" with
  | .undefined => .obj []
  | a => a

/-- The envelope built by the `catch` clause. -/
def requestFailed (message : String) : Envelope :=
  { content := [.text ("Request failed: " ++ message)], isError := some true }

/-- The call-tool handler. The request is destructured outside the `try` block; whatever
the `try` block throws is turned into an error envelope by the `catch` clause. -/
def handler (w : World) (req : JSValue) : Async Envelope :=
  let run := tryBlock w (requestName req) (requestArgs req)
  match run.result with
  | .ok envelope => { result := .ok envelope, calls := run.calls }
  | .error err => { result := .ok (requestFailed (errorMessage err)), calls := run.calls }

/-! ## Derived notions used in the statements -/

/-- Whether a name is the name of a descriptor of the catalog. -/
def isCatalogName (name : JSValue) : Bool := tools.any fun t => isName name t.name

/-- The request-construction stage of the five tool branches of `tryBlock`, read off the
branches: the arguments of the `fetch` call of the branch, or what it throws before. -/
def outbound (w : World) (name args : JSValue) : Except Thrown Call :=
  if isName name "http.request" then do
    let (method, path, query, headers, body) ← destructureArgs args
    let url ← buildUrl w.newURL BASE_URL path query
    pure { url := url,
           init := { method := method,
                     headers := some (mergedHeaders headers),
                     body := if needsBody method then serializeBody body else none } }
  else if isName name "coupon.create" then do
    let url ← buildUrl w.newURL BASE_URL (.str "/coupons") .undefined
    let body ← args.readProp "body"
    pure { url := url,
           init := { method := .str "POST",
                     headers := some [("content-type", .str "application/json")],
                     body := jsonStringify (body.nullish (.obj [])) } }
  else if isName name "coupon.get" then do
    let id ← args.readProp "id"
    let url ← buildUrl w.newURL BASE_URL (.str ("/coupons/" ++ encodeURIComponent id)) .undefined
    pure { url := url, init := { method := .str "GET", headers := none, body := none } }
  else if isName name "coupon.list" then do
    let query ← args.readProp "query"
    let url ← buildUrl w.newURL BASE_URL (.str "/coupons") query
    pure { url := url, init := { method := .str "GET", headers := none, body := none } }
  else do
    let query ← args.readProp "query"
    let url ← buildUrl w.newURL BASE_URL (.str "/api/mcp/jutuike/public_promo_list") query
    pure { url := url, init := { method := .str "GET", headers := none, body := none } }

/-- The execution stage shared by the five tool branches: the `fetch` call, the read of
the response, the envelope. -/
def complete (w : World) (c : Call) : Async Envelope := do
  let res ← w.doFetch c.url c.init
  let out ← Async.lift (readResponse w res)
  pure { content := [out], isError := none }

/-- The values of the parameters named `k` in a parameter list, in order. -/
def valuesOf (k : String) (params : List (String × String)) : List String :=
  (params.filter fun p => p.1 == k).map Prod.snd

/-- The bytes that the urlencoded parser reads for one serialized byte. -/
def serializedByte (b : Nat) : List Nat := (urlencodedByte b).flatMap utf8Bytes

/-- What the urlencoded parser needs of one serialized byte: it holds no `&` and no `=`,
and once `+` is read as a space it is the byte itself, other than `%`, or a `%` followed
by the two hexadecimal digits of the byte. -/
def serializedByteOk (b : Nat) : Bool :=
  (serializedByte b).all (fun x => x != 0x26 && x != 0x3D) &&
    (match (serializedByte b).map fun x => if x = 0x2B then 0x20 else x with
      | [x] => x == b && x != 37
      | [p, h, l] => p == 37 && hexPair [h, l] == some b
      | _ => false)

/-- The bytes that the urlencoded parser reads for a serialized parameter list. -/
def serializedBytes : List (String × String) → List Nat
  | [] => []
  | (n, v) :: rest =>
    (utf8Encode n).flatMap serializedByte ++ 0x3D :: (utf8Encode v).flatMap serializedByte ++
      (match rest with
        | [] => []
        | _ :: _ => 0x26 :: serializedBytes rest)

/-- A platform in which `new URL` is the WHATWG parser. -/
def World.standard (w : World) : Prop := w.newURL = whatwgURL

/-! ## Letter case of ASCII tokens -/

/-- ASCII upper-casing of one character. -/
def asciiUpperChar (c : Char) : Char :=
  if 97 ≤ c.toNat ∧ c.toNat ≤ 122 then Char.ofNat (c.toNat - 32) else c

/-- The ASCII upper-case form of a string: the string with its ASCII lower-case letters
replaced by the upper-case ones. -/
def asciiUpper (s : String) : String := String.mk (s.data.map asciiUpperChar)

/-- A string of ASCII characters, as an HTTP method token is. -/
def isAscii (s : String) : Bool := s.data.all fun c => c.toNat < 128

/-! ## Notions for the header and refinement statements -/

/-- The default header entry of the generic tool. -/
def defaultContentType : String × JSValue := ("content-type", .str "application/json")

/-- A call with the headers replaced by the single default header of the generic tool. -/
def withDefaultHeaders (c : Call) : Call :=
  { c with init := { c.init with headers := some [defaultContentType] } }

/-- The arguments of the generic tool for a fixed method and path and one more field. -/
def genericArgs (method path key : String) (value : JSValue) : JSValue :=
  .obj [("method", .str method), ("path", .str path), (key, value)]

/-- The value that the headers object of the generic tool holds under `content-type`: the
value the caller gave under that very key, or the default. -/
def contentTypeOf (dflt : JSValue) (hs : List (String × JSValue)) : JSValue :=
  match hs.find? fun p => p.1 == "content-type" with
  | some p => p.2
  | none => dflt

/-! ## Numbers: binary64 values and their decimal text

A Number of JavaScript is a binary64 value. A finite one is written `m × 2^(e - 1074)`
with `m < 2^53`, and with `2^52 ≤ m` unless `e = 0`; all arithmetic below is exact
arithmetic on naturals. `roundBinary64` is the rounding of a fraction to the nearest
value, a tie going to the even significand (the function 𝔽 of ECMA-262), `toNumber` is
the value of a decimal literal, and `numberToString` is `Number::toString`: the
shortest decimal that rounds to the value, the nearest one of that length, in the
notation of the standard. -/

/-- A Number other than NaN. -/
inductive Binary64 where
  | finite (negative : Bool) (m e : Nat)
  | infinite (negative : Bool)
deriving DecidableEq

/-- A finite value in its normal form. -/
def Binary64.isFinite : Binary64 → Bool
  | .finite _ m e => decide (m < 2 ^ 53) && decide (e ≤ 2045) && (decide (2 ^ 52 ≤ m) || e == 0)
  | .infinite _ => false

/-- The power `b ^ n`, computed in steps of two hundred. -/
def power (b n : Nat) : Nat := (b ^ 200) ^ (n / 200) * b ^ (n % 200)

/-- The position of the leading binary digit of a positive natural (the integer part of
its binary logarithm), found by halving the range; 8191 for the naturals from `2^8191`
on, which are beyond every finite value. -/
def binaryPosition (t : Nat) : Nat :=
  [4096, 2048, 1024, 512, 256, 128, 64, 32, 16, 8, 4, 2, 1].foldl
    (fun acc step => if power 2 (acc + step) ≤ t then acc + step else acc) 0

/-- The quotient rounded to the nearest natural, a tie going to the even one. -/
def divRoundEven (a b : Nat) : Nat :=
  if 2 * (a % b) < b then a / b
  else if b < 2 * (a % b) then a / b + 1
  else if a / b % 2 = 0 then a / b
  else a / b + 1

/-- The binary64 value nearest to the fraction `p / q`, a tie going to the even
significand; beyond the largest finite value the result is infinite. -/
def roundBinary64 (negative : Bool) (p q : Nat) : Binary64 :=
  let t := p * power 2 1074 / q
  let e := if t < 2 ^ 53 then 0 else binaryPosition t - 52
  let m := divRoundEven (p * power 2 1074) (q * power 2 e)
  if m = 2 ^ 53 then
    if 2045 < e + 1 then .infinite negative else .finite negative (2 ^ 52) (e + 1)
  else if 2045 < e then .infinite negative
  else .finite negative m e

/-- The character of a decimal digit. -/
def digitChar (d : Nat) : Char := Char.ofNat (48 + d)

/-- The decimal digits of a natural, written before the digits already found. -/
def decimalDigitsFrom : Nat → Nat → List Char → List Char
  | 0, _, acc => acc
  | fuel + 1, n, acc =>
    if n < 10 then digitChar n :: acc
    else decimalDigitsFrom fuel (n / 10) (digitChar (n % 10) :: acc)

/-- The decimal digits of a natural, the most significant first. -/
def decimalDigits (n : Nat) : List Char := decimalDigitsFrom (n + 1) n []

/-- The number that a decimal literal denotes: its sign and a fraction `p / q`. The
literal is `-? whole (. frac)? ([eE] [+-]? digits)?`. -/
def literalValue (lit : List Char) : Bool × Nat × Nat :=
  let negative := lit.head? == some '-'
  let body := if negative then lit.drop 1 else lit
  let mant := body.takeWhile fun c => !(c == 'e' || c == 'E')
  let expo := (body.dropWhile fun c => !(c == 'e' || c == 'E')).drop 1
  let whole := mant.takeWhile fun c => c != '.'
  let frac := (mant.dropWhile fun c => c != '.').drop 1
  let expNegative := expo.head? == some '-'
  let expDigits := if expo.head? == some '-' || expo.head? == some '+' then expo.drop 1 else expo
  let up := if expNegative then 0 else decimalValue expDigits
  let down := frac.length + (if expNegative then decimalValue expDigits else 0)
  (negative, decimalValue (whole ++ frac) * power 10 up, power 10 down)

/-- The Number that a decimal literal denotes. -/
def toNumber (lit : List Char) : Binary64 :=
  roundBinary64 (literalValue lit).1 (literalValue lit).2.1 (literalValue lit).2.2

/-- Whether `x / y < 10^n`. -/
def ltPow10 (x y : Nat) (n : Int) : Bool :=
  if 0 ≤ n then decide (x < y * power 10 n.toNat) else decide (x * power 10 (-n).toNat < y)

/-- The least `n`, counted up from a start, with `x / y < 10^n`. -/
def findPosition (x y : Nat) : Nat → Int → Int
  | 0, n => n
  | fuel + 1, n => if ltPow10 x y n then n else findPosition x y fuel (n + 1)

/-- The position of the leading digit of a positive binary64 value `x / y`: the `n` with
`10^(n-1) ≤ x / y < 10^n`, which lies between -323 and 309. -/
def decimalPosition (x y : Nat) : Int := findPosition x y 640 (-324)

/-- The decimal `s × 10^(-shift)` as a fraction. -/
def scaled (s : Nat) (shift : Int) : Nat × Nat :=
  if 0 < shift then (s, power 10 shift.toNat) else (s * power 10 (-shift).toNat, 1)

/-- Whether the decimal `s × 10^(-shift)` rounds to the value `m × 2^(e - 1074)`. -/
def roundsTo (s : Nat) (shift : Int) (m e : Nat) : Bool :=
  roundBinary64 false (scaled s shift).1 (scaled s shift).2 == .finite false m e

/-- The value `m × 2^(e - 1074)` times `10^shift`, as a fraction. -/
def shifted (m e : Nat) (shift : Int) : Nat × Nat :=
  if 0 ≤ shift then (m * power 2 e * power 10 shift.toNat, power 2 1074)
  else (m * power 2 e, power 2 1074 * power 10 (-shift).toNat)

/-- The decimal of `k` digits below the value, at the position `n` of the leading digit:
the integer part of the value times `10^(k - n)`. -/
def lowerDecimal (m e : Nat) (n : Int) (k : Nat) : Nat :=
  (shifted m e (k - n)).1 / (shifted m e (k - n)).2

/-- The two decimals of `k` digits next to the value, each as `(s, shift)` standing for
`s × 10^(-shift)`, the nearer one first (of two equally near the even one). The upper one
is written with one digit when it is a power of ten. -/
def neighbours (m e : Nat) (n : Int) (k : Nat) : (Nat × Int) × (Nat × Int) :=
  let a := (shifted m e (k - n)).1
  let b := (shifted m e (k - n)).2
  let lo : Nat × Int := (lowerDecimal m e n k, k - n)
  let hi : Nat × Int :=
    if lowerDecimal m e n k + 1 = power 10 k then (power 10 (k - 1), k - n - 1)
    else (lowerDecimal m e n k + 1, k - n)
  if 2 * (a % b) < b ∨ (2 * (a % b) = b ∧ lowerDecimal m e n k % 2 = 0) then (lo, hi)
  else (hi, lo)

/-- The search of `Number::toString` from `k` digits on: the two decimals of `k` digits
next to the value are tried, the nearer one first, and the first that rounds to the value
is the result. -/
def shortestFrom (m e : Nat) (n : Int) : Nat → Nat → Nat × Int
  | 0, _ => (0, 0)
  | fuel + 1, k =>
    if roundsTo (neighbours m e n k).1.1 (neighbours m e n k).1.2 m e then (neighbours m e n k).1
    else if roundsTo (neighbours m e n k).2.1 (neighbours m e n k).2.2 m e then
      (neighbours m e n k).2
    else shortestFrom m e n fuel (k + 1)

/-- The shortest decimal `s × 10^(-shift)` that rounds to the positive value
`m × 2^(e - 1074)`. The search is bounded by more digits than the exact decimal expansion
of a binary64 value has, and that expansion rounds to the value. -/
def shortest (m e : Nat) : Nat × Int :=
  shortestFrom m e (decimalPosition (m * power 2 e) (power 2 1074)) 1400 1

/-- A decimal literal written from its parts: the digits before the point, the digits
after it (with none of them there is no point), and the exponent, if there is one, with
its sign. -/
def decimalText (whole frac : List Char) (expo : Option (Bool × List Char)) : List Char :=
  whole ++ (if frac.isEmpty then [] else '.' :: frac) ++
    (match expo with
      | none => []
      | some (negative, digits) => 'e' :: (if negative then '-' else '+') :: digits)

/-- The notation of `Number::toString` for the decimal `s × 10^(-shift)`: with `k` the
number of digits of `s` and `n = k - shift`, an integer when `k ≤ n ≤ 21`, a decimal
fraction when `-6 < n ≤ 21`, the exponent form with the exponent `n - 1` otherwise. -/
def formatDecimal (s : Nat) (shift : Int) : List Char :=
  let ds := decimalDigits s
  let n : Int := ds.length - shift
  if (ds.length : Int) ≤ n ∧ n ≤ 21 then
    decimalText (ds ++ List.replicate (n - ds.length).toNat '0') [] none
  else if 0 < n ∧ n ≤ 21 then decimalText (ds.take n.toNat) (ds.drop n.toNat) none
  else if -6 < n ∧ n ≤ 0 then decimalText ['0'] (List.replicate (-n).toNat '0' ++ ds) none
  else
    decimalText (ds.take 1) (ds.drop 1) (some (decide (n - 1 < 0), decimalDigits (n - 1).natAbs))

/-- The function `Number::toString` in base ten, on a Number other than NaN. -/
def numberToString : Binary64 → String
  | .infinite negative => if negative then "-Infinity" else "Infinity"
  | .finite negative m e =>
    if m = 0 then "0"
    else
      String.mk ((if negative then ['-'] else []) ++
        formatDecimal (shortest m e).1 (shortest m e).2)

/-! ## JSON.parse

The decoder that matches `JSON.stringify`, after the JSON grammar of ECMA-404 and the
evaluation rules of `JSON.parse`: a number literal is read as the Number it denotes
(carried, as every number of the embedding, by the text `Number::toString` writes for
it), and the members of an object come in the order of its own property keys. One kind
of text is left outside: a string literal with an escape that writes a surrogate code
unit without its pair (strings of the embedding hold code points). On it the decoder
answers `outsideJsonModel`, never a value. -/

/-- The `SyntaxError` of `JSON.parse`. -/
def jsonSyntaxError : Thrown := .error "SyntaxError" "Unexpected token in JSON"

/-- The answer on a text that the decoder of the embedding does not cover. -/
def outsideJsonModel : Thrown := .error "OutsideModel" "JSON text outside the modelled fragment"

/-- JSON white space: space, tab, line feed, carriage return. -/
def isJsonSpace (c : Char) : Bool :=
  c.toNat == 0x20 || c.toNat == 0x09 || c.toNat == 0x0A || c.toNat == 0x0D

/-- The text after its leading white space. -/
def skipSpace (cs : List Char) : List Char := cs.dropWhile isJsonSpace

/-- The value of the four hexadecimal digits at the head of a text. -/
def hexQuad : List Char → Option Nat
  | a :: b :: c :: d :: _ =>
    match hexVal a.toNat, hexVal b.toNat, hexVal c.toNat, hexVal d.toNat with
    | some x, some y, some z, some w => some (((x * 16 + y) * 16 + z) * 16 + w)
    | _, _, _, _ => none
  | _ => none

/-- The character that the escape after a backslash stands for, with the number of
characters the escape takes; two `\u` escapes that write a surrogate pair stand for one
character. -/
def unescape : List Char → Except Thrown (Char × Nat)
  | [] => .error jsonSyntaxError
  | e :: rest =>
    if e.toNat = 0x22 then .ok (Char.ofNat 0x22, 1)
    else if e.toNat = 0x5C then .ok (Char.ofNat 0x5C, 1)
    else if e = '/' then .ok ('/', 1)
    else if e = 'b' then .ok (Char.ofNat 0x08, 1)
    else if e = 'f' then .ok (Char.ofNat 0x0C, 1)
    else if e = 'n' then .ok (Char.ofNat 0x0A, 1)
    else if e = 'r' then .ok (Char.ofNat 0x0D, 1)
    else if e = 't' then .ok (Char.ofNat 0x09, 1)
    else if e = 'u' then
      match hexQuad rest with
      | none => .error jsonSyntaxError
      | some n =>
        if 0xD800 ≤ n ∧ n ≤ 0xDBFF then
          match rest.drop 4 with
          | b :: u :: more =>
            if b.toNat = 0x5C ∧ u = 'u' then
              match hexQuad more with
              | some low =>
                if 0xDC00 ≤ low ∧ low ≤ 0xDFFF then
                  .ok (Char.ofNat (0x10000 + (n - 0xD800) * 0x400 + (low - 0xDC00)), 11)
                else .error outsideJsonModel
              | none => .error outsideJsonModel
            else .error outsideJsonModel
          | _ => .error outsideJsonModel
        else if 0xDC00 ≤ n ∧ n ≤ 0xDFFF then .error outsideJsonModel
        else .ok (Char.ofNat n, 5)
    else .error jsonSyntaxError

/-- The characters of a string literal after its opening quote, with `skip` characters of
an escape still to pass over: the string read and the text after the closing quote. -/
def stringChars : Nat → List Char → List Char → Except Thrown (List Char × List Char)
  | _, [], _ => .error jsonSyntaxError
  | skip + 1, _ :: rest, acc => stringChars skip rest acc
  | 0, c :: rest, acc =>
    if c.toNat = 0x22 then .ok (acc, rest)
    else if c.toNat = 0x5C then
      match unescape rest with
      | .ok (ch, n) => stringChars n rest (acc ++ [ch])
      | .error e => .error e
    else if c.toNat < 0x20 then .error jsonSyntaxError
    else stringChars 0 rest (acc ++ [c])

/-- A character that a JSON number literal can contain. -/
def isNumberChar (c : Char) : Bool :=
  isAsciiDigit c || c == '-' || c == '+' || c == '.' || c == 'e' || c == 'E'

/-- One decimal digit or more. -/
def isDigits (cs : List Char) : Bool := !cs.isEmpty && cs.all isAsciiDigit

/-- The exponent part of a JSON number literal, or nothing. -/
def isExponentPart : List Char → Bool
  | [] => true
  | e :: rest =>
    (e == 'e' || e == 'E') &&
      isDigits (match rest with
        | s :: r => if s == '+' || s == '-' then r else rest
        | [] => [])

/-- The fraction and exponent parts of a JSON number literal, or nothing. -/
def isFractionPart : List Char → Bool
  | [] => true
  | c :: rest =>
    if c == '.' then
      isDigits (rest.takeWhile isAsciiDigit) && isExponentPart (rest.dropWhile isAsciiDigit)
    else isExponentPart (c :: rest)

/-- The grammar of a JSON number literal. -/
def isNumberLiteral (lit : List Char) : Bool :=
  match (match lit with
    | c :: r => if c == '-' then r else lit
    | [] => []) with
  | [] => false
  | d :: rest =>
    if d == '0' then isFractionPart rest
    else isAsciiDigit d && isFractionPart (rest.dropWhile isAsciiDigit)

/-- The text of a finite Number: a JSON number literal that `Number::toString` writes
for the Number it denotes. -/
def isCanonicalNumber (lit : List Char) : Bool :=
  lit.all isNumberChar && isNumberLiteral lit && (numberToString (toNumber lit)).data == lit

/-- The text after a literal word, when the text starts with it. -/
def dropLiteral : List Char → List Char → Option (List Char)
  | [], cs => some cs
  | _ :: _, [] => none
  | p :: ps, c :: cs => if p = c then dropLiteral ps cs else none

/-- A number literal at the head of a text: the Number it denotes and the text after it. -/
def parseNumber (cs : List Char) : Except Thrown (JSValue × List Char) :=
  if isNumberLiteral (cs.takeWhile isNumberChar) then
    .ok (.num (numberToString (toNumber (cs.takeWhile isNumberChar))), cs.dropWhile isNumberChar)
  else .error jsonSyntaxError

/-- An array index as a property key: the decimal text of a natural below `2^32 - 1`. -/
def isArrayIndex (key : String) : Bool :=
  isDigits key.data && (key.data == ['0'] || key.data.head? != some '0') &&
    decide (key.data.length ≤ 10) && decide (decimalValue key.data < 4294967295)

/-- The rank of a property key in the order of own property keys: an array index ranks
by its value, every other key after all of them. -/
def keyRank (key : String) : Nat :=
  if isArrayIndex key then decimalValue key.data else 4294967295

/-- The properties in the order of own property keys: the array indices in ascending
order, then the other keys in the order in which they were added. -/
def ownPropertyOrder (props : List (String × JSValue)) : List (String × JSValue) :=
  props.insertionSort fun a b => keyRank a.1 ≤ keyRank b.1

mutual
/-- A JSON value at the head of a text: the value and the text after it. The first
argument bounds the depth of the descent. -/
def parseValue : Nat → List Char → Except Thrown (JSValue × List Char)
  | 0, _ => .error outsideJsonModel
  | fuel + 1, cs =>
    match skipSpace cs with
    | [] => .error jsonSyntaxError
    | c :: rest =>
      if c.toNat = 0x22 then
        match stringChars 0 rest [] with
        | .ok (s, r) => .ok (.str (String.mk s), r)
        | .error e => .error e
      else if c = '[' then
        match skipSpace rest with
        | [] => .error jsonSyntaxError
        | d :: r =>
          if d = ']' then .ok (.arr [], r)
          else
            match parseElements fuel rest with
            | .ok (items, r2) => .ok (.arr items, r2)
            | .error e => .error e
      else if c.toNat = 0x7B then
        match skipSpace rest with
        | [] => .error jsonSyntaxError
        | d :: r =>
          if d.toNat = 0x7D then .ok (.obj [], r)
          else
            match parseMembers fuel rest with
            | .ok (members, r2) => .ok (.obj (ownPropertyOrder (members.foldl setProp [])), r2)
            | .error e => .error e
      else
        match dropLiteral ['n', 'u', 'l', 'l'] (c :: rest) with
        | some r => .ok (.null, r)
        | none =>
          match dropLiteral ['t', 'r', 'u', 'e'] (c :: rest) with
          | some r => .ok (.bool true, r)
          | none =>
            match dropLiteral ['f', 'a', 'l', 's', 'e'] (c :: rest) with
            | some r => .ok (.bool false, r)
            | none => parseNumber (c :: rest)
/-- The elements of an array after its opening bracket, up to the closing one. -/
def parseElements : Nat → List Char → Except Thrown (List JSValue × List Char)
  | 0, _ => .error outsideJsonModel
  | fuel + 1, cs =>
    match parseValue fuel cs with
    | .error e => .error e
    | .ok (v, r) =>
      match skipSpace r with
      | [] => .error jsonSyntaxError
      | d :: r2 =>
        if d = ',' then
          match parseElements fuel r2 with
          | .ok (vs, r3) => .ok (v :: vs, r3)
          | .error e => .error e
        else if d = ']' then .ok ([v], r2)
        else .error jsonSyntaxError
/-- The members of an object after its opening brace, up to the closing one, in the
order of the text. -/
def parseMembers : Nat → List Char → Except Thrown (List (String × JSValue) × List Char)
  | 0, _ => .error outsideJsonModel
  | fuel + 1, cs =>
    match skipSpace cs with
    | [] => .error jsonSyntaxError
    | q :: r0 =>
      if q.toNat = 0x22 then
        match stringChars 0 r0 [] with
        | .error e => .error e
        | .ok (k, r1) =>
          match skipSpace r1 with
          | [] => .error jsonSyntaxError
          | colon :: r2 =>
            if colon = ':' then
              match parseValue fuel r2 with
              | .error e => .error e
              | .ok (v, r3) =>
                match skipSpace r3 with
                | [] => .error jsonSyntaxError
                | d :: r4 =>
                  if d = ',' then
                    match parseMembers fuel r4 with
                    | .ok (ms, r5) => .ok ((String.mk k, v) :: ms, r5)
                    | .error e => .error e
                  else if d.toNat = 0x7D then .ok ([(String.mk k, v)], r4)
                  else .error jsonSyntaxError
            else .error jsonSyntaxError
      else .error jsonSyntaxError
end

/-- The function `JSON.parse(text)` without a reviver: the value of the text, which may
stand between white space. A member whose key comes again replaces the value of the
earlier one in place, and the members of an object are listed in the order of its own
property keys. -/
def jsonParse (text : String) : Except Thrown JSValue :=
  match parseValue (text.length + 1) text.data with
  | .error e => .error e
  | .ok (v, rest) => if (skipSpace rest).isEmpty then .ok v else .error jsonSyntaxError

mutual
/-- A value that JSON can write: no `undefined` in it, every number finite and carried by
the text `Number::toString` writes for it, the properties of every object under distinct
keys and in the order of own property keys. -/
def isJSONValue : JSValue → Bool
  | .undefined => false
  | .null => true
  | .bool _ => true
  | .num r => isCanonicalNumber r.data
  | .str _ => true
  | .arr items => allJSONValues items
  | .obj props =>
    decide (props.map Prod.fst).Nodup &&
      decide (props.Sorted fun a b => keyRank a.1 ≤ keyRank b.1) && allJSONMembers props
termination_by structural v => v
/-- Every element is a value that JSON can write. -/
def allJSONValues : List JSValue → Bool
  | [] => true
  | x :: rest => isJSONValue x && allJSONValues rest
termination_by structural l => l
/-- Every member holds a value that JSON can write. -/
def allJSONMembers : List (String × JSValue) → Bool
  | [] => true
  | kv :: rest => isJSONValue kv.2 && allJSONMembers rest
termination_by structural l => l
end

mutual
/-- A JSON value of the embedding: `null`, a boolean, a string, a finite Number (carried
by the text `Number::toString` writes for it), an array of JSON values, or an object
whose properties hold JSON values under distinct keys, in the order of own property
keys. -/
def IsJSON : JSValue → Prop
  | .undefined => False
  | .null => True
  | .bool _ => True
  | .num r => ∃ d : Binary64, d.isFinite = true ∧ numberToString d = r
  | .str _ => True
  | .arr items => AllJSON items
  | .obj props =>
    (props.map Prod.fst).Nodup ∧ (props.Sorted fun a b => keyRank a.1 ≤ keyRank b.1) ∧
      AllJSONMembers props
termination_by structural v => v
/-- Every element is a JSON value. -/
def AllJSON : List JSValue → Prop
  | [] => True
  | x :: rest => IsJSON x ∧ AllJSON rest
termination_by structural l => l
/-- Every member holds a JSON value. -/
def AllJSONMembers : List (String × JSValue) → Prop
  | [] => True
  | kv :: rest => IsJSON kv.2 ∧ AllJSONMembers rest
termination_by structural l => l
end

/-- A text that can follow a value: it does not go on with a character of a number
literal. -/
def endsValue (rest : List Char) : Prop := ∀ c r, rest = c :: r → isNumberChar c = false

/-- The decoder reads the written text of the value back: the value has a text, the text
starts with a character of its own, and on that text, whatever ends the value after it,
the decoder returns the value and the text after it. -/
def ReadsBack (v : JSValue) : Prop :=
  ∃ t, jsonText v = some t ∧ (∃ c r, t = c :: r ∧ isJsonSpace c = false ∧ c ≠ ']') ∧
    ∀ fuel rest, t.length < fuel → endsValue rest → parseValue fuel (t ++ rest) = .ok (v, rest)

/-- The decoder reads the written elements of an array back, up to the closing bracket. -/
def ElementsReadBack (l : List JSValue) : Prop :=
  (∃ c r, jsonElements l = c :: r ∧ isJsonSpace c = false ∧ c ≠ ']') ∧
    ∀ fuel rest, (jsonElements l).length + 1 < fuel →
      parseElements fuel (jsonElements l ++ ']' :: rest) = .ok (l, rest)

/-- The decoder reads the written members of an object back, up to the closing brace;
after an earlier member they are written with a comma before them. -/
def MembersReadBack (l : List (String × JSValue)) : Prop :=
  (∃ r, jsonMembers l false = Char.ofNat 0x22 :: r) ∧
    jsonMembers l true = ',' :: jsonMembers l false ∧
    ∀ fuel rest, (jsonMembers l false).length + 1 < fuel →
      parseMembers fuel (jsonMembers l false ++ Char.ofNat 0x7D :: rest) = .ok (l, rest)

/-! ## Sample worlds for the closed examples -/

/-- A stand-in for `JSON.parse` in the closed examples: right on the JSON text
`{"id":"c1"}` and on the texts of the examples that are not JSON (the empty text, plain
words), which give a `SyntaxError`. The general statements quantify over `parseJSON`. -/
def sampleParse (s : String) : Except Thrown JSValue :=
  if s = "\x7b\"id\":\"c1\"\x7d" then .ok (.obj [("id", .str "c1")])
  else .error (.error "SyntaxError" "Unexpected token in JSON")

/-- A world with the WHATWG parser whose upstream gives every request the same outcome. -/
def sampleWorld (outcome : Except Thrown HttpReply) : World :=
  { newURL := whatwgURL, fetch := fun _ _ => outcome, parseJSON := sampleParse }

/-- A world whose upstream answers according to whether the request has headers. -/
def headerSensitiveWorld : World :=
  { newURL := whatwgURL,
    fetch := fun _ init =>
      .ok { status := 200, contentType := some "text/plain",
            body := some (.ok (if init.headers.isSome then "with headers" else "without headers")) },
    parseJSON := sampleParse }

/-- A request `{name, arguments}`. -/
def invocation (name : String) (args : JSValue) : JSValue :=
  .obj [("name", .str name), ("arguments", args)]

/-- A `GET` call without headers and body. -/
def getCall (url : String) : Call :=
  { url := url, init := { method := .str "GET", headers := none, body := none } }

/-! ## The dispatcher: shape of a run -/

theorem isCatalogName_iff (name : JSValue) :
    isCatalogName name = true ↔
      (isName name "http.request" = true ∨ isName name "coupon.create" = true ∨
        isName name "coupon.get" = true ∨ isName name "coupon.list" = true ∨
        isName name "jutuike.public_promo_list" = true) := by
  simp [isCatalogName, tools]

theorem tryBlock_catalog (w : World) (name args : JSValue) (h : isCatalogName name = true) :
    tryBlock w name args =
      match outbound w name args with
      | .ok c => complete w c
      | .error e => Async.lift (.error e) := by
  unfold tryBlock outbound
  by_cases h1 : isName name "http.request" = true
  · simp only [h1, if_true]
    cases hd : destructureArgs args with
    | error e => rfl
    | ok t =>
      obtain ⟨method, path, query, headers, body⟩ := t
      cases hb : buildUrl w.newURL BASE_URL path query <;>
        simp [hb, bind, Except.bind, Async.bind, Async.lift, complete, pure, Except.pure]
  by_cases h2 : isName name "coupon.create" = true
  · simp only [h1, h2, if_true]
    cases hb : buildUrl w.newURL BASE_URL (.str "/coupons") .undefined with
    | error e => rfl
    | ok url =>
      cases hr : args.readProp "body" <;>
        simp [hr, bind, Except.bind, Async.bind, Async.lift, complete, pure, Except.pure]
  by_cases h3 : isName name "coupon.get" = true
  · simp only [h1, h2, h3, if_true]
    cases hr : args.readProp "id" with
    | error e => rfl
    | ok id =>
      cases hb : buildUrl w.newURL BASE_URL (.str ("/coupons/" ++ encodeURIComponent id)) .undefined <;>
        simp [hb, bind, Except.bind, Async.bind, Async.lift, complete, pure, Except.pure]
  by_cases h4 : isName name "coupon.list" = true
  · simp only [h1, h2, h3, h4, if_true]
    cases hr : args.readProp "query" with
    | error e => rfl
    | ok query =>
      cases hb : buildUrl w.newURL BASE_URL (.str "/coupons") query <;>
        simp [hb, bind, Except.bind, Async.bind, Async.lift, complete, pure, Except.pure]
  have h5 : isName name "jutuike.public_promo_list" = true := by
    rcases (isCatalogName_iff name).1 h with h | h | h | h | h
    · exact absurd h h1
    · exact absurd h h2
    · exact absurd h h3
    · exact absurd h h4
    · exact h
  simp only [h1, h2, h3, h4, h5, if_true]
  cases hr : args.readProp "query" with
  | error e => rfl
  | ok query =>
    cases hb : buildUrl w.newURL BASE_URL (.str "/api/mcp/jutuike/public_promo_list") query <;>
      simp [hb, bind, Except.bind, Async.bind, Async.lift, complete, pure, Except.pure]

theorem tryBlock_unknown (w : World) (name args : JSValue) (h : isCatalogName name = false) :
    tryBlock w name args =
      { result := .ok { content := [.text ("Unknown tool: " ++ name.toJSString)],
                        isError := some true },
        calls := [] } := by
  have h0 : ¬ isCatalogName name = true := by simp [h]
  rw [isCatalogName_iff] at h0
  simp only [not_or] at h0
  obtain ⟨h1, h2, h3, h4, h5⟩ := h0
  unfold tryBlock
  simp only [h1, h2, h3, h4, h5, if_false]
  rfl

/-- Shape of the execution stage: one logged call, and a result decided by the reply. -/
theorem complete_eq (w : World) (c : Call) :
    complete w c =
      { result :=
          match w.fetch c.url c.init with
          | .error e => .error e
          | .ok reply =>
            match readResponse w { reply := reply, disturbed := false } with
            | .error e => .error e
            | .ok out => .ok { content := [out], isError := none },
        calls := [c] } := by
  unfold complete
  cases hf : w.fetch c.url c.init with
  | error e => simp [bind, Async.bind, World.doFetch, hf, Except.map]
  | ok reply =>
    cases hr : readResponse w { reply := reply, disturbed := false } <;>
      simp [bind, Async.bind, World.doFetch, hf, Except.map, Async.lift, hr, pure]

theorem handler_catalog (w : World) (req : JSValue)
    (h : isCatalogName (requestName req) = true) :
    handler w req =
      match outbound w (requestName req) (requestArgs req) with
      | .error e => { result := .ok (requestFailed (errorMessage e)), calls := [] }
      | .ok c =>
        { result := .ok
            (match w.fetch c.url c.init with
              | .error e => requestFailed (errorMessage e)
              | .ok reply =>
                match readResponse w { reply := reply, disturbed := false } with
                | .error e => requestFailed (errorMessage e)
                | .ok out => { content := [out], isError := none }),
          calls := [c] } := by
  unfold handler
  rw [tryBlock_catalog w _ _ h]
  cases ho : outbound w (requestName req) (requestArgs req) with
  | error e => simp [Async.lift]
  | ok c =>
    simp only [complete_eq]
    cases hf : w.fetch c.url c.init with
    | error e => simp
    | ok reply =>
      cases hr : readResponse w { reply := reply, disturbed := false } <;> simp [hr]

theorem handler_unknown (w : World) (req : JSValue)
    (h : isCatalogName (requestName req) = false) :
    handler w req =
      { result := .ok { content := [.text ("Unknown tool: " ++ (requestName req).toJSString)],
                        isError := some true },
        calls := [] } := by
  unfold handler
  rw [tryBlock_unknown w _ _ h]

/-- A logged call is the request the tool built, and the tool is one of the catalog. -/
theorem handler_call (w : World) (req : JSValue) (c : Call) (h : c ∈ (handler w req).calls) :
    isCatalogName (requestName req) = true ∧
      outbound w (requestName req) (requestArgs req) = .ok c := by
  cases hn : isCatalogName (requestName req) with
  | false => rw [handler_unknown w req hn] at h; simp at h
  | true =>
    rw [handler_catalog w req hn] at h
    cases ho : outbound w (requestName req) (requestArgs req) with
    | error e => rw [ho] at h; simp at h
    | ok c1 =>
      rw [ho] at h
      simp at h
      simp [h]

/-- The result of a run that made the call `c`. -/
theorem handler_result_of_call (w : World) (req : JSValue) (c : Call)
    (h : c ∈ (handler w req).calls) :
    (handler w req).result = .ok
      (match w.fetch c.url c.init with
        | .error e => requestFailed (errorMessage e)
        | .ok reply =>
          match readResponse w { reply := reply, disturbed := false } with
          | .error e => requestFailed (errorMessage e)
          | .ok out => { content := [out], isError := none }) := by
  obtain ⟨hn, ho⟩ := handler_call w req c h
  rw [handler_catalog w req hn, ho]

theorem isName_eq_true (name : JSValue) (s : String) : isName name s = true ↔ name = .str s := by
  cases name <;> simp [isName]

theorem readResponse_json (w : World) (reply : HttpReply) (ct text : String) (v : JSValue)
    (hct : reply.contentType = some ct) (hjson : includes ct "application/json" = true)
    (hbody : reply.body = some (.ok text)) (hparse : w.parseJSON text = .ok v) :
    readResponse w { reply := reply, disturbed := false } = .ok (.json v) := by
  have hne : ct ≠ "" := by
    intro h
    rw [h] at hjson
    revert hjson
    decide
  simp [readResponse, hct, hne, hjson, Response.json, hbody, hparse]

theorem readResponse_text (w : World) (res : Response)
    (hct : res.reply.contentType = none ∨
      ∃ ct, res.reply.contentType = some ct ∧ includes ct "application/json" = false) :
    readResponse w res =
      match res.text.1 with
      | .ok text => .ok (.text ("Status " ++ toString res.reply.status ++ ": " ++ text))
      | .error e => .error e := by
  have hempty : includes "" "application/json" = false := by decide
  rcases hct with hct | ⟨ct, hct, hno⟩
  · simp [readResponse, hct, hempty]
  · by_cases hne : ct = ""
    · simp [readResponse, hct, hne, hempty]
    · simp [readResponse, hct, hne, hno]

/-- On a fresh response with a body stream and a content type that includes
`application/json`, a failure of `res.json()` is followed by `res.text()` on the stream
that `res.json()` has read. -/
theorem readResponse_after_failed_json (w : World) (reply : HttpReply) (ct : String)
    (stream : Except Thrown String) (e : Thrown)
    (hct : reply.contentType = some ct) (hjson : includes ct "application/json" = true)
    (hbody : reply.body = some stream)
    (hfail : (Response.json w { reply := reply, disturbed := false }).1 = .error e) :
    readResponse w { reply := reply, disturbed := false } = .error bodyUnusable := by
  have hne : ct ≠ "" := by
    intro h
    rw [h] at hjson
    revert hjson
    decide
  cases stream with
  | error e1 => simp [readResponse, hct, hne, hjson, Response.json, hbody, Response.text]
  | ok text =>
    cases hp : w.parseJSON text with
    | error e1 =>
      simp [readResponse, hct, hne, hjson, Response.json, hbody, hp, Response.text]
    | ok v => simp [Response.json, hbody, hp] at hfail

/-! ## C1: dispatch is total and absorbs every failure -/

/-- C1: for every world (every upstream behaviour) and every request (any name, any
arguments, absent and null ones included) the call-tool handler resolves with an
envelope and never rejects; whatever the `try` block throws is returned as the envelope
`Request failed: <message>` with `isError: true`; in particular this is the envelope
when the request construction of a catalog tool throws an error with message `m` (and
then no call is made), when the `fetch` call rejects with message `m`, and when the read
of the response throws with message `m`. -/
theorem dispatch_total_absorbs_failures (w : World) (req : JSValue) :
    (∃ envelope, (handler w req).result = .ok envelope) ∧
    (∀ err, (tryBlock w (requestName req) (requestArgs req)).result = .error err →
      (handler w req).result =
        .ok { content := [.text ("Request failed: " ++ errorMessage err)], isError := some true }) ∧
    (∀ n m, isCatalogName (requestName req) = true →
      outbound w (requestName req) (requestArgs req) = .error (.error n m) →
      handler w req =
        { result := .ok { content := [.text ("Request failed: " ++ m)], isError := some true },
          calls := [] }) ∧
    (∀ c n m, c ∈ (handler w req).calls → w.fetch c.url c.init = .error (.error n m) →
      (handler w req).result =
        .ok { content := [.text ("Request failed: " ++ m)], isError := some true }) ∧
    (∀ c reply n m, c ∈ (handler w req).calls → w.fetch c.url c.init = .ok reply →
      readResponse w { reply := reply, disturbed := false } = .error (.error n m) →
      (handler w req).result =
        .ok { content := [.text ("Request failed: " ++ m)], isError := some true }) := by
  refine ⟨?_, ?_, ?_, ?_, ?_⟩
  · unfold handler
    cases h : (tryBlock w (requestName req) (requestArgs req)).result with
    | error e => exact ⟨requestFailed (errorMessage e), by simp [h]⟩
    | ok envelope => exact ⟨envelope, by simp [h]⟩
  · intro err h
    unfold handler
    simp [h, requestFailed]
  · intro n m hn ho
    rw [handler_catalog w req hn, ho]
    rfl
  · intro c n m hc hf
    rw [handler_result_of_call w req c hc, hf]
    rfl
  · intro c reply n m hc hf hr
    rw [handler_result_of_call w req c hc, hf]
    simp only [hr]
    rfl

/-- C1, at two concrete inputs: the upstream refuses the connection of a `coupon.list`
call, and `coupon.get` is invoked with `null` arguments (no call is made). -/
theorem dispatch_total_absorbs_failures_witness :
    (handler (sampleWorld (.error (.error "TypeError" "fetch failed")))
        (invocation "coupon.list" (.obj []))).result =
      .ok { content := [.text "Request failed: fetch failed"], isError := some true } ∧
    handler (sampleWorld (.error (.error "TypeError" "fetch failed")))
        (invocation "coupon.get" .null) =
      { result := .ok { content :=
                          [.text "Request failed: Cannot read properties of null (reading 'id')"],
                        isError := some true },
        calls := [] } :=
  ⟨(dispatch_total_absorbs_failures (sampleWorld (.error (.error "TypeError" "fetch failed")))
      (invocation "coupon.list" (.obj []))).2.2.2.1
      (getCall "https://mcpcounpon.onrender.com/coupons") "TypeError" "fetch failed"
      (List.mem_singleton.mpr rfl) rfl,
   (dispatch_total_absorbs_failures (sampleWorld (.error (.error "TypeError" "fetch failed")))
      (invocation "coupon.get" .null)).2.2.1
      "TypeError" "Cannot read properties of null (reading 'id')" rfl rfl⟩

/-! ## C2: unknown tool names -/

/-- C2: for every request whose name is none of the five catalog names, whatever its
arguments and whatever the world, the handler makes no `fetch` call and resolves with
the envelope whose single content item is the text `Unknown tool: <name>` and whose
`isError` is `true`. -/
theorem unknown_tool_no_call (w : World) (req : JSValue)
    (h : ∀ n ∈ ["http.request", "coupon.create", "coupon.get", "coupon.list",
      "jutuike.public_promo_list"], requestName req ≠ .str n) :
    (handler w req).calls = [] ∧
    (handler w req).result =
      .ok { content := [.text ("Unknown tool: " ++ (requestName req).toJSString)],
            isError := some true } := by
  have hn : isCatalogName (requestName req) = false := by
    cases hc : isCatalogName (requestName req) with
    | false => rfl
    | true =>
      rw [isCatalogName_iff] at hc
      simp only [isName_eq_true] at hc
      rcases hc with hc | hc | hc | hc | hc <;> exact absurd hc (h _ (by simp))
  rw [handler_unknown w req hn]
  exact ⟨rfl, rfl⟩

/-- C2, at a concrete input: the name `coupon.delete`, with arguments. -/
theorem unknown_tool_no_call_witness :
    (handler (sampleWorld (.error (.error "TypeError" "fetch failed")))
        (invocation "coupon.delete" (.obj [("id", .str "c1")]))).calls = [] ∧
    (handler (sampleWorld (.error (.error "TypeError" "fetch failed")))
        (invocation "coupon.delete" (.obj [("id", .str "c1")]))).result =
      .ok { content := [.text "Unknown tool: coupon.delete"], isError := some true } :=
  unknown_tool_no_call (sampleWorld (.error (.error "TypeError" "fetch failed")))
    (invocation "coupon.delete" (.obj [("id", .str "c1")]))
    (by
      intro n hn
      have hname : requestName (invocation "coupon.delete" (.obj [("id", .str "c1")])) =
          .str "coupon.delete" := rfl
      rw [hname]
      simp only [List.mem_cons, List.mem_singleton, List.not_mem_nil, or_false] at hn
      rcases hn with rfl | rfl | rfl | rfl | rfl <;> simp)

/-! ## C3 and C4: replies are decoded whatever the status -/

/-- C3: for every status code and every value `v`: when the reply to the call of the
handler has a content type that includes `application/json` (in particular when it is
`application/json`) and a body whose text parses to `v`, the handler resolves with
exactly the envelope whose single item is the JSON item of `v`, without `isError`. This
holds for every tool that makes a call, `coupon.get` among them. -/
theorem json_reply_returned (w : World) (req : JSValue) (c : Call) (reply : HttpReply)
    (ct text : String) (v : JSValue)
    (hcall : c ∈ (handler w req).calls)
    (hfetch : w.fetch c.url c.init = .ok reply)
    (hct : reply.contentType = some ct) (hjson : includes ct "application/json" = true)
    (hbody : reply.body = some (.ok text)) (hparse : w.parseJSON text = .ok v) :
    (handler w req).result = .ok { content := [.json v], isError := none } := by
  rw [handler_result_of_call w req c hcall, hfetch]
  simp only [readResponse_json w reply ct text v hct hjson hbody hparse]

/-- C3, at the input of the spec: `coupon.get` answered with status 404, content type
`application/json` and body `{"id":"c1"}`. -/
theorem json_reply_returned_witness :
    (handler
        (sampleWorld (.ok { status := 404, contentType := some "application/json",
                            body := some (.ok "\x7b\"id\":\"c1\"\x7d") }))
        (invocation "coupon.get" (.obj [("id", .str "c1")]))).result =
      .ok { content := [.json (.obj [("id", .str "c1")])], isError := none } :=
  json_reply_returned
    (sampleWorld (.ok { status := 404, contentType := some "application/json",
                        body := some (.ok "\x7b\"id\":\"c1\"\x7d") }))
    (invocation "coupon.get" (.obj [("id", .str "c1")]))
    (getCall "https://mcpcounpon.onrender.com/coupons/c1")
    { status := 404, contentType := some "application/json",
      body := some (.ok "\x7b\"id\":\"c1\"\x7d") }
    "application/json" "\x7b\"id\":\"c1\"\x7d" (.obj [("id", .str "c1")])
    (List.mem_singleton.mpr rfl) rfl rfl (by decide) rfl rfl

/-- C4: for every status code `s` and raw body `b`: when the reply to the call of the
handler has no content type, or one that does not include `application/json`, and its
body reads as the text `b` (a null body reads as the empty text), the handler resolves
with exactly the envelope whose single item is the text `Status s: b`, without
`isError`. This holds for every tool that makes a call. -/
theorem text_reply_returned (w : World) (req : JSValue) (c : Call) (reply : HttpReply)
    (b : String)
    (hcall : c ∈ (handler w req).calls)
    (hfetch : w.fetch c.url c.init = .ok reply)
    (hct : reply.contentType = none ∨
      ∃ ct, reply.contentType = some ct ∧ includes ct "application/json" = false)
    (hbody : reply.body = some (.ok b) ∨ (reply.body = none ∧ b = "")) :
    (handler w req).result =
      .ok { content := [.text ("Status " ++ toString reply.status ++ ": " ++ b)],
            isError := none } := by
  rw [handler_result_of_call w req c hcall, hfetch]
  have hr := readResponse_text w { reply := reply, disturbed := false } hct
  rcases hbody with hb | ⟨hb, rfl⟩
  · simp [hr, Response.text, hb]
  · simp [hr, Response.text, hb]

/-- C4, at the input of the spec: status 500 with content type `text/plain`. -/
theorem text_reply_returned_witness :
    (handler
        (sampleWorld (.ok { status := 500, contentType := some "text/plain",
                            body := some (.ok "upstream down") }))
        (invocation "coupon.create" (.obj [("body", .obj [])]))).result =
      .ok { content := [.text "Status 500: upstream down"], isError := none } :=
  text_reply_returned
    (sampleWorld (.ok { status := 500, contentType := some "text/plain",
                        body := some (.ok "upstream down") }))
    (invocation "coupon.create" (.obj [("body", .obj [])]))
    { url := "https://mcpcounpon.onrender.com/coupons",
      init := { method := .str "POST",
                headers := some [("content-type", .str "application/json")],
                body := some "\x7b\x7d" } }
    { status := 500, contentType := some "text/plain", body := some (.ok "upstream down") }
    "upstream down"
    (List.mem_singleton.mpr rfl) rfl (Or.inr ⟨"text/plain", rfl, by decide⟩) (Or.inl rfl)

/-! ## C5: what leaves `readResponse` -/

/-- C5 (the code at the failing input): a 200 reply announced as `application/json` whose
body is the text `not json`. The text is not JSON, so `res.json()` fails after it has
read the stream; the error is swallowed, and `res.text()` is then called on the stream
that has been read and rejects: `readResponse` throws `Body is unusable` where the
fallback would return `Status 200: not json`, and the dispatcher answers the invocation
with the error envelope. -/
theorem readResponse_fallback_lost :
    sampleParse "not json" = .error (.error "SyntaxError" "Unexpected token in JSON") ∧
    readResponse (sampleWorld (.error (.error "TypeError" "fetch failed")))
        { reply := { status := 200, contentType := some "application/json",
                     body := some (.ok "not json") },
          disturbed := false } =
      .error (.error "TypeError" "Body is unusable: Body has already been read") ∧
    handler
        (sampleWorld (.ok { status := 200, contentType := some "application/json",
                            body := some (.ok "not json") }))
        (invocation "coupon.list" (.obj [])) =
      { result := .ok { content := [.text "Request failed: Body is unusable: Body has already been read"],
                        isError := some true },
        calls := [getCall "https://mcpcounpon.onrender.com/coupons"] } :=
  ⟨rfl, rfl, rfl⟩

/-- A rejection of `res.text()` leaves `readResponse`: a `text/plain` response whose body
stream fails while it is read. -/
theorem readResponse_raises_on_failed_text_read :
    readResponse (sampleWorld (.error (.error "TypeError" "fetch failed")))
        { reply := { status := 200, contentType := some "text/plain",
                     body := some (.error (.error "TypeError" "terminated")) },
          disturbed := false } =
      .error (.error "TypeError" "terminated") := rfl

/-- An error of `res.json()` never leaves `readResponse`. On a response
whose content type includes `application/json` and whose `res.json()` fails, the error
is swallowed and the result is decided by `res.text()`, awaited on the response as
`res.json()` left it: the item `Status <code>: <raw body>` when it resolves, as it does
with the empty text on a null body, and its rejection otherwise. Whatever `readResponse`
throws is a rejection of `res.text()`. -/
theorem readResponse_swallows_json_error (w : World) (res : Response) :
    (∀ ct e, res.reply.contentType = some ct → includes ct "application/json" = true →
      (res.json w).1 = .error e →
      readResponse w res =
        match (res.json w).2.text.1 with
        | .ok b => .ok (.text ("Status " ++ toString res.reply.status ++ ": " ++ b))
        | .error e2 => .error e2) ∧
    (∀ ct e, res.reply.contentType = some ct → includes ct "application/json" = true →
      res.reply.body = none → w.parseJSON "" = .error e →
      readResponse w res = .ok (.text ("Status " ++ toString res.reply.status ++ ": "))) ∧
    (∀ err, readResponse w res = .error err →
      res.text.1 = .error err ∨ (res.json w).2.text.1 = .error err) := by
  have hempty : includes "" "application/json" = false := by decide
  have key : ∀ ct e, res.reply.contentType = some ct → includes ct "application/json" = true →
      (res.json w).1 = .error e →
      readResponse w res =
        match (res.json w).2.text.1 with
        | .ok b => .ok (.text ("Status " ++ toString res.reply.status ++ ": " ++ b))
        | .error e2 => .error e2 := by
    intro ct e hct hjson hfail
    have hne : ct ≠ "" := by
      intro h
      rw [h, hempty] at hjson
      exact Bool.noConfusion hjson
    unfold readResponse
    simp only [hct, hne, if_false, hjson, if_true]
    rcases hj : res.json w with ⟨r, res1⟩
    rw [hj] at hfail
    simp only at hfail
    subst hfail
    rfl
  refine ⟨key, ?_, ?_⟩
  · intro ct e hct hjson hbody hparse
    have hfail : (res.json w).1 = .error e := by simp [Response.json, hbody, hparse]
    rw [key ct e hct hjson hfail]
    simp [Response.json, Response.text, hbody]
  · intro err herr
    by_cases hjs : ∃ ct, res.reply.contentType = some ct ∧ includes ct "application/json" = true
    · obtain ⟨ct, hct, hjson⟩ := hjs
      cases hfail : (res.json w).1 with
      | error e =>
        right
        rw [key ct e hct hjson hfail] at herr
        cases ht : (res.json w).2.text.1 with
        | error e2 => rw [ht] at herr; simpa using herr
        | ok b => rw [ht] at herr; simp at herr
      | ok v =>
        have hne : ct ≠ "" := by
          intro h
          rw [h, hempty] at hjson
          exact Bool.noConfusion hjson
        exfalso
        unfold readResponse at herr
        simp only [hct, hne, if_false, hjson, if_true] at herr
        rcases hj : res.json w with ⟨r, res1⟩
        rw [hj] at hfail herr
        simp only at hfail
        subst hfail
        simp at herr
    · left
      have hct : res.reply.contentType = none ∨
          ∃ ct, res.reply.contentType = some ct ∧ includes ct "application/json" = false := by
        cases hc : res.reply.contentType with
        | none => exact Or.inl rfl
        | some ct =>
          right
          refine ⟨ct, rfl, ?_⟩
          cases hi : includes ct "application/json" with
          | false => rfl
          | true => exact absurd ⟨ct, hc, hi⟩ hjs
      rw [readResponse_text w res hct] at herr
      cases ht : res.text.1 with
      | error e2 => rw [ht] at herr; simpa using herr
      | ok b => rw [ht] at herr; simp at herr

/-- A 204 reply announced as JSON, with a null body: `res.json()` fails on the empty text
and `res.text()` resolves with it. -/
theorem readResponse_swallows_json_error_witness :
    readResponse (sampleWorld (.error (.error "TypeError" "fetch failed")))
        { reply := { status := 204, contentType := some "application/json", body := none },
          disturbed := false } =
      .ok (.text "Status 204: ") :=
  (readResponse_swallows_json_error (sampleWorld (.error (.error "TypeError" "fetch failed")))
      { reply := { status := 204, contentType := some "application/json", body := none },
        disturbed := false }).2.1
    "application/json" (.error "SyntaxError" "Unexpected token in JSON") rfl (by decide) rfl rfl

/-! ## C6: how a JSON response is recognised -/

/-- C6 (counterexample): the content type `Application/JSON; charset=utf-8` is not
recognised: the body parses to a JSON value, and `readResponse` returns the text item. -/
theorem readResponse_content_type_case_sensitive :
    sampleParse "\x7b\"id\":\"c1\"\x7d" = .ok (.obj [("id", .str "c1")]) ∧
    readResponse (sampleWorld (.error (.error "TypeError" "fetch failed")))
        { reply := { status := 200, contentType := some "Application/JSON; charset=utf-8",
                     body := some (.ok "\x7b\"id\":\"c1\"\x7d") },
          disturbed := false } =
      .ok (.text "Status 200: \x7b\"id\":\"c1\"\x7d") :=
  ⟨rfl, rfl⟩

/-- C6 (amended): `readResponse` recognises a JSON response by a case-sensitive substring
match on the content-type header: when the header includes `application/json` as
written, in lower case, and the body of the fresh response parses to `v`, the result is
the JSON item of `v`; when it does not (or is absent), the result is never a JSON item. -/
theorem readResponse_recognises_json (w : World) (reply : HttpReply) :
    (∀ ct text v, reply.contentType = some ct → includes ct "application/json" = true →
      reply.body = some (.ok text) → w.parseJSON text = .ok v →
      readResponse w { reply := reply, disturbed := false } = .ok (.json v)) ∧
    ((reply.contentType = none ∨
        ∃ ct, reply.contentType = some ct ∧ includes ct "application/json" = false) →
      ∀ v, readResponse w { reply := reply, disturbed := false } ≠ .ok (.json v)) := by
  refine ⟨fun ct text v hct hjson hbody hparse =>
    readResponse_json w reply ct text v hct hjson hbody hparse, ?_⟩
  intro hct v hv
  rw [readResponse_text w _ hct] at hv
  cases ht : (Response.text { reply := reply, disturbed := false }).1 with
  | error e => rw [ht] at hv; simp at hv
  | ok b => rw [ht] at hv; simp at hv

/-- C6 (amended), at a concrete input: `application/json; charset=utf-8`. -/
theorem readResponse_recognises_json_witness :
    readResponse (sampleWorld (.error (.error "TypeError" "fetch failed")))
        { reply := { status := 200, contentType := some "application/json; charset=utf-8",
                     body := some (.ok "\x7b\"id\":\"c1\"\x7d") },
          disturbed := false } =
      .ok (.json (.obj [("id", .str "c1")])) :=
  (readResponse_recognises_json (sampleWorld (.error (.error "TypeError" "fetch failed")))
      { status := 200, contentType := some "application/json; charset=utf-8",
        body := some (.ok "\x7b\"id\":\"c1\"\x7d") }).1
    "application/json; charset=utf-8" "\x7b\"id\":\"c1\"\x7d" (.obj [("id", .str "c1")])
    rfl (by decide) rfl rfl

/-! ## The query loop of `buildUrl` -/

theorem update_params (u : URL) (l : List (String × String)) :
    (URLObject.update u l).params = l := rfl

theorem append_params (o : URLObject) (n v : String) :
    (o.append n v).params = o.params ++ [(n, v)] := rfl

theorem foldl_append_params (k : String) (items : List JSValue) (o : URLObject) :
    (items.foldl (fun u vv => u.append k vv.toJSString) o).params =
      o.params ++ items.map fun vv => (k, vv.toJSString) := by
  induction items generalizing o with
  | nil => simp
  | cons x rest ih => simp [List.foldl_cons, ih, append_params]

theorem valuesOf_nil (k : String) : valuesOf k [] = [] := rfl

theorem valuesOf_cons (k : String) (p : String × String) (l : List (String × String)) :
    valuesOf k (p :: l) = if p.1 = k then p.2 :: valuesOf k l else valuesOf k l := by
  by_cases h : p.1 = k <;> simp [valuesOf, List.filter_cons, h]

theorem valuesOf_append (k : String) (l1 l2 : List (String × String)) :
    valuesOf k (l1 ++ l2) = valuesOf k l1 ++ valuesOf k l2 := by
  simp [valuesOf]

theorem valuesOf_same (k : String) (vs : List String) :
    valuesOf k (vs.map fun v => (k, v)) = vs := by
  induction vs with
  | nil => rfl
  | cons v rest ih => rw [List.map_cons, valuesOf_cons, if_pos rfl, ih]

theorem valuesOf_other (k n : String) (vs : List String) (h : n ≠ k) :
    valuesOf k (vs.map fun v => (n, v)) = [] := by
  induction vs with
  | nil => rfl
  | cons v rest ih => rw [List.map_cons, valuesOf_cons, if_neg h, ih]

theorem valuesOf_filter_ne (k n : String) (l : List (String × String)) (h : n ≠ k) :
    valuesOf k (l.filter fun p => p.1 != n) = valuesOf k l := by
  induction l with
  | nil => rfl
  | cons p rest ih =>
    rw [List.filter_cons]
    by_cases hp : p.1 = n
    · have hk : p.1 ≠ k := by rw [hp]; exact h
      have hb : (p.1 != n) = false := by simp [hp]
      rw [hb, valuesOf_cons, if_neg hk]
      simpa using ih
    · have hb : (p.1 != n) = true := by simp [hp]
      rw [hb, if_pos rfl, valuesOf_cons, valuesOf_cons, ih]

theorem valuesOf_filter_self (k : String) (l : List (String × String)) :
    valuesOf k (l.filter fun p => p.1 != k) = [] := by
  induction l with
  | nil => rfl
  | cons p rest ih =>
    rw [List.filter_cons]
    by_cases hp : p.1 = k
    · have hb : (p.1 != k) = false := by simp [hp]
      rw [hb]
      simpa using ih
    · have hb : (p.1 != k) = true := by simp [hp]
      rw [hb, if_pos rfl, valuesOf_cons, if_neg hp, ih]

theorem valuesOf_setFirst_other (k n v : String) (l : List (String × String)) (h : n ≠ k) :
    valuesOf k (setFirst n v l) = valuesOf k l := by
  induction l with
  | nil => rfl
  | cons p rest ih =>
    obtain ⟨a, b⟩ := p
    unfold setFirst
    by_cases hp : a = n
    · have hk : a ≠ k := by rw [hp]; exact h
      rw [if_pos hp, valuesOf_cons, valuesOf_cons, if_neg hk, if_neg hk,
        valuesOf_filter_ne k n rest h]
    · rw [if_neg hp, valuesOf_cons, valuesOf_cons, ih]

theorem valuesOf_setFirst_self (k v : String) (l : List (String × String))
    (h : l.any (fun p => p.1 == k) = true) :
    valuesOf k (setFirst k v l) = [v] := by
  induction l with
  | nil => simp at h
  | cons p rest ih =>
    obtain ⟨a, b⟩ := p
    unfold setFirst
    by_cases hp : a = k
    · rw [if_pos hp, valuesOf_cons, if_pos hp, valuesOf_filter_self]
    · have hrest : rest.any (fun p => p.1 == k) = true := by
        simpa [List.any_cons, hp] using h
      rw [if_neg hp, valuesOf_cons, if_neg hp, ih hrest]

theorem valuesOf_of_not_any (k : String) (l : List (String × String))
    (h : ¬ l.any (fun p => p.1 == k) = true) : valuesOf k l = [] := by
  induction l with
  | nil => rfl
  | cons p rest ih =>
    simp only [List.any_cons, Bool.or_eq_true, not_or] at h
    have hk : p.1 ≠ k := by simpa using h.1
    rw [valuesOf_cons, if_neg hk, ih h.2]

theorem set_valuesOf_self (o : URLObject) (k v : String) :
    valuesOf k (o.set k v).params = [v] := by
  unfold URLObject.set
  rw [update_params]
  by_cases h : o.params.any (fun p => p.1 == k) = true
  · rw [if_pos h]
    exact valuesOf_setFirst_self k v o.params h
  · rw [if_neg h, valuesOf_append, valuesOf_of_not_any k o.params h, valuesOf_cons, if_pos rfl]
    rfl

theorem set_valuesOf_other (o : URLObject) (k n v : String) (h : n ≠ k) :
    valuesOf k (o.set n v).params = valuesOf k o.params := by
  unfold URLObject.set
  rw [update_params]
  by_cases ha : o.params.any (fun p => p.1 == n) = true
  · rw [if_pos ha]
    exact valuesOf_setFirst_other k n v o.params h
  · rw [if_neg ha, valuesOf_append, valuesOf_cons, if_neg h]
    simp [valuesOf_nil]

/-- An entry under another key leaves the values under `k` as they are. -/
theorem applyEntry_valuesOf_other (o : URLObject) (kv : String × JSValue) (k : String)
    (h : kv.1 ≠ k) : valuesOf k (applyEntry o kv).params = valuesOf k o.params := by
  obtain ⟨n, v⟩ := kv
  simp only at h
  cases v with
  | undefined => rfl
  | null => rfl
  | arr items =>
    simp only [applyEntry]
    rw [foldl_append_params, valuesOf_append]
    have := valuesOf_other k n (items.map JSValue.toJSString) h
    simp only [List.map_map] at this
    simp [Function.comp_def] at this
    simp [this]
  | bool b => exact set_valuesOf_other o k n _ h
  | num r => exact set_valuesOf_other o k n _ h
  | str t => exact set_valuesOf_other o k n _ h
  | obj ps => exact set_valuesOf_other o k n _ h

theorem foldl_applyEntry_valuesOf_other (l : List (String × JSValue)) (o : URLObject)
    (k : String) (h : ∀ kv ∈ l, kv.1 ≠ k) :
    valuesOf k (l.foldl applyEntry o).params = valuesOf k o.params := by
  induction l generalizing o with
  | nil => rfl
  | cons kv rest ih =>
    rw [List.foldl_cons, ih _ (fun x hx => h x (List.mem_cons_of_mem _ hx)),
      applyEntry_valuesOf_other o kv k (h kv (List.mem_cons_self _ _))]

/-- An array value under `k` appends its elements, in order, to the values under `k`. -/
theorem applyEntry_valuesOf_arr (o : URLObject) (k : String) (items : List JSValue) :
    valuesOf k (applyEntry o (k, .arr items)).params =
      valuesOf k o.params ++ items.map JSValue.toJSString := by
  simp only [applyEntry]
  rw [foldl_append_params, valuesOf_append]
  have := valuesOf_same k (items.map JSValue.toJSString)
  simp only [List.map_map] at this
  simp [Function.comp_def] at this
  simp [this]

/-- A value under `k` that is no array, `null` or `undefined` leaves one value under `k`. -/
theorem applyEntry_valuesOf_scalar (o : URLObject) (k : String) (v : JSValue)
    (harr : v.isArray = false) (hnull : v ≠ .null) (hundef : v ≠ .undefined) :
    valuesOf k (applyEntry o (k, v)).params = [v.toJSString] := by
  cases v with
  | undefined => exact absurd rfl hundef
  | null => exact absurd rfl hnull
  | arr items => simp [JSValue.isArray] at harr
  | bool b => exact set_valuesOf_self o k _
  | num r => exact set_valuesOf_self o k _
  | str t => exact set_valuesOf_self o k _
  | obj ps => exact set_valuesOf_self o k _

/-- Splitting a property list with pairwise distinct keys at one of its entries. -/
theorem split_at_entry (props : List (String × JSValue)) (k : String) (v : JSValue)
    (hnodup : (props.map Prod.fst).Nodup) (hmem : (k, v) ∈ props) :
    ∃ l1 l2, props = l1 ++ (k, v) :: l2 ∧ (∀ kv ∈ l1, kv.1 ≠ k) ∧ (∀ kv ∈ l2, kv.1 ≠ k) := by
  obtain ⟨l1, l2, rfl⟩ := List.append_of_mem hmem
  refine ⟨l1, l2, rfl, ?_, ?_⟩
  · intro kv hkv heq
    simp only [List.map_append, List.map_cons] at hnodup
    have hd := (List.nodup_append.1 hnodup).2.2
    exact hd (List.mem_map_of_mem Prod.fst hkv) (by simp [heq])
  · intro kv hkv heq
    simp only [List.map_append, List.map_cons] at hnodup
    have hc := (List.nodup_cons.1 (List.nodup_append.1 hnodup).2.1).1
    exact hc (by rw [← heq]; exact List.mem_map_of_mem Prod.fst hkv)

theorem urlencodedSerialize_ne_empty (l : List (String × String)) (h : l ≠ []) :
    urlencodedSerialize l ≠ "" := by
  cases l with
  | nil => exact absurd rfl h
  | cons p rest =>
    obtain ⟨n, v⟩ := p
    intro hs
    have hd := congrArg String.data hs
    simp [urlencodedSerialize, urlencodedSerializeChars] at hd

/-! ## The urlencoded parser inverts the urlencoded serializer -/

set_option maxRecDepth 100000 in
theorem serializedByteOk_all : ∀ b, b < 256 → serializedByteOk b = true := by decide

theorem percentDecodeFrom_serializedByte (b : Nat) (hb : b < 256) (R : List Nat) :
    percentDecodeFrom 0
        ((serializedByte b).map (fun x => if x = 0x2B then 0x20 else x) ++ R) =
      b :: percentDecodeFrom 0 R := by
  have h := serializedByteOk_all b hb
  unfold serializedByteOk at h
  simp only [Bool.and_eq_true] at h
  obtain ⟨_, h2⟩ := h
  generalize (serializedByte b).map (fun x => if x = 0x2B then 0x20 else x) = e at h2 ⊢
  match e, h2 with
  | [], h2 => simp at h2
  | [x], h2 =>
    simp only [Bool.and_eq_true, beq_iff_eq, bne_iff_ne, ne_eq] at h2
    obtain ⟨rfl, hx⟩ := h2
    simp [percentDecodeFrom, hx]
  | [p, h, l], h2 =>
    simp only [Bool.and_eq_true, beq_iff_eq] at h2
    obtain ⟨rfl, hp⟩ := h2
    have hp2 : hexPair (h :: l :: R) = some b := by
      simpa [hexPair] using hp
    simp [percentDecodeFrom, hp2]
  | [_, _], h2 => simp at h2
  | _ :: _ :: _ :: _ :: _, h2 => simp at h2

theorem percentDecodeFrom_serialized (bs : List Nat) (h : ∀ b ∈ bs, b < 256) (R : List Nat) :
    percentDecodeFrom 0
        ((bs.flatMap serializedByte).map (fun x => if x = 0x2B then 0x20 else x) ++ R) =
      bs ++ percentDecodeFrom 0 R := by
  induction bs with
  | nil => rfl
  | cons b rest ih =>
    rw [List.flatMap_cons, List.map_append, List.append_assoc,
      percentDecodeFrom_serializedByte b (h b (List.mem_cons_self _ _)),
      ih (fun x hx => h x (List.mem_cons_of_mem _ hx))]
    rfl

theorem serializedByte_no_separator (b : Nat) (hb : b < 256) :
    ∀ x ∈ serializedByte b, x ≠ 0x26 ∧ x ≠ 0x3D := by
  have h := serializedByteOk_all b hb
  unfold serializedByteOk at h
  simp only [Bool.and_eq_true, List.all_eq_true, bne_iff_ne, ne_eq] at h
  exact h.1

theorem utf8Bytes_lt (c : Char) : ∀ b ∈ utf8Bytes c, b < 256 := by
  have hv : c.toNat < 0x110000 := by
    have := c.valid
    simp only [Char.toNat]
    rcases this with h | h
    · have : c.val.toNat < 0xD800 := h
      omega
    · exact h.2
  intro b hb
  unfold utf8Bytes at hb
  simp only at hb
  split_ifs at hb <;> simp at hb <;> omega


theorem char_valid_toNat (c : Char) :
    c.toNat < 0xD800 ∨ (0xDFFF < c.toNat ∧ c.toNat < 0x110000) := by
  have := c.valid
  simp only [Char.toNat]
  rcases this with h | h
  · left; exact h
  · right; exact h

/-- The UTF-8 decoder reads back the bytes of a scalar value. -/
theorem utf8DecodeFrom_utf8Bytes (c : Char) (rest : List Nat) :
    utf8DecodeFrom (utf8Bytes c ++ rest) 0 0 0x80 0xBF =
      c :: utf8DecodeFrom rest 0 0 0x80 0xBF := by
  have hv := char_valid_toNat c
  have hc := Char.ofNat_toNat c
  generalize hn : c.toNat = n at hv hc
  unfold utf8Bytes
  simp only [hn]
  by_cases h1 : n < 0x80
  · have hle : n ≤ 0x7F := by omega
    simp [h1, utf8DecodeFrom, utf8Lead, hle, hc]
  by_cases h2 : n < 0x800
  · have a1 : ¬ (0xC0 + n / 64 ≤ 0x7F) := by omega
    have a2 : 0xC2 ≤ 0xC0 + n / 64 ∧ 0xC0 + n / 64 ≤ 0xDF := by omega
    have a3 : ¬ (0x80 + n % 64 < 0x80 ∨ 0xBF < 0x80 + n % 64) := by omega
    have a4 : (0xC0 + n / 64) % 32 * 64 + (0x80 + n % 64) % 64 = n := by omega
    simp only [h1, h2, if_false, if_true, List.cons_append, List.nil_append, utf8DecodeFrom,
      utf8Lead, a1, a2, a3, a4, and_self, hc]
    simp
  by_cases h3 : n < 0x10000
  · have a1 : ¬ (0xE0 + n / 4096 ≤ 0x7F) := by omega
    have a2 : ¬ (0xC2 ≤ 0xE0 + n / 4096 ∧ 0xE0 + n / 4096 ≤ 0xDF) := by omega
    have a3 : 0xE0 ≤ 0xE0 + n / 4096 ∧ 0xE0 + n / 4096 ≤ 0xEF := by omega
    have a4 : ¬ (0x80 + n / 64 % 64 < (if 0xE0 + n / 4096 = 0xE0 then 0xA0 else 0x80) ∨
        (if 0xE0 + n / 4096 = 0xED then 0x9F else 0xBF) < 0x80 + n / 64 % 64) := by
      split_ifs <;> omega
    have a5 : ¬ (0x80 + n % 64 < 0x80 ∨ 0xBF < 0x80 + n % 64) := by omega
    have a6 : ((0xE0 + n / 4096) % 16 * 64 + (0x80 + n / 64 % 64) % 64) * 64 +
        (0x80 + n % 64) % 64 = n := by omega
    simp only [h1, h2, h3, if_false, if_true, List.cons_append, List.nil_append, utf8DecodeFrom,
      utf8Lead, a1, a2, a3, a4, a5, a6, and_self, hc]
    simp
  · have h4 : n < 0x110000 := by omega
    have a1 : ¬ (0xF0 + n / 262144 ≤ 0x7F) := by omega
    have a2 : ¬ (0xC2 ≤ 0xF0 + n / 262144 ∧ 0xF0 + n / 262144 ≤ 0xDF) := by omega
    have a3 : ¬ (0xE0 ≤ 0xF0 + n / 262144 ∧ 0xF0 + n / 262144 ≤ 0xEF) := by omega
    have a3b : 0xF0 ≤ 0xF0 + n / 262144 ∧ 0xF0 + n / 262144 ≤ 0xF4 := by omega
    have a4 : ¬ (0x80 + n / 4096 % 64 < (if 0xF0 + n / 262144 = 0xF0 then 0x90 else 0x80) ∨
        (if 0xF0 + n / 262144 = 0xF4 then 0x8F else 0xBF) < 0x80 + n / 4096 % 64) := by
      split_ifs <;> omega
    have a5 : ¬ (0x80 + n / 64 % 64 < 0x80 ∨ 0xBF < 0x80 + n / 64 % 64) := by omega
    have a6 : ¬ (0x80 + n % 64 < 0x80 ∨ 0xBF < 0x80 + n % 64) := by omega
    have a7 : (((0xF0 + n / 262144) % 8 * 64 + (0x80 + n / 4096 % 64) % 64) * 64 +
        (0x80 + n / 64 % 64) % 64) * 64 + (0x80 + n % 64) % 64 = n := by omega
    simp only [h1, h2, h3, if_false, if_true, List.cons_append, List.nil_append, utf8DecodeFrom,
      utf8Lead, a1, a2, a3, a3b, a4, a5, a6, a7, and_self, hc]
    simp

theorem utf8DecodeFrom_flatMap (cs : List Char) :
    utf8DecodeFrom (cs.flatMap utf8Bytes) 0 0 0x80 0xBF = cs := by
  induction cs with
  | nil => rfl
  | cons c rest ih => rw [List.flatMap_cons, utf8DecodeFrom_utf8Bytes, ih]

/-- UTF-8 decoding inverts UTF-8 encoding. -/
theorem utf8Decode_utf8Encode (s : String) : utf8Decode (utf8Encode s) = s := by
  unfold utf8Decode utf8Encode
  rw [utf8DecodeFrom_flatMap]


theorem takeWhile_append_all {α : Type} (p : α → Bool) (x : List α) (a : α) (y : List α)
    (hx : ∀ b ∈ x, p b = true) (h : p a = false) : (x ++ a :: y).takeWhile p = x := by
  induction x with
  | nil => simp [List.takeWhile, h]
  | cons b rest ih =>
    have hb := hx b (List.mem_cons_self _ _)
    simp [List.takeWhile, hb, ih (fun c hc => hx c (List.mem_cons_of_mem _ hc))]

theorem dropWhile_append_all {α : Type} (p : α → Bool) (x : List α) (a : α) (y : List α)
    (hx : ∀ b ∈ x, p b = true) (h : p a = false) : (x ++ a :: y).dropWhile p = a :: y := by
  induction x with
  | nil => simp [List.dropWhile, h]
  | cons b rest ih =>
    have hb := hx b (List.mem_cons_self _ _)
    simp [List.dropWhile, hb, ih (fun c hc => hx c (List.mem_cons_of_mem _ hc))]

theorem splitBytes_append_sep (sep : Nat) (x y : List Nat) (hx : ∀ b ∈ x, b ≠ sep) :
    splitBytes sep (x ++ sep :: y) = x :: splitBytes sep y := by
  induction x with
  | nil => simp [splitBytes]
  | cons b rest ih =>
    have hb := hx b (List.mem_cons_self _ _)
    rw [List.cons_append, splitBytes, if_neg hb, ih (fun c hc => hx c (List.mem_cons_of_mem _ hc))]

theorem splitBytes_no_sep (sep : Nat) (x : List Nat) (hx : ∀ b ∈ x, b ≠ sep) :
    splitBytes sep x = [x] := by
  induction x with
  | nil => rfl
  | cons b rest ih =>
    have hb := hx b (List.mem_cons_self _ _)
    rw [splitBytes, if_neg hb, ih (fun c hc => hx c (List.mem_cons_of_mem _ hc))]

/-- The bytes read for a serialized name or value hold no `&` and no `=`. -/
theorem serialized_no_separator (s : String) :
    ∀ x ∈ (utf8Encode s).flatMap serializedByte, x ≠ 0x26 ∧ x ≠ 0x3D := by
  intro x hx
  rw [List.mem_flatMap] at hx
  obtain ⟨b, hb, hxb⟩ := hx
  have hlt : b < 256 := by
    unfold utf8Encode at hb
    rw [List.mem_flatMap] at hb
    obtain ⟨c, _, hcb⟩ := hb
    exact utf8Bytes_lt c b hcb
  exact serializedByte_no_separator b hlt x hxb

/-- A serialized name or value decodes to the name or value. -/
theorem urlencodedDecode_serialized (s : String) :
    urlencodedDecode ((utf8Encode s).flatMap serializedByte) = s := by
  have hlt : ∀ b ∈ utf8Encode s, b < 256 := by
    intro b hb
    unfold utf8Encode at hb
    rw [List.mem_flatMap] at hb
    obtain ⟨c, _, hcb⟩ := hb
    exact utf8Bytes_lt c b hcb
  have h := percentDecodeFrom_serialized (utf8Encode s) hlt []
  rw [List.append_nil] at h
  unfold urlencodedDecode percentDecode
  rw [h]
  simp only [percentDecodeFrom, List.append_nil]
  exact utf8Decode_utf8Encode s

theorem serializeChars_bytes (l : List (String × String)) :
    (urlencodedSerializeChars l).flatMap utf8Bytes = serializedBytes l := by
  induction l with
  | nil => rfl
  | cons p rest ih =>
    obtain ⟨n, v⟩ := p
    have henc : ∀ s : String,
        (urlencodedEncode s).flatMap utf8Bytes = (utf8Encode s).flatMap serializedByte := by
      intro s
      unfold urlencodedEncode serializedByte
      rw [List.flatMap_assoc]
    have heq : ['='].flatMap utf8Bytes = [0x3D] := rfl
    cases rest with
    | nil =>
      have hs : urlencodedSerializeChars [(n, v)] =
          urlencodedEncode n ++ ['='] ++ urlencodedEncode v ++ [] := rfl
      have hb : serializedBytes [(n, v)] = (utf8Encode n).flatMap serializedByte ++
          0x3D :: (utf8Encode v).flatMap serializedByte ++ [] := rfl
      rw [hs, hb, List.flatMap_append, List.flatMap_append, List.flatMap_append, henc, henc, heq]
      simp
    | cons q rest2 =>
      have hs : urlencodedSerializeChars ((n, v) :: q :: rest2) =
          urlencodedEncode n ++ ['='] ++ urlencodedEncode v ++
            '&' :: urlencodedSerializeChars (q :: rest2) := rfl
      have hb : serializedBytes ((n, v) :: q :: rest2) =
          (utf8Encode n).flatMap serializedByte ++
            0x3D :: (utf8Encode v).flatMap serializedByte ++
            0x26 :: serializedBytes (q :: rest2) := rfl
      have hamp : ('&' :: urlencodedSerializeChars (q :: rest2)).flatMap utf8Bytes =
          0x26 :: serializedBytes (q :: rest2) := by
        rw [List.flatMap_cons, ih]
        rfl
      rw [hs, hb, List.flatMap_append, List.flatMap_append, List.flatMap_append, henc, henc,
        heq, hamp]
      simp

theorem parsePair_serialized (n v : String) :
    parsePair
        ((utf8Encode n).flatMap serializedByte ++ 0x3D :: (utf8Encode v).flatMap serializedByte) =
      some (n, v) := by
  have hn : ∀ b ∈ (utf8Encode n).flatMap serializedByte, (b != 0x3D) = true := by
    intro b hb
    simpa using (serialized_no_separator n b hb).2
  have hstop : ((0x3D : Nat) != 0x3D) = false := by decide
  unfold parsePair
  simp only [takeWhile_append_all _ _ _ _ hn hstop, dropWhile_append_all _ _ _ _ hn hstop,
    List.drop_succ_cons, List.drop_zero, urlencodedDecode_serialized]
  simp

/-- The urlencoded parser reads back a serialized parameter list. -/
theorem urlencodedParseBytes_serializedBytes (l : List (String × String)) :
    urlencodedParseBytes (serializedBytes l) = l := by
  induction l with
  | nil => rfl
  | cons p rest ih =>
    obtain ⟨n, v⟩ := p
    have hseq : ∀ b ∈ (utf8Encode n).flatMap serializedByte ++
        0x3D :: (utf8Encode v).flatMap serializedByte, b ≠ 0x26 := by
      intro b hb
      rw [List.mem_append, List.mem_cons] at hb
      rcases hb with hb | hb | hb
      · exact (serialized_no_separator n b hb).1
      · rw [hb]; decide
      · exact (serialized_no_separator v b hb).1
    cases rest with
    | nil =>
      have hb : serializedBytes [(n, v)] = (utf8Encode n).flatMap serializedByte ++
          0x3D :: (utf8Encode v).flatMap serializedByte := by
        simp [serializedBytes]
      unfold urlencodedParseBytes
      rw [hb, splitBytes_no_sep _ _ hseq, List.filterMap_cons, parsePair_serialized]
      rfl
    | cons q rest2 =>
      have hb : serializedBytes ((n, v) :: q :: rest2) =
          ((utf8Encode n).flatMap serializedByte ++
            0x3D :: (utf8Encode v).flatMap serializedByte) ++
          0x26 :: serializedBytes (q :: rest2) := by
        simp [serializedBytes]
      unfold urlencodedParseBytes at ih ⊢
      rw [hb, splitBytes_append_sep _ _ _ hseq, List.filterMap_cons, parsePair_serialized]
      simp only
      rw [ih]

/-- The urlencoded parser inverts the urlencoded serializer. -/
theorem urlencodedParse_serialize (l : List (String × String)) :
    urlencodedParse (urlencodedSerialize l) = l := by
  unfold urlencodedParse urlencodedSerialize utf8Encode
  rw [serializeChars_bytes]
  exact urlencodedParseBytes_serializedBytes l


/-- The parameter list of a URL object is the parse of its record query. -/
theorem update_agrees (u : URL) (l : List (String × String)) :
    urlencodedParse ((URLObject.update u l).url.query.getD "") = (URLObject.update u l).params := by
  by_cases h : urlencodedSerialize l = ""
  · have hl : l = [] := by
      by_contra hne
      exact urlencodedSerialize_ne_empty l hne h
    simp only [URLObject.update, h, if_true, Option.getD_none, hl]
    rfl
  · simp only [URLObject.update, h, if_false, Option.getD_some]
    exact urlencodedParse_serialize l

theorem applyEntry_agrees (o : URLObject) (kv : String × JSValue)
    (h : urlencodedParse (o.url.query.getD "") = o.params) :
    urlencodedParse ((applyEntry o kv).url.query.getD "") = (applyEntry o kv).params := by
  have hfold : ∀ (k : String) (items : List JSValue) (o1 : URLObject),
      urlencodedParse (o1.url.query.getD "") = o1.params →
      urlencodedParse
          ((items.foldl (fun x vv => x.append k vv.toJSString) o1).url.query.getD "") =
        (items.foldl (fun x vv => x.append k vv.toJSString) o1).params := by
    intro k items
    induction items with
    | nil => intro o1 h1; exact h1
    | cons x rest ih =>
      intro o1 _
      rw [List.foldl_cons]
      exact ih _ (update_agrees _ _)
  obtain ⟨n, v⟩ := kv
  cases v with
  | undefined => exact h
  | null => exact h
  | arr items => exact hfold n items o h
  | bool b => exact update_agrees _ _
  | num r => exact update_agrees _ _
  | str t => exact update_agrees _ _
  | obj ps => exact update_agrees _ _

theorem foldl_applyEntry_agrees (l : List (String × JSValue)) (o : URLObject)
    (h : urlencodedParse (o.url.query.getD "") = o.params) :
    urlencodedParse ((l.foldl applyEntry o).url.query.getD "") = (l.foldl applyEntry o).params := by
  induction l generalizing o with
  | nil => exact h
  | cons kv rest ih =>
    rw [List.foldl_cons]
    exact ih _ (applyEntry_agrees o kv h)

/-- The parameters read from the query of the URL that `buildUrl` returns are the
parameter list of the URL object at the return statement. -/
theorem buildUrlObject_agrees (newURL : String → Except Thrown URL) (base : String)
    (path query : JSValue) (o : URLObject)
    (h : buildUrlObject newURL base path query = .ok o) :
    urlencodedParse (o.url.query.getD "") = o.params := by
  simp only [buildUrlObject] at h
  cases hu : newURL (base ++ (normalizedPath path).toJSString) with
  | error e => rw [hu] at h; simp at h
  | ok u =>
    rw [hu] at h
    simp only at h
    by_cases hq : (query.truthy && query.typeofObject) = true
    · rw [if_pos hq] at h
      have h2 : query.entries.foldl applyEntry (URLObject.ofRecord u) = o := by
        simpa using h
      rw [← h2]
      exact foldl_applyEntry_agrees _ _ rfl
    · rw [if_neg hq] at h
      have h2 : URLObject.ofRecord u = o := by simpa using h
      rw [← h2]
      rfl

/-- The function `buildUrlObject` on a query that is an object. -/
theorem buildUrlObject_obj (newURL : String → Except Thrown URL) (base : String)
    (path : JSValue) (props : List (String × JSValue)) :
    buildUrlObject newURL base path (.obj props) =
      match newURL (base ++ (normalizedPath path).toJSString) with
      | .error e => .error e
      | .ok u => .ok (props.foldl applyEntry (URLObject.ofRecord u)) := by
  simp only [buildUrlObject, JSValue.truthy, JSValue.typeofObject, JSValue.entries,
    Bool.and_self, if_true]

theorem buildUrl_of_object (newURL : String → Except Thrown URL) (base : String)
    (path query : JSValue) (o : URLObject) (h : buildUrlObject newURL base path query = .ok o) :
    buildUrl newURL base path query = .ok o.url.serialize := by
  simp [buildUrl, h, Except.map, URLObject.toString]

theorem normalizedPath_str (p : String) :
    (normalizedPath (.str p)).toJSString = if startsWithSlash p then p else "/" ++ p := by
  have hor : ((JSValue.str p).or (.str "")).toJSString = p := by
    by_cases hp : p = ""
    · simp [JSValue.or, JSValue.truthy, hp, JSValue.toJSString]
    · simp [JSValue.or, JSValue.truthy, hp, JSValue.toJSString]
  unfold normalizedPath
  rw [hor]
  by_cases hs : startsWithSlash p = true
  · simp [hs, JSValue.toJSString]
  · simp [hs, JSValue.toJSString]

theorem startsWithSlash_slash_append (p : String) : startsWithSlash ("/" ++ p) = true := by
  simp [startsWithSlash]

/-! ## C9: path normalisation -/

/-- C9: for every platform parser, every base and every query `q`: a path `p` that does
not start with a slash gives the same result as the path `"/" + p`, as a thrown error or
as a returned URL; an absent (`undefined` or `null`) path and the empty path give the
same result as the path `"/"`. -/
theorem buildUrl_path_normalised (newURL : String → Except Thrown URL) (base : String)
    (q : JSValue) :
    (∀ p : String, startsWithSlash p = false →
      buildUrl newURL base (.str p) q = buildUrl newURL base (.str ("/" ++ p)) q) ∧
    buildUrl newURL base .undefined q = buildUrl newURL base (.str "/") q ∧
    buildUrl newURL base .null q = buildUrl newURL base (.str "/") q ∧
    buildUrl newURL base (.str "") q = buildUrl newURL base (.str "/") q := by
  have key : ∀ a b : JSValue, (normalizedPath a).toJSString = (normalizedPath b).toJSString →
      buildUrl newURL base a q = buildUrl newURL base b q := by
    intro a b h
    simp only [buildUrl, buildUrlObject, h]
  refine ⟨?_, ?_, ?_, ?_⟩
  · intro p hp
    apply key
    rw [normalizedPath_str, normalizedPath_str, startsWithSlash_slash_append, hp]
    simp
  · exact key _ _ rfl
  · exact key _ _ rfl
  · exact key _ _ rfl

/-- C9, at a concrete input: the path `coupons` on the fixed base, and the URL it gives. -/
theorem buildUrl_path_normalised_witness :
    buildUrl whatwgURL BASE_URL (.str "coupons") .undefined =
        buildUrl whatwgURL BASE_URL (.str "/coupons") .undefined ∧
    buildUrl whatwgURL BASE_URL (.str "coupons") .undefined =
        .ok "https://mcpcounpon.onrender.com/coupons" :=
  ⟨(buildUrl_path_normalised whatwgURL BASE_URL .undefined).1 "coupons" rfl, rfl⟩

/-! ## The WHATWG parser on the fixed base -/

theorem dropWhile_append_stop {α : Type} (p : α → Bool) (x : List α) (a : α) (y : List α)
    (h : p a = false) : (x ++ a :: y).dropWhile p = x.dropWhile p ++ a :: y := by
  induction x with
  | nil => simp [List.dropWhile, h]
  | cons b rest ih =>
    cases hb : p b with
    | true => simp [List.dropWhile, hb, ih]
    | false => simp [List.dropWhile, hb]

/-- Preprocessing keeps the fixed base and the slash that follows it. -/
theorem preprocess_base (s : List Char) :
    ∃ t, preprocess (BASE_URL.data ++ '/' :: s) = BASE_URL.data ++ '/' :: t := by
  refine ⟨((s.reverse.dropWhile isC0OrSpace).reverse).filter fun c => !isTabOrNewline c, ?_⟩
  have h1 : (BASE_URL.data ++ '/' :: s).dropWhile isC0OrSpace = BASE_URL.data ++ '/' :: s := rfl
  have h2 : ((BASE_URL.data ++ '/' :: s).reverse.dropWhile isC0OrSpace).reverse =
      BASE_URL.data ++ '/' :: (s.reverse.dropWhile isC0OrSpace).reverse := by
    rw [List.reverse_append, List.reverse_cons, List.append_assoc, List.singleton_append,
      dropWhile_append_stop isC0OrSpace _ '/' _ rfl]
    simp
  unfold preprocess
  rw [h1, h2, List.filter_append, List.filter_cons]
  rfl

/-- The record parsed from the fixed base followed by a slash and any characters. -/
theorem whatwgURL_base (s : List Char) :
    ∃ t : List Char, whatwgURL (BASE_URL ++ String.mk ('/' :: s)) =
      .ok { scheme := "https", username := "", password := "",
            host := some "mcpcounpon.onrender.com", port := none,
            path := pathState (t.takeWhile fun c => c != '?' && c != '#') [] [],
            query := queryOf (t.dropWhile fun c => c != '?' && c != '#'),
            fragment := fragmentOf (t.dropWhile fun c => c != '?' && c != '#') } := by
  obtain ⟨t, ht⟩ := preprocess_base s
  refine ⟨t, ?_⟩
  have hd : (BASE_URL ++ String.mk ('/' :: s)).data = BASE_URL.data ++ '/' :: s := rfl
  unfold whatwgURL
  rw [hd, ht]
  rfl

theorem closeSegment_ne_nil (buf : List Char) (path : List String) :
    closeSegment buf path false ≠ [] := by
  unfold closeSegment
  by_cases h1 : isDoubleDot buf = true
  · simp [h1]
  · by_cases h2 : isSingleDot buf = true
    · simp [h1, h2]
    · simp [h1, h2]

/-- The path of a parsed special URL has at least one segment. -/
theorem pathState_ne_nil (cs buf : List Char) (path : List String) :
    pathState cs buf path ≠ [] := by
  induction cs generalizing buf path with
  | nil => exact closeSegment_ne_nil buf path
  | cons c rest ih =>
    unfold pathState
    by_cases h : isSlash c = true
    · rw [if_pos h]; exact ih _ _
    · rw [if_neg h]; exact ih _ _

/-- The string form of the path `p` of `buildUrl` starts with a slash. -/
theorem normalizedPath_slash (path : JSValue) :
    ∃ s, (normalizedPath path).toJSString = String.mk ('/' :: s) := by
  have hstart : ∀ x : String, startsWithSlash x = true → ∃ s, x = String.mk ('/' :: s) := by
    intro x hx
    obtain ⟨d⟩ := x
    cases d with
    | nil => simp [startsWithSlash] at hx
    | cons c rest =>
      simp only [startsWithSlash, beq_iff_eq] at hx
      exact ⟨rest, by rw [hx]⟩
  unfold normalizedPath
  by_cases h : startsWithSlash (path.or (.str "")).toJSString = true
  · rw [if_pos h]
    by_cases ht : path.truthy = true
    · have hor : path.or (.str "") = path := by simp [JSValue.or, ht]
      rw [hor] at h
      exact hstart _ h
    · have hor : path.or (.str "") = .str "" := by simp [JSValue.or, ht]
      rw [hor] at h
      simp [JSValue.toJSString, startsWithSlash] at h
  · rw [if_neg h]
    exact ⟨((path.or (.str "")).toJSString).data, rfl⟩

/-! ## The query loop changes the query only -/

theorem applyEntry_url (u : URL) (o : URLObject) (kv : String × JSValue)
    (h : ∃ q, o.url = { u with query := q }) :
    ∃ q, (applyEntry o kv).url = { u with query := q } := by
  have hupd : ∀ (o1 : URLObject) (l : List (String × String)),
      (∃ q, o1.url = { u with query := q }) →
      ∃ q, (URLObject.update o1.url l).url = { u with query := q } := by
    intro o1 l ⟨q, hq⟩
    exact ⟨if urlencodedSerialize l = "" then none else some (urlencodedSerialize l),
      by simp [URLObject.update, hq]⟩
  have hfold : ∀ (k : String) (items : List JSValue) (o1 : URLObject),
      (∃ q, o1.url = { u with query := q }) →
      ∃ q, (items.foldl (fun x vv => x.append k vv.toJSString) o1).url = { u with query := q } := by
    intro k items
    induction items with
    | nil => intro o1 h1; exact h1
    | cons x rest ih =>
      intro o1 h1
      rw [List.foldl_cons]
      exact ih _ (hupd o1 _ h1)
  obtain ⟨n, v⟩ := kv
  cases v with
  | undefined => exact h
  | null => exact h
  | arr items => exact hfold n items o h
  | bool b => exact hupd o _ h
  | num r => exact hupd o _ h
  | str t => exact hupd o _ h
  | obj ps => exact hupd o _ h

theorem foldl_applyEntry_url (u : URL) (l : List (String × JSValue)) (o : URLObject)
    (h : ∃ q, o.url = { u with query := q }) :
    ∃ q, (l.foldl applyEntry o).url = { u with query := q } := by
  induction l generalizing o with
  | nil => exact h
  | cons kv rest ih =>
    rw [List.foldl_cons]
    exact ih _ (applyEntry_url u o kv h)

/-- The URL object returned by `buildUrlObject` is the parsed record up to its query. -/
theorem buildUrlObject_url (newURL : String → Except Thrown URL) (base : String)
    (path query : JSValue) (o : URLObject)
    (h : buildUrlObject newURL base path query = .ok o) :
    ∃ u q, newURL (base ++ (normalizedPath path).toJSString) = .ok u ∧
      o.url = { u with query := q } := by
  simp only [buildUrlObject] at h
  cases hu : newURL (base ++ (normalizedPath path).toJSString) with
  | error e => rw [hu] at h; simp at h
  | ok u =>
    rw [hu] at h
    simp only at h
    refine ⟨u, ?_⟩
    by_cases hq : (query.truthy && query.typeofObject) = true
    · rw [if_pos hq] at h
      have h2 : query.entries.foldl applyEntry (URLObject.ofRecord u) = o := by
        simpa using h
      rw [← h2]
      obtain ⟨q, hq2⟩ := foldl_applyEntry_url u query.entries (URLObject.ofRecord u) ⟨u.query, rfl⟩
      exact ⟨q, rfl, hq2⟩
    · rw [if_neg hq] at h
      have h2 : URLObject.ofRecord u = o := by simpa using h
      rw [← h2]
      exact ⟨u.query, rfl, rfl⟩

/-- A record on the fixed origin with a non-empty path serializes to a string that
starts with the fixed base and a slash. -/
theorem serialize_base (path : List String) (query fragment : Option String)
    (h : path ≠ []) :
    ∃ rest, ({ scheme := "https", username := "", password := "",
               host := some "mcpcounpon.onrender.com", port := none,
               path := path, query := query, fragment := fragment } : URL).serialize =
      "https://mcpcounpon.onrender.com/" ++ rest := by
  cases path with
  | nil => exact absurd rfl h
  | cons seg tl =>
    refine ⟨seg ++ serializePath tl
      ++ (match query with
        | some q => "?" ++ q
        | none => "")
      ++ (match fragment with
        | some f => "#" ++ f
        | none => ""), ?_⟩
    apply String.ext
    simp [URL.serialize, serializePath, String.data_append]

/-- With the WHATWG parser and the fixed base, `buildUrl` returns a URL on the fixed
origin whatever the path and the query. -/
theorem buildUrl_base (path query : JSValue) :
    ∃ rest, buildUrl whatwgURL BASE_URL path query =
      .ok ("https://mcpcounpon.onrender.com/" ++ rest) := by
  obtain ⟨s, hs⟩ := normalizedPath_slash path
  obtain ⟨t, ht⟩ := whatwgURL_base s
  rw [← hs] at ht
  have hob : ∃ o, buildUrlObject whatwgURL BASE_URL path query = .ok o := by
    simp only [buildUrlObject, ht]
    by_cases hq : (query.truthy && query.typeofObject) = true
    · rw [if_pos hq]; exact ⟨_, rfl⟩
    · rw [if_neg hq]; exact ⟨_, rfl⟩
  obtain ⟨o, ho⟩ := hob
  obtain ⟨u, q, hu, hq⟩ := buildUrlObject_url whatwgURL BASE_URL path query o ho
  rw [ht] at hu
  have hu2 := (Except.ok.inj hu).symm
  subst hu2
  obtain ⟨rest, hrest⟩ := serialize_base
    (pathState (t.takeWhile fun c => c != '?' && c != '#') [] []) q
    (fragmentOf (t.dropWhile fun c => c != '?' && c != '#')) (pathState_ne_nil _ _ _)
  refine ⟨rest, ?_⟩
  rw [buildUrl_of_object whatwgURL BASE_URL path query o ho, hq]
  exact congrArg Except.ok hrest

/-- The URL of a logged call is a result of `buildUrl` on the fixed base. -/
theorem outbound_url (w : World) (name args : JSValue) (c : Call)
    (h : outbound w name args = .ok c) :
    ∃ path query, buildUrl w.newURL BASE_URL path query = .ok c.url := by
  unfold outbound at h
  split at h
  · cases hd : destructureArgs args with
    | error e => simp [hd, bind, Except.bind] at h
    | ok t =>
      obtain ⟨method, path, query, headers, body⟩ := t
      cases hb : buildUrl w.newURL BASE_URL path query with
      | error e => simp [hd, hb, bind, Except.bind] at h
      | ok url =>
        simp [hd, hb, bind, Except.bind, pure, Except.pure] at h
        exact ⟨path, query, by rw [hb, ← h]⟩
  · split at h
    · cases hb : buildUrl w.newURL BASE_URL (.str "/coupons") .undefined with
      | error e => simp [hb, bind, Except.bind] at h
      | ok url =>
        cases hr : args.readProp "body" with
        | error e => simp [hb, hr, bind, Except.bind] at h
        | ok body =>
          simp [hb, hr, bind, Except.bind, pure, Except.pure] at h
          exact ⟨_, _, by rw [hb, ← h]⟩
    · split at h
      · cases hr : args.readProp "id" with
        | error e => simp [hr, bind, Except.bind] at h
        | ok id =>
          cases hb : buildUrl w.newURL BASE_URL (.str ("/coupons/" ++ encodeURIComponent id))
              .undefined with
          | error e => simp [hb, hr, bind, Except.bind] at h
          | ok url =>
            simp [hb, hr, bind, Except.bind, pure, Except.pure] at h
            exact ⟨_, _, by rw [hb, ← h]⟩
      · split at h
        · cases hr : args.readProp "query" with
          | error e => simp [hr, bind, Except.bind] at h
          | ok query =>
            cases hb : buildUrl w.newURL BASE_URL (.str "/coupons") query with
            | error e => simp [hb, hr, bind, Except.bind] at h
            | ok url =>
              simp [hb, hr, bind, Except.bind, pure, Except.pure] at h
              exact ⟨_, _, by rw [hb, ← h]⟩
        · cases hr : args.readProp "query" with
          | error e => simp [hr, bind, Except.bind] at h
          | ok query =>
            cases hb : buildUrl w.newURL BASE_URL (.str "/api/mcp/jutuike/public_promo_list")
                query with
            | error e => simp [hb, hr, bind, Except.bind] at h
            | ok url =>
              simp [hb, hr, bind, Except.bind, pure, Except.pure] at h
              exact ⟨_, _, by rw [hb, ← h]⟩

/-! ## C7: the upstream origin is fixed -/

/-- C7: with the WHATWG parser, for every path value and every query value, whenever
`buildUrl(BASE_URL, path, query)` returns, the returned URL starts with
`https://mcpcounpon.onrender.com/`; hence in every world whose `new URL` is that parser
the URL of every `fetch` call made by the handler, whatever the tool and the arguments,
starts with `https://mcpcounpon.onrender.com/`. -/
theorem upstream_origin_fixed :
    (∀ (path query : JSValue) (href : String),
      buildUrl whatwgURL BASE_URL path query = .ok href →
      ∃ rest, href = "https://mcpcounpon.onrender.com/" ++ rest) ∧
    (∀ (w : World) (req : JSValue) (c : Call),
      w.standard → c ∈ (handler w req).calls →
      ∃ rest, c.url = "https://mcpcounpon.onrender.com/" ++ rest) := by
  have first : ∀ (path query : JSValue) (href : String),
      buildUrl whatwgURL BASE_URL path query = .ok href →
      ∃ rest, href = "https://mcpcounpon.onrender.com/" ++ rest := by
    intro path query href h
    obtain ⟨rest, hrest⟩ := buildUrl_base path query
    rw [hrest] at h
    exact ⟨rest, (Except.ok.inj h).symm⟩
  refine ⟨first, ?_⟩
  intro w req c hw hc
  obtain ⟨_, ho⟩ := handler_call w req c hc
  obtain ⟨path, query, hb⟩ := outbound_url w _ _ c ho
  rw [hw] at hb
  exact first path query c.url hb

/-- C7, at a concrete input: the generic tool called with a path that tries to name
another host. -/
theorem upstream_origin_fixed_witness :
    (handler (sampleWorld (.error (.error "TypeError" "fetch failed")))
        (invocation "http.request"
          (.obj [("method", .str "GET"), ("path", .str "@evil.example/x")]))).calls =
      [{ url := "https://mcpcounpon.onrender.com/@evil.example/x",
         init := { method := .str "GET",
                   headers := some [("content-type", .str "application/json")],
                   body := none } }] ∧
    ∃ rest, "https://mcpcounpon.onrender.com/@evil.example/x" =
      "https://mcpcounpon.onrender.com/" ++ rest :=
  ⟨rfl,
    upstream_origin_fixed.2 (sampleWorld (.error (.error "TypeError" "fetch failed")))
      (invocation "http.request"
        (.obj [("method", .str "GET"), ("path", .str "@evil.example/x")]))
      { url := "https://mcpcounpon.onrender.com/@evil.example/x",
        init := { method := .str "GET",
                  headers := some [("content-type", .str "application/json")],
                  body := none } }
      rfl (List.mem_singleton.mpr rfl)⟩

/-! ## C8: sequence values -/

/-- C8 (counterexample): a path that carries a parameter `status` of its own and a query
that maps `status` to a sequence of two values give a URL with three occurrences of
`status`. -/
theorem buildUrl_keeps_path_parameters :
    buildUrl whatwgURL BASE_URL (.str "/coupons?status=old")
        (.obj [("status", .arr [.str "active", .str "expired"])]) =
      .ok "https://mcpcounpon.onrender.com/coupons?status=old&status=active&status=expired" ∧
    valuesOf "status" (urlencodedParse "status=old&status=active&status=expired") =
      ["old", "active", "expired"] :=
  ⟨rfl, rfl⟩

/-- C8 (amended): for every platform parser, base, path and query object in which the
key `k` is mapped to a sequence of `N` values, the parameters named `k` in the query of
the URL returned by `buildUrl` are those that the URL parsed from `base + path` already
carries, followed by `N` occurrences whose values are the stringified elements in the
order of the sequence: exactly those `N` when `base + path` carries no parameter named
`k`. In particular, on a platform with the WHATWG parser, `coupon.list` with query
`status: ["active", "expired"]` issues one `GET` to
`https://mcpcounpon.onrender.com/coupons?status=active&status=expired`. -/
theorem buildUrl_sequence_values_appended (newURL : String → Except Thrown URL)
    (base : String) (path : JSValue) (props : List (String × JSValue)) (k : String)
    (items : List JSValue) (u : URL) (o : URLObject)
    (hnodup : (props.map Prod.fst).Nodup) (hmem : (k, .arr items) ∈ props)
    (hparse : newURL (base ++ (normalizedPath path).toJSString) = .ok u)
    (hbuild : buildUrlObject newURL base path (.obj props) = .ok o) :
    buildUrl newURL base path (.obj props) = .ok o.url.serialize ∧
    valuesOf k (urlencodedParse (o.url.query.getD "")) =
      valuesOf k (urlencodedParse (u.query.getD "")) ++ items.map JSValue.toJSString ∧
    (valuesOf k (urlencodedParse (u.query.getD "")) = [] →
      valuesOf k (urlencodedParse (o.url.query.getD "")) = items.map JSValue.toJSString ∧
      (valuesOf k (urlencodedParse (o.url.query.getD ""))).length = items.length) ∧
    (∀ w : World, w.standard →
      (handler w (invocation "coupon.list"
          (.obj [("query", .obj [("status", .arr [.str "active", .str "expired"])])]))).calls =
        [getCall "https://mcpcounpon.onrender.com/coupons?status=active&status=expired"]) := by
  obtain ⟨l1, l2, rfl, h1, h2⟩ := split_at_entry props k (.arr items) hnodup hmem
  have hfirst := buildUrl_of_object _ _ _ _ _ hbuild
  have hagree := buildUrlObject_agrees _ _ _ _ _ hbuild
  rw [buildUrlObject_obj, hparse] at hbuild
  have ho := (Except.ok.inj hbuild).symm
  rw [List.foldl_append, List.foldl_cons] at ho
  have hvals : valuesOf k (urlencodedParse (o.url.query.getD "")) =
      valuesOf k (urlencodedParse (u.query.getD "")) ++ items.map JSValue.toJSString := by
    rw [hagree, ho, foldl_applyEntry_valuesOf_other l2 _ k h2, applyEntry_valuesOf_arr,
      foldl_applyEntry_valuesOf_other l1 _ k h1]
    rfl
  refine ⟨hfirst, hvals, ?_, ?_⟩
  · intro hown
    rw [hvals, hown]
    simp
  · intro w hw
    have ho : outbound w
        (requestName (invocation "coupon.list"
          (.obj [("query", .obj [("status", .arr [.str "active", .str "expired"])])])))
        (requestArgs (invocation "coupon.list"
          (.obj [("query", .obj [("status", .arr [.str "active", .str "expired"])])]))) =
        .ok (getCall "https://mcpcounpon.onrender.com/coupons?status=active&status=expired") := by
      obtain ⟨nu, f, pj⟩ := w
      simp only [World.standard] at hw
      subst hw
      rfl
    rw [handler_catalog w (invocation "coupon.list"
      (.obj [("query", .obj [("status", .arr [.str "active", .str "expired"])])])) rfl, ho]

/-- C8 (amended), at a concrete input: the path `/coupons` with a limit and a sequence of
two statuses. -/
theorem buildUrl_sequence_values_appended_witness :
    buildUrl whatwgURL BASE_URL (.str "/coupons")
        (.obj [("limit", .num "5"), ("status", .arr [.str "active", .str "expired"])]) =
      .ok "https://mcpcounpon.onrender.com/coupons?limit=5&status=active&status=expired" ∧
    valuesOf "status" (urlencodedParse "limit=5&status=active&status=expired") =
      ["active", "expired"] :=
  ⟨(buildUrl_sequence_values_appended whatwgURL BASE_URL (.str "/coupons")
      [("limit", .num "5"), ("status", .arr [.str "active", .str "expired"])] "status"
      [.str "active", .str "expired"]
      { scheme := "https", username := "", password := "",
        host := some "mcpcounpon.onrender.com", port := none, path := ["coupons"],
        query := none, fragment := none }
      (URLObject.update
        { scheme := "https", username := "", password := "",
          host := some "mcpcounpon.onrender.com", port := none, path := ["coupons"],
          query := none, fragment := none }
        [("limit", "5"), ("status", "active"), ("status", "expired")])
      (by decide) (List.mem_cons_of_mem _ (List.mem_singleton.mpr rfl)) rfl rfl).1,
   ((buildUrl_sequence_values_appended whatwgURL BASE_URL (.str "/coupons")
      [("limit", .num "5"), ("status", .arr [.str "active", .str "expired"])] "status"
      [.str "active", .str "expired"]
      { scheme := "https", username := "", password := "",
        host := some "mcpcounpon.onrender.com", port := none, path := ["coupons"],
        query := none, fragment := none }
      (URLObject.update
        { scheme := "https", username := "", password := "",
          host := some "mcpcounpon.onrender.com", port := none, path := ["coupons"],
          query := none, fragment := none }
        [("limit", "5"), ("status", "active"), ("status", "expired")])
      (by decide) (List.mem_cons_of_mem _ (List.mem_singleton.mpr rfl)) rfl rfl).2.2.1 rfl).1⟩

/-! ## C10: non-sequence values -/

/-- C10: for every platform parser, base, path and query object, and every key `k` of the
object with value `v`: if `v` is no sequence and neither `null` nor `undefined` (a
scalar; an object value is treated alike), the query of the URL returned by `buildUrl`
has exactly one parameter named `k`, whose value is the string form of `v`; if `v` is
`null` or `undefined`, the result of `buildUrl` is the one built from the same object
with `k` removed. -/
theorem buildUrl_scalar_and_absent_values (newURL : String → Except Thrown URL)
    (base : String) (path : JSValue) (props : List (String × JSValue)) (k : String)
    (v : JSValue)
    (hnodup : (props.map Prod.fst).Nodup) (hmem : (k, v) ∈ props) :
    (v.isArray = false → v ≠ .null → v ≠ .undefined →
      ∀ o, buildUrlObject newURL base path (.obj props) = .ok o →
        buildUrl newURL base path (.obj props) = .ok o.url.serialize ∧
        valuesOf k (urlencodedParse (o.url.query.getD "")) = [v.toJSString]) ∧
    ((v = .null ∨ v = .undefined) →
      buildUrl newURL base path (.obj props) =
        buildUrl newURL base path (.obj (props.filter fun kv => kv.1 != k))) := by
  obtain ⟨l1, l2, rfl, h1, h2⟩ := split_at_entry props k v hnodup hmem
  constructor
  · intro harr hnull hundef o hbuild
    refine ⟨buildUrl_of_object _ _ _ _ _ hbuild, ?_⟩
    rw [buildUrlObject_agrees _ _ _ _ _ hbuild]
    rw [buildUrlObject_obj] at hbuild
    cases hu : newURL (base ++ (normalizedPath path).toJSString) with
    | error e => rw [hu] at hbuild; simp at hbuild
    | ok u =>
      rw [hu] at hbuild
      have ho := (Except.ok.inj hbuild).symm
      rw [List.foldl_append, List.foldl_cons] at ho
      rw [ho, foldl_applyEntry_valuesOf_other l2 _ k h2,
        applyEntry_valuesOf_scalar _ k v harr hnull hundef]
  · intro hv
    have hfilter : (l1 ++ (k, v) :: l2).filter (fun kv => kv.1 != k) = l1 ++ l2 := by
      have f1 : l1.filter (fun kv => kv.1 != k) = l1 :=
        List.filter_eq_self.2 (fun kv hkv => by simpa using h1 kv hkv)
      have f2 : l2.filter (fun kv => kv.1 != k) = l2 :=
        List.filter_eq_self.2 (fun kv hkv => by simpa using h2 kv hkv)
      rw [List.filter_append, List.filter_cons, f1, f2]
      simp
    have hskip : ∀ o : URLObject, applyEntry o (k, v) = o := by
      intro o
      rcases hv with rfl | rfl <;> rfl
    rw [hfilter]
    simp only [buildUrl, buildUrlObject_obj, List.foldl_append, List.foldl_cons, hskip]

/-- C10, at a concrete input: a `limit` given twice in the path is replaced by the scalar
of the query, and a `null` cursor leaves no trace. -/
theorem buildUrl_scalar_and_absent_values_witness :
    buildUrl whatwgURL BASE_URL (.str "/coupons?limit=1&limit=2")
        (.obj [("limit", .num "10"), ("cursor", .null)]) =
      buildUrl whatwgURL BASE_URL (.str "/coupons?limit=1&limit=2")
        (.obj [("limit", .num "10")]) ∧
    buildUrl whatwgURL BASE_URL (.str "/coupons?limit=1&limit=2")
        (.obj [("limit", .num "10"), ("cursor", .null)]) =
      .ok "https://mcpcounpon.onrender.com/coupons?limit=10" ∧
    valuesOf "limit" (urlencodedParse "limit=10") = ["10"] :=
  ⟨(buildUrl_scalar_and_absent_values whatwgURL BASE_URL (.str "/coupons?limit=1&limit=2")
      [("limit", .num "10"), ("cursor", .null)] "cursor" .null (by decide)
      (List.mem_cons_of_mem _ (List.mem_singleton.mpr rfl))).2 (Or.inl rfl),
   ((buildUrl_scalar_and_absent_values whatwgURL BASE_URL (.str "/coupons?limit=1&limit=2")
      [("limit", .num "10"), ("cursor", .null)] "limit" (.num "10") (by decide)
      (List.mem_cons_self _ _)).1 rfl (by simp) (by simp)
      (URLObject.update
        { scheme := "https", username := "", password := "",
          host := some "mcpcounpon.onrender.com", port := none, path := ["coupons"],
          query := some "limit=1&limit=2", fragment := none }
        [("limit", "10")]) rfl).1,
   ((buildUrl_scalar_and_absent_values whatwgURL BASE_URL (.str "/coupons?limit=1&limit=2")
      [("limit", .num "10"), ("cursor", .null)] "limit" (.num "10") (by decide)
      (List.mem_cons_self _ _)).1 rfl (by simp) (by simp)
      (URLObject.update
        { scheme := "https", username := "", password := "",
          host := some "mcpcounpon.onrender.com", port := none, path := ["coupons"],
          query := some "limit=1&limit=2", fragment := none }
        [("limit", "10")]) rfl).2⟩

/-! ## C11: which methods carry a body -/

theorem upperChar_ascii (c : Char) (h : c.toNat < 128) : upperChar c = [asciiUpperChar c] := by
  unfold upperChar asciiUpperChar
  simp only
  by_cases hl : 97 ≤ c.toNat ∧ c.toNat ≤ 122
  · rw [if_pos hl, if_pos hl]
  · rw [if_neg hl, if_neg hl]
    have h1 : ¬ c.toNat = 0x131 := by omega
    have h2 : ¬ c.toNat = 0x17F := by omega
    have h3 : ¬ c.toNat = 0xFB00 := by omega
    have h4 : ¬ c.toNat = 0xFB01 := by omega
    have h5 : ¬ c.toNat = 0xFB02 := by omega
    have h6 : ¬ c.toNat = 0xFB03 := by omega
    have h7 : ¬ c.toNat = 0xFB04 := by omega
    have h8 : ¬ c.toNat = 0xFB05 := by omega
    have h9 : ¬ c.toNat = 0xFB06 := by omega
    simp only [h1, h2, h3, h4, h5, h6, h7, h8, h9, if_false]

theorem toUpperCase_ascii (m : String) (h : isAscii m = true) : toUpperCase m = asciiUpper m := by
  unfold toUpperCase asciiUpper
  congr 1
  unfold isAscii at h
  generalize m.data = l at h
  induction l with
  | nil => rfl
  | cons c rest ih =>
    simp only [List.all_cons, Bool.and_eq_true, decide_eq_true_eq] at h
    rw [List.flatMap_cons, upperChar_ascii c h.1, ih h.2]
    rfl

theorem or_str_toJSString (s : String) : ((JSValue.str s).or (.str "")).toJSString = s := by
  by_cases hp : s = ""
  · simp [JSValue.or, JSValue.truthy, hp, JSValue.toJSString]
  · simp [JSValue.or, JSValue.truthy, hp, JSValue.toJSString]

/-- C11: for every method token `m` (a string of ASCII characters), `needsBody(m)` is true
if and only if `m` is `POST`, `PUT` or `PATCH` up to the case of its letters, that is, if
and only if its upper-case form is one of the three words; it is false for `GET`,
`DELETE`, the empty method and the absent (`undefined` or `null`) method. -/
theorem needsBody_iff_post_put_patch :
    (∀ m : String, isAscii m = true →
      (needsBody (.str m) = true ↔
        asciiUpper m = "POST" ∨ asciiUpper m = "PUT" ∨ asciiUpper m = "PATCH")) ∧
    needsBody (.str "GET") = false ∧ needsBody (.str "DELETE") = false ∧
    needsBody (.str "") = false ∧ needsBody .undefined = false ∧ needsBody .null = false := by
  refine ⟨?_, by decide, by decide, by decide, by decide, by decide⟩
  intro m hm
  unfold needsBody
  rw [or_str_toJSString, toUpperCase_ascii m hm]
  simp only [List.contains_eq_any_beq, List.any_cons, List.any_nil, Bool.or_false,
    Bool.or_eq_true, beq_iff_eq]

/-- C11, at concrete inputs: `pAtCh` carries a body, `get` and `POSTS` do not. -/
theorem needsBody_iff_post_put_patch_witness :
    needsBody (.str "pAtCh") = true ∧ needsBody (.str "get") = false ∧
    needsBody (.str "POSTS") = false :=
  ⟨(needsBody_iff_post_put_patch.1 "pAtCh" (by decide)).2 (Or.inr (Or.inr (by decide))),
   by
    cases h : needsBody (.str "get") with
    | false => rfl
    | true =>
      have := (needsBody_iff_post_put_patch.1 "get" (by decide)).1 h
      revert this
      decide,
   by
    cases h : needsBody (.str "POSTS") with
    | false => rfl
    | true =>
      have := (needsBody_iff_post_put_patch.1 "POSTS" (by decide)).1 h
      revert this
      decide⟩

/-! ## C13: `serializeBody` on unstructured input -/

/-- C13: `serializeBody(undefined)` and `serializeBody(null)` yield no body, and for every
string `s` (the empty string and strings that are not JSON included) `serializeBody(s)`
is `s` itself. -/
theorem serializeBody_unstructured :
    serializeBody .undefined = none ∧ serializeBody .null = none ∧
    ∀ s : String, serializeBody (.str s) = some s :=
  ⟨rfl, rfl, fun _ => rfl⟩

/-- Outside the ASCII tokens the upper-casing of JavaScript also reaches the three words:
the long s is a lower-case letter whose upper-case form is `S`. -/
theorem needsBody_long_s : needsBody (.str "poſt") = true := by decide

/-! ## The request built by each tool -/

theorem destructureArgs_ok (a : JSValue) (h1 : a ≠ .null) (h2 : a ≠ .undefined) :
    destructureArgs a =
      .ok (a.getField "method", a.getField "path", a.getField "query", a.getField "headers",
           a.getField "body") := by
  cases a with
  | undefined => exact absurd rfl h2
  | null => exact absurd rfl h1
  | bool b => rfl
  | num r => rfl
  | str s => rfl
  | arr items => rfl
  | obj props => rfl

theorem readProp_ok (a : JSValue) (key : String) (h1 : a ≠ .null) (h2 : a ≠ .undefined) :
    a.readProp key = .ok (a.getField key) := by
  cases a with
  | undefined => exact absurd rfl h2
  | null => exact absurd rfl h1
  | bool b => rfl
  | num r => rfl
  | str s => rfl
  | arr items => rfl
  | obj props => rfl

theorem readProp_null (key : String) : ∃ e, JSValue.null.readProp key = .error e := ⟨_, rfl⟩

theorem requestArgs_ne_undefined (req : JSValue) : requestArgs req ≠ .undefined := by
  unfold requestArgs
  cases h : (req.or (.obj [])).getField "arguments" <;> simp

/-- The request of the generic tool, for arguments other than `null`. -/
theorem outbound_generic (w : World) (a : JSValue) (h1 : a ≠ .null) (h2 : a ≠ .undefined) :
    outbound w (.str "http.request") a =
      (buildUrl w.newURL BASE_URL (a.getField "path") (a.getField "query")).map fun url =>
        { url := url,
          init := { method := a.getField "method",
                    headers := some (mergedHeaders (a.getField "headers")),
                    body := if needsBody (a.getField "method") then serializeBody (a.getField "body")
                            else none } } := by
  have hn : isName (.str "http.request") "http.request" = true := by decide
  unfold outbound
  rw [if_pos hn, destructureArgs_ok a h1 h2]
  cases hb : buildUrl w.newURL BASE_URL (a.getField "path") (a.getField "query") <;>
    simp [bind, Except.bind, Except.map, pure, Except.pure, hb]

/-- The request of `coupon.create`, for arguments other than `null`. -/
theorem outbound_create (w : World) (a : JSValue) (h1 : a ≠ .null) (h2 : a ≠ .undefined) :
    outbound w (.str "coupon.create") a =
      (buildUrl w.newURL BASE_URL (.str "/coupons") .undefined).map fun url =>
        { url := url,
          init := { method := .str "POST",
                    headers := some [("content-type", .str "application/json")],
                    body := jsonStringify ((a.getField "body").nullish (.obj [])) } } := by
  have hn1 : isName (.str "coupon.create") "http.request" = false := by decide
  have hn2 : isName (.str "coupon.create") "coupon.create" = true := by decide
  unfold outbound
  simp only [hn1, hn2, if_true, if_false, Bool.false_eq_true]
  rw [readProp_ok a "body" h1 h2]
  cases hb : buildUrl w.newURL BASE_URL (.str "/coupons") .undefined <;>
    simp [bind, Except.bind, Except.map, pure, Except.pure, hb]

/-- The request of `coupon.get`, for arguments other than `null`. -/
theorem outbound_get (w : World) (a : JSValue) (h1 : a ≠ .null) (h2 : a ≠ .undefined) :
    outbound w (.str "coupon.get") a =
      (buildUrl w.newURL BASE_URL
          (.str ("/coupons/" ++ encodeURIComponent (a.getField "id"))) .undefined).map fun url =>
        { url := url, init := { method := .str "GET", headers := none, body := none } } := by
  have hn1 : isName (.str "coupon.get") "http.request" = false := by decide
  have hn2 : isName (.str "coupon.get") "coupon.create" = false := by decide
  have hn3 : isName (.str "coupon.get") "coupon.get" = true := by decide
  unfold outbound
  simp only [hn1, hn2, hn3, if_true, if_false, Bool.false_eq_true]
  rw [readProp_ok a "id" h1 h2]
  cases hb : buildUrl w.newURL BASE_URL
      (.str ("/coupons/" ++ encodeURIComponent (a.getField "id"))) .undefined <;>
    simp [bind, Except.bind, Except.map, pure, Except.pure, hb]

/-- The request of `coupon.list`, for arguments other than `null`. -/
theorem outbound_list (w : World) (a : JSValue) (h1 : a ≠ .null) (h2 : a ≠ .undefined) :
    outbound w (.str "coupon.list") a =
      (buildUrl w.newURL BASE_URL (.str "/coupons") (a.getField "query")).map fun url =>
        { url := url, init := { method := .str "GET", headers := none, body := none } } := by
  have hn1 : isName (.str "coupon.list") "http.request" = false := by decide
  have hn2 : isName (.str "coupon.list") "coupon.create" = false := by decide
  have hn3 : isName (.str "coupon.list") "coupon.get" = false := by decide
  have hn4 : isName (.str "coupon.list") "coupon.list" = true := by decide
  unfold outbound
  simp only [hn1, hn2, hn3, hn4, if_true, if_false, Bool.false_eq_true]
  rw [readProp_ok a "query" h1 h2]
  cases hb : buildUrl w.newURL BASE_URL (.str "/coupons") (a.getField "query") <;>
    simp [bind, Except.bind, Except.map, pure, Except.pure, hb]

/-- The request of `jutuike.public_promo_list`, for arguments other than `null`. -/
theorem outbound_promo (w : World) (a : JSValue) (h1 : a ≠ .null) (h2 : a ≠ .undefined) :
    outbound w (.str "jutuike.public_promo_list") a =
      (buildUrl w.newURL BASE_URL (.str "/api/mcp/jutuike/public_promo_list")
          (a.getField "query")).map fun url =>
        { url := url, init := { method := .str "GET", headers := none, body := none } } := by
  have hn1 : isName (.str "jutuike.public_promo_list") "http.request" = false := by decide
  have hn2 : isName (.str "jutuike.public_promo_list") "coupon.create" = false := by decide
  have hn3 : isName (.str "jutuike.public_promo_list") "coupon.get" = false := by decide
  have hn4 : isName (.str "jutuike.public_promo_list") "coupon.list" = false := by decide
  unfold outbound
  simp only [hn1, hn2, hn3, hn4, if_true, if_false, Bool.false_eq_true]
  rw [readProp_ok a "query" h1 h2]
  cases hb : buildUrl w.newURL BASE_URL (.str "/api/mcp/jutuike/public_promo_list")
      (a.getField "query") <;>
    simp [bind, Except.bind, Except.map, pure, Except.pure, hb]

/-- With `null` arguments the request construction throws before the `fetch` call. -/
theorem outbound_null (w : World) (name : JSValue) :
    ∃ e, outbound w name .null = .error e := by
  unfold outbound
  by_cases h1 : isName name "http.request" = true
  · rw [if_pos h1]; exact ⟨_, rfl⟩
  by_cases h2 : isName name "coupon.create" = true
  · rw [if_neg h1, if_pos h2]
    cases hb : buildUrl w.newURL BASE_URL (.str "/coupons") .undefined with
    | error e => exact ⟨e, by simp [bind, Except.bind]⟩
    | ok url => exact ⟨_, by simp [bind, Except.bind, JSValue.readProp]; rfl⟩
  by_cases h3 : isName name "coupon.get" = true
  · rw [if_neg h1, if_neg h2, if_pos h3]; exact ⟨_, rfl⟩
  by_cases h4 : isName name "coupon.list" = true
  · rw [if_neg h1, if_neg h2, if_neg h3, if_pos h4]; exact ⟨_, rfl⟩
  · rw [if_neg h1, if_neg h2, if_neg h3, if_neg h4]; exact ⟨_, rfl⟩

/-- The call log of a run: the request of a catalog tool whose construction succeeds,
and nothing otherwise. -/
theorem handler_calls (w : World) (req : JSValue) :
    (handler w req).calls =
      if isCatalogName (requestName req) = true then
        match outbound w (requestName req) (requestArgs req) with
        | .ok c => [c]
        | .error _ => []
      else [] := by
  by_cases h : isCatalogName (requestName req) = true
  · rw [if_pos h, handler_catalog w req h]
    cases outbound w (requestName req) (requestArgs req) <;> rfl
  · rw [if_neg h, handler_unknown w req (by simpa using h)]

/-- A call is made only with arguments other than `null`. -/
theorem args_of_call (w : World) (req : JSValue) (c : Call) (h : c ∈ (handler w req).calls) :
    requestArgs req ≠ .null ∧ requestArgs req ≠ .undefined := by
  refine ⟨?_, requestArgs_ne_undefined req⟩
  intro hnull
  obtain ⟨_, ho⟩ := handler_call w req c h
  rw [hnull] at ho
  obtain ⟨e, he⟩ := outbound_null w (requestName req)
  rw [he] at ho
  exact Except.noConfusion ho

/-! ## C12: the generic tool passes its arguments through -/

/-- C12: for every `http.request` invocation that reaches its `fetch` call, the method of
the outbound request is `arguments.method` as given, the URL is the result of `buildUrl`
on `arguments.path` and `arguments.query` as given, and the body is
`serializeBody(arguments.body)` when `needsBody(method)` holds and absent otherwise; in
particular a `GET` or `DELETE` request carries no body, whatever `arguments.body` is. -/
theorem generic_request_passthrough (w : World) (req : JSValue) (c : Call)
    (hname : requestName req = .str "http.request")
    (hcall : c ∈ (handler w req).calls) :
    c.init.method = (requestArgs req).getField "method" ∧
    buildUrl w.newURL BASE_URL ((requestArgs req).getField "path")
        ((requestArgs req).getField "query") = .ok c.url ∧
    c.init.body =
      (if needsBody ((requestArgs req).getField "method") then
        serializeBody ((requestArgs req).getField "body")
       else none) ∧
    (((requestArgs req).getField "method" = .str "GET" ∨
        (requestArgs req).getField "method" = .str "DELETE") → c.init.body = none) := by
  obtain ⟨hnull, hundef⟩ := args_of_call w req c hcall
  obtain ⟨_, ho⟩ := handler_call w req c hcall
  rw [hname, outbound_generic w _ hnull hundef] at ho
  cases hb : buildUrl w.newURL BASE_URL ((requestArgs req).getField "path")
      ((requestArgs req).getField "query") with
  | error e => rw [hb] at ho; exact Except.noConfusion ho
  | ok url =>
    rw [hb] at ho
    have hc := Except.ok.inj ho
    subst hc
    refine ⟨rfl, rfl, rfl, ?_⟩
    rintro (hm | hm)
    · simp only [hm]
      rfl
    · simp only [hm]
      rfl

/-- C12, at a concrete input: a `GET` with a query and a body that is supplied but not
sent. -/
theorem generic_request_passthrough_witness :
    (handler (sampleWorld (.error (.error "TypeError" "fetch failed")))
        (invocation "http.request"
          (.obj [("method", .str "GET"), ("path", .str "/coupons"),
                 ("query", .obj [("limit", .num "5")]),
                 ("body", .obj [("a", .num "1")])]))).calls =
      [{ url := "https://mcpcounpon.onrender.com/coupons?limit=5",
         init := { method := .str "GET",
                   headers := some [("content-type", .str "application/json")],
                   body := none } }] ∧
    (none : Option String) =
      (if needsBody (.str "GET") then serializeBody (.obj [("a", .num "1")]) else none) :=
  ⟨rfl,
   (generic_request_passthrough (sampleWorld (.error (.error "TypeError" "fetch failed")))
      (invocation "http.request"
        (.obj [("method", .str "GET"), ("path", .str "/coupons"),
               ("query", .obj [("limit", .num "5")]),
               ("body", .obj [("a", .num "1")])]))
      { url := "https://mcpcounpon.onrender.com/coupons?limit=5",
        init := { method := .str "GET",
                  headers := some [("content-type", .str "application/json")],
                  body := none } }
      rfl (List.mem_singleton.mpr rfl)).2.2.1⟩

/-! ## C16: the request of `coupon.create` -/

/-- C16: on a platform with the WHATWG parser, for every `coupon.create` invocation with
arguments other than `null` exactly one request is issued: its method is `POST`, its URL
is the fixed base followed by `/coupons`, its headers are the single
`content-type: application/json`, and its body is the JSON text of `arguments.body`,
which is the text of the empty object when `arguments.body` is absent or `null`. -/
theorem create_request (w : World) (req : JSValue) (hw : w.standard)
    (hname : requestName req = .str "coupon.create") (hargs : requestArgs req ≠ .null) :
    (handler w req).calls =
      [{ url := BASE_URL ++ "/coupons",
         init := { method := .str "POST",
                   headers := some [("content-type", .str "application/json")],
                   body := jsonStringify (((requestArgs req).getField "body").nullish (.obj [])) } }] ∧
    (((requestArgs req).getField "body" = .undefined ∨
        (requestArgs req).getField "body" = .null) →
      jsonStringify (((requestArgs req).getField "body").nullish (.obj [])) = some "\x7b\x7d") ∧
    ((requestArgs req).getField "body" ≠ .undefined →
        (requestArgs req).getField "body" ≠ .null →
      jsonStringify (((requestArgs req).getField "body").nullish (.obj [])) =
        jsonStringify ((requestArgs req).getField "body")) := by
  have hcat : isCatalogName (requestName req) = true := by rw [hname]; decide
  have hurl : buildUrl w.newURL BASE_URL (.str "/coupons") .undefined =
      .ok (BASE_URL ++ "/coupons") := by
    rw [hw]; rfl
  refine ⟨?_, ?_, ?_⟩
  · rw [handler_calls, if_pos hcat, hname,
      outbound_create w _ hargs (requestArgs_ne_undefined req), hurl]
    rfl
  · rintro (h | h) <;> rw [h] <;> rfl
  · intro h1 h2
    cases hb : (requestArgs req).getField "body" with
    | undefined => exact absurd hb h1
    | null => exact absurd hb h2
    | bool b => rfl
    | num r => rfl
    | str s => rfl
    | arr items => rfl
    | obj props => rfl

/-- C16, at a concrete input: `coupon.create` without a body. -/
theorem create_request_witness :
    (handler (sampleWorld (.error (.error "TypeError" "fetch failed")))
        (invocation "coupon.create" (.obj []))).calls =
      [{ url := "https://mcpcounpon.onrender.com/coupons",
         init := { method := .str "POST",
                   headers := some [("content-type", .str "application/json")],
                   body := some "\x7b\x7d" } }] :=
  (create_request (sampleWorld (.error (.error "TypeError" "fetch failed")))
    (invocation "coupon.create" (.obj [])) rfl rfl (by simp [requestArgs, invocation, JSValue.or, JSValue.truthy, JSValue.getField, JSValue.lookup])).1

/-! ## C19: how many HTTP attempts -/

/-- On a platform with the WHATWG parser the request construction of a catalog tool
succeeds exactly when the arguments are not `null`. -/
theorem outbound_standard (w : World) (hw : w.standard) (name a : JSValue)
    (hcat : isCatalogName name = true) (h1 : a ≠ .null) (h2 : a ≠ .undefined) :
    ∃ c, outbound w name a = .ok c := by
  have hbuild : ∀ path query, ∃ url, buildUrl w.newURL BASE_URL path query = .ok url := by
    intro path query
    rw [hw]
    obtain ⟨rest, hrest⟩ := buildUrl_base path query
    exact ⟨_, hrest⟩
  rw [isCatalogName_iff] at hcat
  simp only [isName_eq_true] at hcat
  rcases hcat with h | h | h | h | h
  · obtain ⟨url, hurl⟩ := hbuild (a.getField "path") (a.getField "query")
    rw [h, outbound_generic w a h1 h2, hurl]
    exact ⟨_, rfl⟩
  · obtain ⟨url, hurl⟩ := hbuild (.str "/coupons") .undefined
    rw [h, outbound_create w a h1 h2, hurl]
    exact ⟨_, rfl⟩
  · obtain ⟨url, hurl⟩ :=
      hbuild (.str ("/coupons/" ++ encodeURIComponent (a.getField "id"))) .undefined
    rw [h, outbound_get w a h1 h2, hurl]
    exact ⟨_, rfl⟩
  · obtain ⟨url, hurl⟩ := hbuild (.str "/coupons") (a.getField "query")
    rw [h, outbound_list w a h1 h2, hurl]
    exact ⟨_, rfl⟩
  · obtain ⟨url, hurl⟩ :=
      hbuild (.str "/api/mcp/jutuike/public_promo_list") (a.getField "query")
    rw [h, outbound_promo w a h1 h2, hurl]
    exact ⟨_, rfl⟩

/-- The request construction does not depend on the upstream. -/
theorem outbound_congr (w1 w2 : World) (h : w1.newURL = w2.newURL) (name a : JSValue) :
    outbound w1 name a = outbound w2 name a := by
  unfold outbound
  rw [h]

/-- C19 (counterexample): an invocation of a name outside the catalog makes no HTTP
attempt, although the upstream would answer, and neither does an invocation of
`coupon.get` whose arguments are `null`, where reading `args.id` throws. -/
theorem unknown_tool_skips_the_call :
    (handler
        (sampleWorld (.ok { status := 200, contentType := some "text/plain",
                            body := some (.ok "ok") }))
        (invocation "coupon.update" (.obj [("id", .str "c1")]))).calls.length = 0 ∧
    (handler
        (sampleWorld (.ok { status := 200, contentType := some "text/plain",
                            body := some (.ok "ok") }))
        (invocation "coupon.get" .null)).calls.length = 0 :=
  ⟨rfl, rfl⟩

/-- C19 (amended): every invocation makes at most one HTTP attempt, and the attempts made
do not depend on what the upstream does (a success status, an error status or a failed
call): there is no second call. Exactly one attempt is made when the name is one of the
catalog and the request is constructed without an exception; none is made when the name
is unknown or the construction throws. -/
theorem at_most_one_attempt (w : World) (req : JSValue) :
    (handler w req).calls.length ≤ 1 ∧
    (∀ w2 : World, w2.newURL = w.newURL → (handler w2 req).calls = (handler w req).calls) ∧
    ((handler w req).calls.length = 1 ↔
      isCatalogName (requestName req) = true ∧
        ∃ c, outbound w (requestName req) (requestArgs req) = .ok c) ∧
    ((handler w req).calls = [] ↔
      isCatalogName (requestName req) = false ∨
        ∃ err, outbound w (requestName req) (requestArgs req) = .error err) := by
  refine ⟨?_, ?_, ?_, ?_⟩
  · rw [handler_calls]
    by_cases hcat : isCatalogName (requestName req) = true
    · rw [if_pos hcat]
      cases outbound w (requestName req) (requestArgs req) <;> simp
    · rw [if_neg hcat]
      simp
  · intro w2 h2
    rw [handler_calls, handler_calls, outbound_congr w2 w h2]
  · rw [handler_calls]
    by_cases hcat : isCatalogName (requestName req) = true
    · rw [if_pos hcat]
      cases ho : outbound w (requestName req) (requestArgs req) with
      | error e => simp [hcat]
      | ok c => simp [hcat]
    · rw [if_neg hcat]
      simp [hcat]
  · rw [handler_calls]
    by_cases hcat : isCatalogName (requestName req) = true
    · rw [if_pos hcat]
      cases ho : outbound w (requestName req) (requestArgs req) with
      | error e => simp [hcat]
      | ok c => simp [hcat]
    · rw [if_neg hcat]
      simp [hcat]

/-- C19 (amended), at a concrete input: `coupon.list` makes its one attempt whether the
upstream answers 500 or the call fails. -/
theorem at_most_one_attempt_witness :
    (handler
        (sampleWorld (.ok { status := 500, contentType := some "text/plain",
                            body := some (.ok "down") }))
        (invocation "coupon.list" (.obj []))).calls.length = 1 ∧
    (handler (sampleWorld (.error (.error "TypeError" "fetch failed")))
        (invocation "coupon.list" (.obj []))).calls =
      (handler
        (sampleWorld (.ok { status := 500, contentType := some "text/plain",
                            body := some (.ok "down") }))
        (invocation "coupon.list" (.obj []))).calls :=
  ⟨(at_most_one_attempt
        (sampleWorld (.ok { status := 500, contentType := some "text/plain",
                            body := some (.ok "down") }))
        (invocation "coupon.list" (.obj []))).2.2.1.2
      ⟨rfl, getCall "https://mcpcounpon.onrender.com/coupons", rfl⟩,
   (at_most_one_attempt
        (sampleWorld (.ok { status := 500, contentType := some "text/plain",
                            body := some (.ok "down") }))
        (invocation "coupon.list" (.obj []))).2.1
      (sampleWorld (.error (.error "TypeError" "fetch failed"))) rfl⟩

/-! ## C20: the registry and the dispatcher agree -/

theorem failed_ne_unknown (m n : String) : "Request failed: " ++ m ≠ "Unknown tool: " ++ n := by
  intro h
  have hd := congrArg String.data h
  simp at hd

/-- C20: the names of the descriptors of the catalog returned by list-tools are pairwise
distinct, and for every world and request the handler produces the `Unknown tool`
envelope if and only if the name of the request is not the name of a descriptor of the
catalog; that is, a name is routed to a request-building branch exactly when it is in
the catalog. -/
theorem registry_matches_dispatcher :
    (listTools.map fun t => t.name).Nodup ∧
    ∀ (w : World) (req : JSValue),
      ((handler w req).result ≠
          .ok { content := [.text ("Unknown tool: " ++ (requestName req).toJSString)],
                isError := some true } ↔
        ∃ t ∈ listTools, requestName req = .str t.name) := by
  refine ⟨by decide, ?_⟩
  intro w req
  have hcatiff : isCatalogName (requestName req) = true ↔
      ∃ t ∈ listTools, requestName req = .str t.name := by
    simp only [isCatalogName, listTools, List.any_eq_true, isName_eq_true]
  rw [← hcatiff]
  constructor
  · intro hne
    by_contra hcat
    exact hne (by rw [handler_unknown w req (by simpa using hcat)])
  · intro hcat
    rw [handler_catalog w req hcat]
    cases outbound w (requestName req) (requestArgs req) with
    | error e =>
      intro h
      have h2 := Except.ok.inj h
      simp only [requestFailed, Envelope.mk.injEq, List.cons.injEq, ResultContent.text.injEq,
        and_true] at h2
      exact failed_ne_unknown _ _ h2
    | ok c =>
      simp only
      cases w.fetch c.url c.init with
      | error e =>
        intro h
        have h2 := Except.ok.inj h
        simp only [requestFailed, Envelope.mk.injEq, List.cons.injEq, ResultContent.text.injEq,
          and_true] at h2
        exact failed_ne_unknown _ _ h2
      | ok reply =>
        simp only
        cases readResponse w { reply := reply, disturbed := false } with
        | error e =>
          intro h
          have h2 := Except.ok.inj h
          simp only [requestFailed, Envelope.mk.injEq, List.cons.injEq,
            ResultContent.text.injEq, and_true] at h2
          exact failed_ne_unknown _ _ h2
        | ok out =>
          intro h
          have h2 := Except.ok.inj h
          simp at h2

/-- C20, at concrete inputs: `coupon.list` is routed, `coupon.delete` is not. -/
theorem registry_matches_dispatcher_witness :
    (handler (sampleWorld (.error (.error "TypeError" "fetch failed")))
        (invocation "coupon.list" (.obj []))).result ≠
      .ok { content := [.text "Unknown tool: coupon.list"], isError := some true } ∧
    (handler (sampleWorld (.error (.error "TypeError" "fetch failed")))
        (invocation "coupon.delete" (.obj []))).result =
      .ok { content := [.text "Unknown tool: coupon.delete"], isError := some true } :=
  ⟨(registry_matches_dispatcher.2 (sampleWorld (.error (.error "TypeError" "fetch failed")))
      (invocation "coupon.list" (.obj []))).2
      ⟨{ name := "coupon.list",
         description := "List coupons via GET /coupons with optional query params.",
         properties := ["query"], required := [] },
       by simp [listTools, tools], rfl⟩,
   rfl⟩

/-! ## C17: the headers of the generic tool -/

theorem map_replace_absent (k : String) (v : JSValue) (rest : List (String × JSValue))
    (h : ∀ p ∈ rest, p.1 ≠ k) :
    rest.map (fun p => if p.1 == k then (p.1, v) else p) = rest := by
  induction rest with
  | nil => rfl
  | cons q tl ih =>
    have hq : (q.1 == k) = false := by simpa using h q (List.mem_cons_self _ _)
    rw [List.map_cons, ih (fun p hp => h p (List.mem_cons_of_mem _ hp))]
    simp [hq]

theorem setProp_new (props : List (String × JSValue)) (kv : String × JSValue)
    (h : ∀ p ∈ props, p.1 ≠ kv.1) : setProp props kv = props ++ [kv] := by
  unfold setProp
  have hany : props.any (fun p => p.1 == kv.1) = false := by
    rw [List.any_eq_false]
    intro p hp
    simpa using h p hp
  rw [hany]
  rfl

theorem setProp_head (k : String) (x v : JSValue) (rest : List (String × JSValue))
    (h : ∀ p ∈ rest, p.1 ≠ k) : setProp ((k, x) :: rest) (k, v) = (k, v) :: rest := by
  unfold setProp
  have hany : ((k, x) :: rest).any (fun p => p.1 == (k, v).1) = true := by simp
  rw [hany, if_pos rfl, List.map_cons]
  have hm := map_replace_absent k v rest h
  simp only at hm ⊢
  rw [hm]
  simp

theorem contentTypeOf_absent (dflt : JSValue) (hs : List (String × JSValue))
    (h : ∀ p ∈ hs, p.1 ≠ "content-type") : contentTypeOf dflt hs = dflt := by
  unfold contentTypeOf
  have hf : hs.find? (fun p => p.1 == "content-type") = none := by
    rw [List.find?_eq_none]
    intro p hp
    simpa using h p hp
  rw [hf]

theorem filter_absent (hs : List (String × JSValue))
    (h : ∀ p ∈ hs, p.1 ≠ "content-type") :
    hs.filter (fun p => p.1 != "content-type") = hs :=
  List.filter_eq_self.2 (fun p hp => by simpa using h p hp)

/-- The headers object built from the default entry and the spread of an object with
pairwise distinct keys. -/
theorem foldl_setProp (hs : List (String × JSValue)) (x : JSValue)
    (rest : List (String × JSValue))
    (hrest : ∀ p ∈ rest, p.1 ≠ "content-type")
    (hnodup : (hs.map Prod.fst).Nodup)
    (hdisj : ∀ p ∈ hs, ∀ q ∈ rest, q.1 ≠ p.1) :
    hs.foldl setProp (("content-type", x) :: rest) =
      ("content-type", contentTypeOf x hs) ::
        (rest ++ hs.filter fun p => p.1 != "content-type") := by
  induction hs generalizing x rest with
  | nil => simp [contentTypeOf]
  | cons kv tl ih =>
    obtain ⟨k, v⟩ := kv
    rw [List.map_cons, List.nodup_cons] at hnodup
    obtain ⟨hk, htl⟩ := hnodup
    have htlk : ∀ p ∈ tl, p.1 ≠ k := by
      intro p hp heq
      apply hk
      rw [← heq]
      exact List.mem_map.2 ⟨p, hp, rfl⟩
    rw [List.foldl_cons]
    by_cases hct : k = "content-type"
    · subst hct
      rw [setProp_head _ x v rest hrest,
        ih v rest hrest htl (fun p hp q hq => hdisj p (List.mem_cons_of_mem _ hp) q hq),
        contentTypeOf_absent v tl htlk]
      simp [contentTypeOf, List.filter_cons]
    · have hnew : setProp (("content-type", x) :: rest) (k, v) =
          ("content-type", x) :: (rest ++ [(k, v)]) := by
        rw [setProp_new]
        · rfl
        · intro p hp
          rw [List.mem_cons] at hp
          rcases hp with hp | hp
          · rw [hp]; exact fun h => hct h.symm
          · exact hdisj (k, v) (List.mem_cons_self _ _) p hp
      have hb : (k == "content-type") = false := by simpa using hct
      rw [hnew, ih x (rest ++ [(k, v)])
        (by
          intro p hp
          rw [List.mem_append, List.mem_singleton] at hp
          rcases hp with hp | hp
          · exact hrest p hp
          · rw [hp]; exact hct)
        htl
        (by
          intro p hp q hq
          rw [List.mem_append, List.mem_singleton] at hq
          rcases hq with hq | hq
          · exact hdisj p (List.mem_cons_of_mem _ hp) q hq
          · rw [hq]; exact fun h => htlk p hp h.symm)]
      simp [contentTypeOf, List.find?_cons, List.filter_cons, hb, hct]

/-- The headers object of the generic tool for a caller object with distinct keys. -/
theorem mergedHeaders_obj (hs : List (String × JSValue)) (hnodup : (hs.map Prod.fst).Nodup) :
    mergedHeaders (.obj hs) =
      ("content-type", contentTypeOf (.str "application/json") hs) ::
        hs.filter fun p => p.1 != "content-type" := by
  have h := foldl_setProp hs (.str "application/json") [] (by simp) hnodup (by simp)
  simpa [mergedHeaders, JSValue.or, JSValue.truthy, JSValue.entries] using h

theorem contentTypeOf_present (dflt v : JSValue) (hs : List (String × JSValue))
    (hnodup : (hs.map Prod.fst).Nodup) (hmem : ("content-type", v) ∈ hs) :
    contentTypeOf dflt hs = v := by
  obtain ⟨l1, l2, rfl, h1, _⟩ := split_at_entry hs "content-type" v hnodup hmem
  unfold contentTypeOf
  have hf : (l1 ++ ("content-type", v) :: l2).find? (fun p => p.1 == "content-type") =
      some ("content-type", v) := by
    clear hnodup hmem
    induction l1 with
    | nil => simp
    | cons q tl ih =>
      have hq : (q.1 == "content-type") = false := by
        simpa using h1 q (List.mem_cons_self _ _)
      rw [List.cons_append, List.find?_cons, hq]
      exact ih (fun p hp => h1 p (List.mem_cons_of_mem _ hp))
  rw [hf]

/-- C17 (counterexample): a caller header `Content-Type` (not in lower case) does not
replace the default: the headers passed to `fetch` hold the default `content-type` and
the caller's `Content-Type` side by side. -/
theorem caller_content_type_beside_default :
    (handler (sampleWorld (.error (.error "TypeError" "fetch failed")))
        (invocation "http.request"
          (.obj [("method", .str "POST"), ("path", .str "/coupons"),
                 ("headers", .obj [("Content-Type", .str "text/plain")]),
                 ("body", .str "hi")]))).calls =
      [{ url := "https://mcpcounpon.onrender.com/coupons",
         init := { method := .str "POST",
                   headers := some [("content-type", .str "application/json"),
                                    ("Content-Type", .str "text/plain")],
                   body := some "hi" } }] := rfl

/-- C17 (amended): for every `http.request` invocation that reaches its `fetch` call, the
headers passed to `fetch` are the object literal made of the default
`content-type: application/json` and the spread of `arguments.headers`. When the caller
supplies no headers, or a headers object without the key `content-type`, the default is
there, followed by the caller's headers unchanged; when the caller supplies the key
`content-type` exactly so, in lower case, its value stands in place of the default and
the other headers follow unchanged; every caller header under another key, a
`content-type` in another letter case included, is passed through beside it. -/
theorem generic_headers (w : World) (req : JSValue) (c : Call)
    (hname : requestName req = .str "http.request")
    (hcall : c ∈ (handler w req).calls) :
    c.init.headers = some (mergedHeaders ((requestArgs req).getField "headers")) ∧
    (((requestArgs req).getField "headers" = .undefined ∨
        (requestArgs req).getField "headers" = .null) →
      c.init.headers = some [("content-type", .str "application/json")]) ∧
    (∀ hs, (requestArgs req).getField "headers" = .obj hs → (hs.map Prod.fst).Nodup →
      ((∀ p ∈ hs, p.1 ≠ "content-type") →
        c.init.headers = some (("content-type", .str "application/json") :: hs)) ∧
      (∀ v, ("content-type", v) ∈ hs →
        c.init.headers =
          some (("content-type", v) :: hs.filter fun p => p.1 != "content-type")) ∧
      (∀ p ∈ hs, p.1 ≠ "content-type" → ∃ l, c.init.headers = some l ∧ p ∈ l)) := by
  obtain ⟨hnull, hundef⟩ := args_of_call w req c hcall
  obtain ⟨_, ho⟩ := handler_call w req c hcall
  rw [hname, outbound_generic w _ hnull hundef] at ho
  have hhead : c.init.headers = some (mergedHeaders ((requestArgs req).getField "headers")) := by
    cases hb : buildUrl w.newURL BASE_URL ((requestArgs req).getField "path")
        ((requestArgs req).getField "query") with
    | error e => rw [hb] at ho; exact Except.noConfusion ho
    | ok url =>
      rw [hb] at ho
      have hc := Except.ok.inj ho
      subst hc
      rfl
  refine ⟨hhead, ?_, ?_⟩
  · rintro (h | h) <;> rw [hhead, h] <;> rfl
  · intro hs hobj hnodup
    rw [hhead, hobj, mergedHeaders_obj hs hnodup]
    refine ⟨?_, ?_, ?_⟩
    · intro habs
      rw [contentTypeOf_absent _ hs habs, filter_absent hs habs]
    · intro v hv
      rw [contentTypeOf_present _ v hs hnodup hv]
    · intro p hp hne
      refine ⟨_, rfl, ?_⟩
      apply List.mem_cons_of_mem
      rw [List.mem_filter]
      exact ⟨hp, by simpa using hne⟩

/-- C17 (amended), at a concrete input: the caller's lower-case `content-type` replaces
the default and `x-trace` is passed through. -/
theorem generic_headers_witness :
    (handler (sampleWorld (.error (.error "TypeError" "fetch failed")))
        (invocation "http.request"
          (.obj [("method", .str "GET"), ("path", .str "/coupons"),
                 ("headers", .obj [("x-trace", .str "1"),
                                   ("content-type", .str "text/plain")])]))).calls =
      [{ url := "https://mcpcounpon.onrender.com/coupons",
         init := { method := .str "GET",
                   headers := some [("content-type", .str "text/plain"),
                                    ("x-trace", .str "1")],
                   body := none } }] ∧
    some [("content-type", JSValue.str "text/plain"), ("x-trace", JSValue.str "1")] =
      some (("content-type", JSValue.str "text/plain") ::
        [("x-trace", JSValue.str "1"), ("content-type", JSValue.str "text/plain")].filter
          fun p => p.1 != "content-type") :=
  ⟨rfl,
   ((generic_headers (sampleWorld (.error (.error "TypeError" "fetch failed")))
      (invocation "http.request"
        (.obj [("method", .str "GET"), ("path", .str "/coupons"),
               ("headers", .obj [("x-trace", .str "1"),
                                 ("content-type", .str "text/plain")])]))
      { url := "https://mcpcounpon.onrender.com/coupons",
        init := { method := .str "GET",
                  headers := some [("content-type", .str "text/plain"),
                                   ("x-trace", .str "1")],
                  body := none } }
      rfl (List.mem_singleton.mpr rfl)).2.2
      [("x-trace", .str "1"), ("content-type", .str "text/plain")] rfl (by decide)).2.1
      (.str "text/plain") (List.mem_cons_of_mem _ (List.mem_singleton.mpr rfl))⟩

/-! ## C18: the convenience tools and the generic tool -/

theorem requestName_invocation (n : String) (a : JSValue) :
    requestName (invocation n a) = .str n := rfl

theorem requestArgs_invocation (n : String) (a : JSValue) (h : a ≠ .undefined) :
    requestArgs (invocation n a) = a := by
  cases a with
  | undefined => exact absurd rfl h
  | null => rfl
  | bool b => rfl
  | num r => rfl
  | str s => rfl
  | arr items => rfl
  | obj props => rfl

/-- Two runs of catalog tools whose requests differ by a change `f` that keeps the URL:
the call logs differ by `f`, and the results agree when the upstream answers the changed
request as it answers the original one. -/
theorem runs_related (w : World) (r1 r2 : JSValue) (f : Call → Call)
    (hcat1 : isCatalogName (requestName r1) = true)
    (hcat2 : isCatalogName (requestName r2) = true)
    (ho : outbound w (requestName r2) (requestArgs r2) =
      (outbound w (requestName r1) (requestArgs r1)).map f) :
    (handler w r2).calls = (handler w r1).calls.map f ∧
    ((∀ c ∈ (handler w r1).calls, w.fetch (f c).url (f c).init = w.fetch c.url c.init) →
      (handler w r2).result = (handler w r1).result) := by
  rw [handler_catalog w r1 hcat1, handler_catalog w r2 hcat2, ho]
  cases h1 : outbound w (requestName r1) (requestArgs r1) with
  | error e => exact ⟨rfl, fun _ => rfl⟩
  | ok c =>
    refine ⟨rfl, ?_⟩
    intro hf
    have := hf c (List.mem_singleton.mpr rfl)
    simp only [Except.map]
    rw [this]

theorem serializeBody_structured (b : JSValue) (h1 : b ≠ .undefined) (h2 : b ≠ .null)
    (h3 : ∀ s, b ≠ .str s) : serializeBody b = jsonStringify (b.nullish (.obj [])) := by
  cases b with
  | undefined => exact absurd rfl h1
  | null => exact absurd rfl h2
  | str s => exact absurd rfl (h3 s)
  | bool x => rfl
  | num r => rfl
  | arr items => rfl
  | obj props => rfl

/-- The request of the generic tool invoked with a method, a path and a query. -/
theorem outbound_generic_query (w : World) (m p : String) (v : JSValue) :
    outbound w (.str "http.request") (genericArgs m p "query" v) =
      (buildUrl w.newURL BASE_URL (.str p) v).map fun url =>
        { url := url,
          init := { method := .str m, headers := some [defaultContentType],
                    body := if needsBody (.str m) then none else none } } := by
  rw [outbound_generic w _ (fun h => JSValue.noConfusion h) (fun h => JSValue.noConfusion h)]
  rfl

/-- The request of the generic tool invoked with a method, a path and a body. -/
theorem outbound_generic_body (w : World) (m p : String) (v : JSValue) :
    outbound w (.str "http.request") (genericArgs m p "body" v) =
      (buildUrl w.newURL BASE_URL (.str p) .undefined).map fun url =>
        { url := url,
          init := { method := .str m, headers := some [defaultContentType],
                    body := if needsBody (.str m) then serializeBody v else none } } := by
  rw [outbound_generic w _ (fun h => JSValue.noConfusion h) (fun h => JSValue.noConfusion h)]
  rfl

/-- C18 (counterexample): `coupon.list` and the generic tool invoked with `GET` and
`/coupons` do not issue the same request, and an upstream that looks at the headers
makes the envelopes differ; `coupon.create` without a body sends the text of the empty
object where the generic tool invoked with `POST` and `/coupons` sends no body. -/
theorem convenience_differs_from_generic :
    handler headerSensitiveWorld (invocation "coupon.list" (.obj [])) =
      { result := .ok { content := [.text "Status 200: without headers"], isError := none },
        calls := [{ url := "https://mcpcounpon.onrender.com/coupons",
                    init := { method := .str "GET", headers := none, body := none } }] } ∧
    handler headerSensitiveWorld
        (invocation "http.request" (genericArgs "GET" "/coupons" "query" .undefined)) =
      { result := .ok { content := [.text "Status 200: with headers"], isError := none },
        calls := [{ url := "https://mcpcounpon.onrender.com/coupons",
                    init := { method := .str "GET",
                              headers := some [("content-type", .str "application/json")],
                              body := none } }] } ∧
    (handler headerSensitiveWorld (invocation "coupon.list" (.obj []))).result ≠
      (handler headerSensitiveWorld
        (invocation "http.request" (genericArgs "GET" "/coupons" "query" .undefined))).result ∧
    (handler headerSensitiveWorld (invocation "coupon.create" (.obj []))).calls.map
        (fun c => c.init.body) = [some "\x7b\x7d"] ∧
    (handler headerSensitiveWorld
        (invocation "http.request" (genericArgs "POST" "/coupons" "body" .undefined))).calls.map
        (fun c => c.init.body) = [none] := by
  refine ⟨rfl, rfl, ?_, rfl, rfl⟩
  have e1 : (handler headerSensitiveWorld (invocation "coupon.list" (.obj []))).result =
      .ok { content := [.text "Status 200: without headers"], isError := none } := rfl
  have e2 : (handler headerSensitiveWorld
      (invocation "http.request" (genericArgs "GET" "/coupons" "query" .undefined))).result =
      .ok { content := [.text "Status 200: with headers"], isError := none } := rfl
  rw [e1, e2]
  intro h
  have h2 := Except.ok.inj h
  simp only [Envelope.mk.injEq, List.cons.injEq, ResultContent.text.injEq, and_true] at h2
  revert h2
  decide

/-- C18 (amended): for every world and every arguments value other than `null`, each
convenience tool issues a request with the same method, URL and body as the generic tool
invoked with the tool's fixed method and path and the same query: the three `GET` tools
send no headers where the generic tool adds its default `content-type`, so the call logs
agree up to that header, and the envelopes are equal whenever the upstream answers the
request alike with and without it. `coupon.create` sends the same method, URL and headers
as the generic tool invoked with `POST`, `/coupons` and the same body, and the same body
too, hence the same request and the same envelope, when `arguments.body` is a structured
value (an object, an array, a number or a boolean). -/
theorem convenience_refines_generic (w : World) (a : JSValue)
    (h1 : a ≠ .null) (h2 : a ≠ .undefined) :
    ((handler w (invocation "http.request"
          (genericArgs "GET" ("/coupons/" ++ encodeURIComponent (a.getField "id")) "query"
            .undefined))).calls =
        (handler w (invocation "coupon.get" a)).calls.map withDefaultHeaders ∧
      ((∀ c ∈ (handler w (invocation "coupon.get" a)).calls,
          w.fetch c.url (withDefaultHeaders c).init = w.fetch c.url c.init) →
        (handler w (invocation "http.request"
          (genericArgs "GET" ("/coupons/" ++ encodeURIComponent (a.getField "id")) "query"
            .undefined))).result =
          (handler w (invocation "coupon.get" a)).result)) ∧
    ((handler w (invocation "http.request"
          (genericArgs "GET" "/coupons" "query" (a.getField "query")))).calls =
        (handler w (invocation "coupon.list" a)).calls.map withDefaultHeaders ∧
      ((∀ c ∈ (handler w (invocation "coupon.list" a)).calls,
          w.fetch c.url (withDefaultHeaders c).init = w.fetch c.url c.init) →
        (handler w (invocation "http.request"
          (genericArgs "GET" "/coupons" "query" (a.getField "query")))).result =
          (handler w (invocation "coupon.list" a)).result)) ∧
    ((handler w (invocation "http.request"
          (genericArgs "GET" "/api/mcp/jutuike/public_promo_list" "query"
            (a.getField "query")))).calls =
        (handler w (invocation "jutuike.public_promo_list" a)).calls.map withDefaultHeaders ∧
      ((∀ c ∈ (handler w (invocation "jutuike.public_promo_list" a)).calls,
          w.fetch c.url (withDefaultHeaders c).init = w.fetch c.url c.init) →
        (handler w (invocation "http.request"
          (genericArgs "GET" "/api/mcp/jutuike/public_promo_list" "query"
            (a.getField "query")))).result =
          (handler w (invocation "jutuike.public_promo_list" a)).result)) ∧
    ((handler w (invocation "http.request"
          (genericArgs "POST" "/coupons" "body" (a.getField "body")))).calls =
        (handler w (invocation "coupon.create" a)).calls.map
          (fun c => { c with init := { c.init with body := serializeBody (a.getField "body") } }) ∧
      (a.getField "body" ≠ .undefined → a.getField "body" ≠ .null →
        (∀ s, a.getField "body" ≠ .str s) →
        handler w (invocation "http.request"
            (genericArgs "POST" "/coupons" "body" (a.getField "body"))) =
          handler w (invocation "coupon.create" a))) := by
  have hg : ∀ (m p k : String) (v : JSValue),
      requestArgs (invocation "http.request" (genericArgs m p k v)) = genericArgs m p k v :=
    fun m p k v => rfl
  refine ⟨?_, ?_, ?_, ?_⟩
  · apply runs_related w (invocation "coupon.get" a) (invocation "http.request" _)
      withDefaultHeaders rfl rfl
    rw [requestName_invocation, requestName_invocation, hg, requestArgs_invocation _ a h2,
      outbound_generic_query, outbound_get w a h1 h2]
    cases buildUrl w.newURL BASE_URL
      (.str ("/coupons/" ++ encodeURIComponent (a.getField "id"))) .undefined <;> rfl
  · apply runs_related w (invocation "coupon.list" a) (invocation "http.request" _)
      withDefaultHeaders rfl rfl
    rw [requestName_invocation, requestName_invocation, hg, requestArgs_invocation _ a h2,
      outbound_generic_query, outbound_list w a h1 h2]
    cases buildUrl w.newURL BASE_URL (.str "/coupons") (a.getField "query") <;> rfl
  · apply runs_related w (invocation "jutuike.public_promo_list" a)
      (invocation "http.request" _) withDefaultHeaders rfl rfl
    rw [requestName_invocation, requestName_invocation, hg, requestArgs_invocation _ a h2,
      outbound_generic_query, outbound_promo w a h1 h2]
    cases buildUrl w.newURL BASE_URL (.str "/api/mcp/jutuike/public_promo_list")
      (a.getField "query") <;> rfl
  · have hnp : needsBody (.str "POST") = true := by decide
    have hout : outbound w (requestName (invocation "http.request"
          (genericArgs "POST" "/coupons" "body" (a.getField "body"))))
        (requestArgs (invocation "http.request"
          (genericArgs "POST" "/coupons" "body" (a.getField "body")))) =
        (outbound w (requestName (invocation "coupon.create" a))
          (requestArgs (invocation "coupon.create" a))).map
          (fun c => { c with init := { c.init with body := serializeBody (a.getField "body") } }) := by
      rw [requestName_invocation, requestName_invocation, hg, requestArgs_invocation _ a h2,
        outbound_generic_body, outbound_create w a h1 h2, hnp]
      cases buildUrl w.newURL BASE_URL (.str "/coupons") .undefined <;> rfl
    refine ⟨(runs_related w (invocation "coupon.create" a) (invocation "http.request" _) _
      rfl rfl hout).1, ?_⟩
    intro hb1 hb2 hb3
    have hs := serializeBody_structured (a.getField "body") hb1 hb2 hb3
    rw [handler_catalog w (invocation "http.request" _) rfl,
      handler_catalog w (invocation "coupon.create" a) rfl, hout]
    rw [requestName_invocation, requestArgs_invocation _ a h2, outbound_create w a h1 h2, hs]
    cases buildUrl w.newURL BASE_URL (.str "/coupons") .undefined <;> rfl
/-- C18 (amended), at a concrete input: `coupon.create` with an object body and the
generic tool invoked with `POST`, `/coupons` and that body run alike. -/
theorem convenience_refines_generic_witness :
    handler (sampleWorld (.ok { status := 201, contentType := some "application/json",
                                body := some (.ok "\x7b\"id\":\"c1\"\x7d") }))
        (invocation "http.request"
          (genericArgs "POST" "/coupons" "body" (.obj [("code", .str "SAVE10")]))) =
      handler (sampleWorld (.ok { status := 201, contentType := some "application/json",
                                  body := some (.ok "\x7b\"id\":\"c1\"\x7d") }))
        (invocation "coupon.create" (.obj [("body", .obj [("code", .str "SAVE10")])])) :=
  (convenience_refines_generic
      (sampleWorld (.ok { status := 201, contentType := some "application/json",
                          body := some (.ok "\x7b\"id\":\"c1\"\x7d") }))
      (.obj [("body", .obj [("code", .str "SAVE10")])])
      (fun h => JSValue.noConfusion h) (fun h => JSValue.noConfusion h)).2.2.2.2
    (by simp [JSValue.getField, JSValue.lookup])
    (by simp [JSValue.getField, JSValue.lookup])
    (by simp [JSValue.getField, JSValue.lookup])

/-! ## C15: the URL of `coupon.get` -/

/-- C15 (the code at the failing inputs): the ids `..` and `.` are left as they are by
`encodeURIComponent` and are then removed by the URL parser as dot segments: with the id
`..` the request goes to the root of the upstream, with the id `.` to `/coupons/`. -/
theorem coupon_get_dot_segment_ids :
    encodeURIComponent (.str "..") = ".." ∧
    (handler (sampleWorld (.error (.error "TypeError" "fetch failed")))
        (invocation "coupon.get" (.obj [("id", .str "..")]))).calls =
      [getCall "https://mcpcounpon.onrender.com/"] ∧
    (handler (sampleWorld (.error (.error "TypeError" "fetch failed")))
        (invocation "coupon.get" (.obj [("id", .str ".")]))).calls =
      [getCall "https://mcpcounpon.onrender.com/coupons/"] ∧
    (handler (sampleWorld (.error (.error "TypeError" "fetch failed")))
        (invocation "coupon.get" (.obj [("id", .str "a/b?c#d e")]))).calls =
      [getCall "https://mcpcounpon.onrender.com/coupons/a%2Fb%3Fc%23d%20e"] :=
  ⟨rfl, rfl, rfl, rfl⟩

/-! ## The JSON decoder inverts `JSON.stringify` -/

set_option maxRecDepth 100000 in
/-- The decoder on sample texts: values between white space, escapes, a surrogate pair,
a key that comes again, keys that are array indices, number literals in other notations
than the one `Number::toString` writes, texts that are not JSON, and a text left outside
the embedding. -/
theorem jsonParse_samples :
    jsonParse " [1, \"x\\n\\u0041\\ud83d\\ude00\", true,null, \x7b\"b\":[], \"10\":1, \"b\": -1.5, \"2\":0\x7d ] " =
      .ok (.arr [.num "1", .str "x\nA😀", .bool true, .null,
        .obj [("2", .num "0"), ("10", .num "1"), ("b", .num "-1.5")]]) ∧
    jsonParse "0.30000000000000004" = .ok (.num "0.30000000000000004") ∧
    jsonParse "9007199254740993" = .ok (.num "9007199254740992") ∧
    jsonParse "1234567890123456" = .ok (.num "1234567890123456") ∧
    jsonParse "1.0" = .ok (.num "1") ∧
    jsonParse "1e21" = .ok (.num "1e+21") ∧
    jsonParse "123456789012345678901" = .ok (.num "123456789012345680000") ∧
    jsonParse "0.0000001" = .ok (.num "1e-7") ∧
    jsonParse "5e-324" = .ok (.num "5e-324") ∧
    jsonParse "1.7976931348623157E+308" = .ok (.num "1.7976931348623157e+308") ∧
    jsonParse "-0" = .ok (.num "0") ∧
    jsonParse "1e400" = .ok (.num "Infinity") ∧
    jsonParse "[1,]" = .error jsonSyntaxError ∧
    jsonParse "01" = .error jsonSyntaxError ∧
    jsonParse "tru" = .error jsonSyntaxError ∧
    jsonParse "" = .error jsonSyntaxError ∧
    jsonParse "\"\\ud83d\"" = .error outsideJsonModel := by
  refine ⟨?_, ?_, ?_, ?_, ?_, ?_, ?_, ?_, ?_, ?_, ?_, ?_, ?_, ?_, ?_, ?_, ?_⟩ <;> rfl

/-- Reading one written character of a string literal gives the character back. -/
theorem stringChars_quoteChar (c : Char) (tail acc : List Char) :
    stringChars 0 (jsonQuoteChar c ++ tail) acc = stringChars 0 tail (acc ++ [c]) := by
  by_cases h : c.toNat < 0x20 ∨ c.toNat = 0x22 ∨ c.toNat = 0x5C
  · have hc : c = Char.ofNat c.toNat := (Char.ofNat_toNat c).symm
    generalize c.toNat = n at h hc
    subst hc
    rcases h with h | h | h
    · interval_cases n <;> rfl
    · subst h; rfl
    · subst h; rfl
  · have h1 : ¬ c.toNat < 0x20 := fun x => h (Or.inl x)
    have h2 : ¬ c.toNat = 0x22 := fun x => h (Or.inr (Or.inl x))
    have h3 : ¬ c.toNat = 0x5C := fun x => h (Or.inr (Or.inr x))
    have hq : jsonQuoteChar c = [c] := by
      unfold jsonQuoteChar
      simp only
      rw [if_neg h2, if_neg h3, if_neg (by omega), if_neg (by omega), if_neg (by omega),
        if_neg (by omega), if_neg (by omega), if_neg h1]
    rw [hq]
    show stringChars 0 (c :: tail) acc = _
    have hstep : stringChars 0 (c :: tail) acc =
        (if c.toNat = 0x22 then .ok (acc, tail)
         else if c.toNat = 0x5C then
           match unescape tail with
           | .ok (ch, n) => stringChars n tail (acc ++ [ch])
           | .error e => .error e
         else if c.toNat < 0x20 then .error jsonSyntaxError
         else stringChars 0 tail (acc ++ [c])) := rfl
    rw [hstep, if_neg h2, if_neg h3, if_neg h1]

/-- Reading a written string literal after its opening quote gives the string back. -/
theorem stringChars_quote (s acc rest : List Char) :
    stringChars 0 (s.flatMap jsonQuoteChar ++ Char.ofNat 0x22 :: rest) acc = .ok (acc ++ s, rest) := by
  induction s generalizing acc with
  | nil => simp only [List.flatMap_nil, List.nil_append, List.append_nil]; rfl
  | cons c tl ih =>
    rw [List.flatMap_cons, List.append_assoc, stringChars_quoteChar, ih]
    simp

theorem readsBack_null : ReadsBack .null :=
  ⟨['n', 'u', 'l', 'l'], rfl, ⟨'n', _, rfl, by decide, by decide⟩, fun fuel rest hf _ => by
    obtain ⟨f, rfl⟩ := Nat.exists_eq_succ_of_ne_zero (Nat.not_eq_zero_of_lt hf)
    rfl⟩

theorem readsBack_bool (b : Bool) : ReadsBack (.bool b) := by
  cases b with
  | true =>
    exact ⟨['t', 'r', 'u', 'e'], rfl, ⟨'t', _, rfl, by decide, by decide⟩, fun fuel rest hf _ => by
      obtain ⟨f, rfl⟩ := Nat.exists_eq_succ_of_ne_zero (Nat.not_eq_zero_of_lt hf)
      rfl⟩
  | false =>
    exact ⟨['f', 'a', 'l', 's', 'e'], rfl, ⟨'f', _, rfl, by decide, by decide⟩,
      fun fuel rest hf _ => by
        obtain ⟨f, rfl⟩ := Nat.exists_eq_succ_of_ne_zero (Nat.not_eq_zero_of_lt hf)
        rfl⟩

theorem readsBack_str (s : String) : ReadsBack (.str s) :=
  ⟨jsonQuote s, rfl, ⟨Char.ofNat 0x22, _, rfl, by decide, by decide⟩, fun fuel rest hf _ => by
    obtain ⟨f, rfl⟩ := Nat.exists_eq_succ_of_ne_zero (Nat.not_eq_zero_of_lt hf)
    have hstep : parseValue (f + 1) (Char.ofNat 0x22 :: (s.data.flatMap jsonQuoteChar ++
          Char.ofNat 0x22 :: rest)) =
        match stringChars 0 (s.data.flatMap jsonQuoteChar ++ Char.ofNat 0x22 :: rest) [] with
        | .ok (s, r) => .ok (.str (String.mk s), r)
        | .error e => .error e := rfl
    have htext : jsonQuote s ++ rest =
        Char.ofNat 0x22 :: (s.data.flatMap jsonQuoteChar ++ Char.ofNat 0x22 :: rest) := by
      simp [jsonQuote]
    rw [htext, hstep, stringChars_quote]
    rfl⟩

/-- What a character of a number literal is. -/
theorem isNumberChar_cases (c : Char) (h : isNumberChar c = true) :
    (48 ≤ c.toNat ∧ c.toNat ≤ 57) ∨ c = '-' ∨ c = '+' ∨ c = '.' ∨ c = 'e' ∨ c = 'E' := by
  simpa [isNumberChar, isAsciiDigit, or_assoc] using h

/-- A text that starts with a character of a number literal is read as a number, and
that character is none of the characters that delimit. -/
theorem parseValue_number (f : Nat) (c : Char) (cs : List Char) (h : isNumberChar c = true) :
    parseValue (f + 1) (c :: cs) = parseNumber (c :: cs) ∧ isJsonSpace c = false ∧ c ≠ ']' := by
  have hcases := isNumberChar_cases c h
  clear h
  rcases hcases with h | h | h | h | h | h
  · have hc : c = Char.ofNat c.toNat := (Char.ofNat_toNat c).symm
    generalize c.toNat = n at h hc
    subst hc
    obtain ⟨h1, h2⟩ := h
    interval_cases n <;> exact ⟨rfl, by decide, by decide⟩
  all_goals subst h; exact ⟨rfl, by decide, by decide⟩

/-- The characters of a number literal are taken up to the text that ends the value. -/
theorem number_span (x rest : List Char) (hx : x.all isNumberChar = true) (hr : endsValue rest) :
    (x ++ rest).takeWhile isNumberChar = x ∧ (x ++ rest).dropWhile isNumberChar = rest := by
  induction x with
  | nil =>
    cases rest with
    | nil => exact ⟨rfl, rfl⟩
    | cons a y =>
      have ha := hr a y rfl
      simp [List.takeWhile, List.dropWhile, ha]
  | cons b tl ih =>
    rw [List.all_cons, Bool.and_eq_true] at hx
    obtain ⟨h1, h2⟩ := ih hx.2
    simp [List.takeWhile, List.dropWhile, hx.1, h1, h2]

theorem readsBack_num (r : String) (h : isCanonicalNumber r.data = true) : ReadsBack (.num r) := by
  simp only [isCanonicalNumber, Bool.and_eq_true, beq_iff_eq] at h
  obtain ⟨⟨hall, hlit⟩, hfix⟩ := h
  have hnan : ¬ (r = "NaN" ∨ r = "Infinity" ∨ r = "-Infinity") := by
    rintro (rfl | rfl | rfl) <;> exact absurd hall (by decide)
  have htext : jsonText (.num r) = some r.data := by
    have hstep : jsonText (.num r) =
        if r = "NaN" ∨ r = "Infinity" ∨ r = "-Infinity" then some ['n', 'u', 'l', 'l']
        else some r.data := by
      simp only [jsonText]
    rw [hstep, if_neg hnan]
  have hr : numberToString (toNumber r.data) = r := by
    cases hn : numberToString (toNumber r.data) with
    | mk d =>
      rw [hn] at hfix
      simp only at hfix
      rw [hfix]
  cases hd : r.data with
  | nil => rw [hd] at hlit; exact absurd hlit (by decide)
  | cons c body =>
    have hc : isNumberChar c = true := by
      rw [hd, List.all_cons, Bool.and_eq_true] at hall
      exact hall.1
    refine ⟨r.data, htext, ⟨c, body, hd, (parseValue_number 0 c [] hc).2⟩, ?_⟩
    intro fuel rest hf hrest
    obtain ⟨f, rfl⟩ := Nat.exists_eq_succ_of_ne_zero (Nat.not_eq_zero_of_lt hf)
    have hspan := number_span r.data rest hall hrest
    rw [hd, List.cons_append, (parseValue_number f c (body ++ rest) hc).1, ← List.cons_append, ← hd]
    unfold parseNumber
    simp only [hspan.1, hspan.2, hlit, if_true, hr]

theorem skipSpace_cons (c : Char) (cs : List Char) (h : isJsonSpace c = false) :
    skipSpace (c :: cs) = c :: cs := by
  simp [skipSpace, List.dropWhile, h]

/-- One element followed by a comma: the decoder goes on with the next elements. -/
theorem parseElements_comma (f : Nat) (cs T : List Char) (v : JSValue)
    (h : parseValue f cs = .ok (v, ',' :: T)) :
    parseElements (f + 1) cs =
      match parseElements f T with
      | .ok (vs, r3) => .ok (v :: vs, r3)
      | .error e => .error e := by
  simp only [parseElements, h]
  rfl

/-- One element followed by the closing bracket: the decoder is done. -/
theorem parseElements_close (f : Nat) (cs T : List Char) (v : JSValue)
    (h : parseValue f cs = .ok (v, ']' :: T)) :
    parseElements (f + 1) cs = .ok ([v], T) := by
  simp only [parseElements, h]
  rfl

theorem endsValue_cons (c : Char) (cs : List Char) (h : isNumberChar c = false) :
    endsValue (c :: cs) := by
  intro d r hd
  cases hd
  exact h

theorem endsValue_nil : endsValue [] := by
  intro d r hd
  cases hd

/-- The elements of an array are read back when the first one is and the ones after it
are. -/
theorem elementsReadBack_cons (x : JSValue) (rest : List JSValue) (hx : ReadsBack x)
    (hrest : rest ≠ [] → ElementsReadBack rest) : ElementsReadBack (x :: rest) := by
  obtain ⟨t, ht, ⟨c, r, htc, hsp, hbr⟩, hparse⟩ := hx
  cases rest with
  | nil =>
    have hel : jsonElements [x] = t := by
      simp only [jsonElements, ht, List.append_nil]
    rw [ElementsReadBack, hel]
    refine ⟨⟨c, r, htc, hsp, hbr⟩, ?_⟩
    intro fuel rest2 hf
    obtain ⟨f, rfl⟩ := Nat.exists_eq_succ_of_ne_zero (Nat.not_eq_zero_of_lt hf)
    exact parseElements_close f _ rest2 x
      (hparse f (']' :: rest2) (by omega) (endsValue_cons _ _ (by decide)))
  | cons y ys =>
    obtain ⟨_, hys⟩ := hrest (List.cons_ne_nil _ _)
    have hel : jsonElements (x :: y :: ys) = t ++ ',' :: jsonElements (y :: ys) := by
      have hstep : jsonElements (x :: y :: ys) =
          (match jsonText x with
            | some t => t
            | none => ['n', 'u', 'l', 'l']) ++ [','] ++ jsonElements (y :: ys) := rfl
      rw [hstep, ht]
      simp
    rw [ElementsReadBack, hel]
    refine ⟨⟨c, r ++ ',' :: jsonElements (y :: ys), by rw [htc]; rfl, hsp, hbr⟩, ?_⟩
    intro fuel rest2 hf
    obtain ⟨f, rfl⟩ := Nat.exists_eq_succ_of_ne_zero (Nat.not_eq_zero_of_lt hf)
    have hlen : (t ++ ',' :: jsonElements (y :: ys)).length =
        t.length + 1 + (jsonElements (y :: ys)).length := by
      simp [List.length_append]; omega
    have htpos : 0 < t.length := by rw [htc]; simp
    have h1 := hparse f (',' :: (jsonElements (y :: ys) ++ ']' :: rest2)) (by omega)
      (endsValue_cons _ _ (by decide))
    have h2 := hys f rest2 (by omega)
    have happ : (t ++ ',' :: jsonElements (y :: ys)) ++ ']' :: rest2 =
        t ++ ',' :: (jsonElements (y :: ys) ++ ']' :: rest2) := by simp
    rw [happ, parseElements_comma f _ _ x h1, h2]

/-- After an opening bracket that is followed by an element the decoder reads the
elements. -/
theorem parseValue_bracket (f : Nat) (c : Char) (r : List Char)
    (hsp : isJsonSpace c = false) (hbr : c ≠ ']') :
    parseValue (f + 1) ('[' :: c :: r) =
      match parseElements f (c :: r) with
      | .ok (items, r2) => .ok (.arr items, r2)
      | .error e => .error e := by
  have hstep : parseValue (f + 1) ('[' :: c :: r) =
      match skipSpace (c :: r) with
      | [] => .error jsonSyntaxError
      | d :: r1 =>
        if d = ']' then .ok (.arr [], r1)
        else
          match parseElements f (c :: r) with
          | .ok (items, r2) => .ok (.arr items, r2)
          | .error e => .error e := rfl
  rw [hstep, skipSpace_cons c r hsp]
  simp only [if_neg hbr]

theorem readsBack_arr (items : List JSValue) (h : items ≠ [] → ElementsReadBack items) :
    ReadsBack (.arr items) := by
  refine ⟨'[' :: jsonElements items ++ [']'], rfl, ⟨'[', _, rfl, by decide, by decide⟩, ?_⟩
  intro fuel rest hf _
  obtain ⟨f, rfl⟩ := Nat.exists_eq_succ_of_ne_zero (Nat.not_eq_zero_of_lt hf)
  cases items with
  | nil => rfl
  | cons x xs =>
    obtain ⟨⟨c, r, hc, hsp, hbr⟩, hp⟩ := h (List.cons_ne_nil _ _)
    have happ : ('[' :: jsonElements (x :: xs) ++ [']']) ++ rest =
        '[' :: (jsonElements (x :: xs) ++ ']' :: rest) := by simp
    have hlen : ('[' :: jsonElements (x :: xs) ++ [']']).length =
        (jsonElements (x :: xs)).length + 2 := by simp
    have h2 := hp f rest (by omega)
    rw [happ]
    rw [hc] at h2 ⊢
    rw [List.cons_append, parseValue_bracket f c _ hsp hbr, ← List.cons_append, h2]

/-- A member followed by a comma: the decoder goes on with the next members. -/
theorem parseMembers_comma (f : Nat) (k X T : List Char) (v : JSValue)
    (h : parseValue f X = .ok (v, ',' :: T)) :
    parseMembers (f + 1)
        (Char.ofNat 0x22 :: (k.flatMap jsonQuoteChar ++ Char.ofNat 0x22 :: ':' :: X)) =
      match parseMembers f T with
      | .ok (ms, r5) => .ok ((String.mk k, v) :: ms, r5)
      | .error e => .error e := by
  have hq : skipSpace (Char.ofNat 0x22 :: (k.flatMap jsonQuoteChar ++ Char.ofNat 0x22 :: ':' :: X)) =
      Char.ofNat 0x22 :: (k.flatMap jsonQuoteChar ++ Char.ofNat 0x22 :: ':' :: X) := rfl
  have hcolon : skipSpace (':' :: X) = ':' :: X := rfl
  have hcomma : skipSpace (',' :: T) = ',' :: T := rfl
  simp only [parseMembers, hq, stringChars_quote, hcolon, h, hcomma]
  rfl

/-- A member followed by the closing brace: the decoder is done. -/
theorem parseMembers_close (f : Nat) (k X T : List Char) (v : JSValue)
    (h : parseValue f X = .ok (v, Char.ofNat 0x7D :: T)) :
    parseMembers (f + 1)
        (Char.ofNat 0x22 :: (k.flatMap jsonQuoteChar ++ Char.ofNat 0x22 :: ':' :: X)) =
      .ok ([(String.mk k, v)], T) := by
  have hq : skipSpace (Char.ofNat 0x22 :: (k.flatMap jsonQuoteChar ++ Char.ofNat 0x22 :: ':' :: X)) =
      Char.ofNat 0x22 :: (k.flatMap jsonQuoteChar ++ Char.ofNat 0x22 :: ':' :: X) := rfl
  have hcolon : skipSpace (':' :: X) = ':' :: X := rfl
  have hbrace : skipSpace (Char.ofNat 0x7D :: T) = Char.ofNat 0x7D :: T := rfl
  simp only [parseMembers, hq, stringChars_quote, hcolon, h, hbrace]
  rfl

theorem jsonMembers_cons (kv : String × JSValue) (rest : List (String × JSValue)) (comma : Bool)
    (t : List Char) (ht : jsonText kv.2 = some t) :
    jsonMembers (kv :: rest) comma =
      (if comma then [','] else []) ++ jsonQuote kv.1 ++ [':'] ++ t ++ jsonMembers rest true := by
  have hstep : jsonMembers (kv :: rest) comma =
      match jsonText kv.2 with
      | none => jsonMembers rest comma
      | some t => (if comma then [','] else []) ++ jsonQuote kv.1 ++ [':'] ++ t ++
          jsonMembers rest true := rfl
  rw [hstep, ht]

/-- The members of an object are read back when the value of the first one is and the
members after it are. -/
theorem membersReadBack_cons (kv : String × JSValue) (rest : List (String × JSValue))
    (hx : ReadsBack kv.2) (hrest : rest ≠ [] → MembersReadBack rest) :
    MembersReadBack (kv :: rest) := by
  obtain ⟨k, v⟩ := kv
  obtain ⟨t, ht, ⟨c, r, htc, _, _⟩, hparse⟩ := hx
  have htpos : 0 < t.length := by rw [htc]; simp
  have hfalse := jsonMembers_cons (k, v) rest false t ht
  have htrue := jsonMembers_cons (k, v) rest true t ht
  have hcomma : jsonMembers ((k, v) :: rest) true = ',' :: jsonMembers ((k, v) :: rest) false := by
    rw [hfalse, htrue]
    simp
  have hshape : jsonMembers ((k, v) :: rest) false =
      Char.ofNat 0x22 :: (k.data.flatMap jsonQuoteChar ++
        Char.ofNat 0x22 :: ':' :: (t ++ jsonMembers rest true)) := by
    rw [hfalse]
    simp [jsonQuote]
  refine ⟨⟨_, hshape⟩, hcomma, ?_⟩
  intro fuel rest2 hf
  obtain ⟨f, rfl⟩ := Nat.exists_eq_succ_of_ne_zero (Nat.not_eq_zero_of_lt hf)
  have hlen : (jsonMembers ((k, v) :: rest) false).length =
      (k.data.flatMap jsonQuoteChar).length + t.length + (jsonMembers rest true).length + 3 := by
    rw [hshape]
    simp [List.length_append]
    omega
  cases rest with
  | nil =>
    have hnil : jsonMembers ([] : List (String × JSValue)) true = [] := rfl
    rw [hnil] at hshape hlen
    have h1 := hparse f (Char.ofNat 0x7D :: rest2) (by omega) (endsValue_cons _ _ (by decide))
    have happ : jsonMembers [(k, v)] false ++ Char.ofNat 0x7D :: rest2 =
        Char.ofNat 0x22 :: (k.data.flatMap jsonQuoteChar ++
          Char.ofNat 0x22 :: ':' :: (t ++ Char.ofNat 0x7D :: rest2)) := by
      rw [hshape]
      simp
    rw [happ, parseMembers_close f k.data _ rest2 v h1]
  | cons y ys =>
    obtain ⟨_, hyc, hys⟩ := hrest (List.cons_ne_nil _ _)
    rw [hyc] at hshape hlen
    have h1 := hparse f (',' :: (jsonMembers (y :: ys) false ++ Char.ofNat 0x7D :: rest2))
      (by omega) (endsValue_cons _ _ (by decide))
    have h2 := hys f rest2 (by simp only [List.length_cons] at hlen; omega)
    have happ : jsonMembers ((k, v) :: y :: ys) false ++ Char.ofNat 0x7D :: rest2 =
        Char.ofNat 0x22 :: (k.data.flatMap jsonQuoteChar ++
          Char.ofNat 0x22 :: ':' ::
            (t ++ ',' :: (jsonMembers (y :: ys) false ++ Char.ofNat 0x7D :: rest2))) := by
      rw [hshape]
      simp
    rw [happ, parseMembers_comma f k.data _ _ v h1, h2]

/-- Members with distinct keys are assigned one after the other, in their order. -/
theorem foldl_setProp_distinct (props acc : List (String × JSValue))
    (h : ((acc ++ props).map Prod.fst).Nodup) : props.foldl setProp acc = acc ++ props := by
  induction props generalizing acc with
  | nil => simp
  | cons kv tl ih =>
    have hnew : ∀ p ∈ acc, p.1 ≠ kv.1 := by
      intro p hp heq
      rw [List.map_append, List.map_cons] at h
      have hdisj := (List.nodup_append.1 h).2.2
      exact hdisj (List.mem_map.2 ⟨p, hp, rfl⟩) (List.mem_cons.2 (Or.inl heq))
    rw [List.foldl_cons, setProp_new acc kv hnew, ih (acc ++ [kv]) (by simpa using h)]
    simp

/-- After an opening brace that is followed by a key the decoder reads the members. -/
theorem parseValue_brace (f : Nat) (r : List Char) :
    parseValue (f + 1) (Char.ofNat 0x7B :: Char.ofNat 0x22 :: r) =
      match parseMembers f (Char.ofNat 0x22 :: r) with
      | .ok (members, r2) => .ok (.obj (ownPropertyOrder (members.foldl setProp [])), r2)
      | .error e => .error e := rfl

theorem readsBack_obj (props : List (String × JSValue)) (hnd : (props.map Prod.fst).Nodup)
    (hord : props.Sorted fun a b => keyRank a.1 ≤ keyRank b.1)
    (h : props ≠ [] → MembersReadBack props) : ReadsBack (.obj props) := by
  refine ⟨Char.ofNat 0x7B :: jsonMembers props false ++ [Char.ofNat 0x7D], rfl,
    ⟨Char.ofNat 0x7B, _, rfl, by decide, by decide⟩, ?_⟩
  intro fuel rest hf _
  obtain ⟨f, rfl⟩ := Nat.exists_eq_succ_of_ne_zero (Nat.not_eq_zero_of_lt hf)
  cases props with
  | nil => rfl
  | cons x xs =>
    obtain ⟨⟨r, hr⟩, _, hp⟩ := h (List.cons_ne_nil _ _)
    have happ : (Char.ofNat 0x7B :: jsonMembers (x :: xs) false ++ [Char.ofNat 0x7D]) ++ rest =
        Char.ofNat 0x7B :: (jsonMembers (x :: xs) false ++ Char.ofNat 0x7D :: rest) := by simp
    have hlen : (Char.ofNat 0x7B :: jsonMembers (x :: xs) false ++ [Char.ofNat 0x7D]).length =
        (jsonMembers (x :: xs) false).length + 2 := by simp
    have h2 := hp f rest (by omega)
    rw [happ]
    rw [hr] at h2 ⊢
    rw [List.cons_append, parseValue_brace f _, ← List.cons_append, h2]
    simp only
    rw [foldl_setProp_distinct (x :: xs) [] (by simpa using hnd)]
    simp only [List.nil_append, ownPropertyOrder, hord.insertionSort_eq]

mutual
/-- The decoder reads back the written text of every value that JSON can write. -/
theorem readsBack_of_isJSONValue : ∀ v : JSValue, isJSONValue v = true → ReadsBack v
  | .undefined, h => by simp [isJSONValue] at h
  | .null, _ => readsBack_null
  | .bool b, _ => readsBack_bool b
  | .num r, h => readsBack_num r (by simpa [isJSONValue] using h)
  | .str s, _ => readsBack_str s
  | .arr items, h =>
    readsBack_arr items fun hne =>
      elementsReadBack_of_all items (by simpa [isJSONValue] using h) hne
  | .obj props, h => by
    simp only [isJSONValue, Bool.and_eq_true, decide_eq_true_eq] at h
    exact readsBack_obj props h.1.1 h.1.2 fun hne => membersReadBack_of_all props h.2 hne
termination_by structural v => v
theorem elementsReadBack_of_all :
    ∀ l : List JSValue, allJSONValues l = true → l ≠ [] → ElementsReadBack l
  | [], _, hne => absurd rfl hne
  | x :: rest, h, _ => by
    simp only [allJSONValues, Bool.and_eq_true] at h
    exact elementsReadBack_cons x rest (readsBack_of_isJSONValue x h.1)
      fun hne => elementsReadBack_of_all rest h.2 hne
termination_by structural l => l
theorem membersReadBack_of_all :
    ∀ l : List (String × JSValue), allJSONMembers l = true → l ≠ [] → MembersReadBack l
  | [], _, hne => absurd rfl hne
  | kv :: rest, h, _ => by
    simp only [allJSONMembers, Bool.and_eq_true] at h
    exact membersReadBack_cons kv rest (readsBack_of_isJSONValue kv.2 h.1)
      fun hne => membersReadBack_of_all rest h.2 hne
termination_by structural l => l
end

/-- The text `JSON.stringify` writes for a value that JSON can write is decoded to the
value. -/
theorem jsonParse_jsonStringify (v : JSValue) (hv : isJSONValue v = true) :
    ∃ text, jsonStringify v = some text ∧ jsonParse text = .ok v := by
  obtain ⟨t, ht, _, hp⟩ := readsBack_of_isJSONValue v hv
  refine ⟨String.mk t, by rw [jsonStringify, ht]; rfl, ?_⟩
  have h := hp (t.length + 1) [] (Nat.lt_succ_self _) endsValue_nil
  rw [List.append_nil] at h
  have hstep : jsonParse (String.mk t) =
      match parseValue (t.length + 1) t with
      | .error e => .error e
      | .ok (v, rest) => if (skipSpace rest).isEmpty then .ok v else .error jsonSyntaxError := rfl
  rw [hstep, h]
  rfl
/-! ## Arithmetic of the binary64 rounding -/

theorem power_eq (b n : Nat) : power b n = b ^ n := by
  unfold power
  rw [← pow_mul, ← pow_add, Nat.div_add_mod]

theorem divRoundEven_exact (m b : Nat) (hb : 0 < b) : divRoundEven (m * b) b = m := by
  unfold divRoundEven
  rw [Nat.mul_mod_left, Nat.mul_div_cancel _ hb]
  simp [hb]

theorem divRoundEven_scale (a b c : Nat) (hc : 0 < c) :
    divRoundEven (a * c) (b * c) = divRoundEven a b := by
  unfold divRoundEven
  rw [Nat.mul_mod_mul_right, Nat.mul_div_mul_right _ _ hc]
  have h1 : 2 * (a % b * c) < b * c ↔ 2 * (a % b) < b := by
    rw [← Nat.mul_assoc]
    exact Nat.mul_lt_mul_right hc
  have h2 : b * c < 2 * (a % b * c) ↔ b < 2 * (a % b) := by
    rw [← Nat.mul_assoc]
    exact Nat.mul_lt_mul_right hc
  simp only [h1, h2]

/-- Rounding depends on the fraction, not on the way it is written. -/
theorem roundBinary64_scale (negative : Bool) (p q c : Nat) (hc : 0 < c) :
    roundBinary64 negative (p * c) (q * c) = roundBinary64 negative p q := by
  unfold roundBinary64
  have ht : p * c * power 2 1074 / (q * c) = p * power 2 1074 / q := by
    rw [Nat.mul_right_comm, Nat.mul_div_mul_right _ _ hc]
  have hm : ∀ e, divRoundEven (p * c * power 2 1074) (q * c * power 2 e) =
      divRoundEven (p * power 2 1074) (q * power 2 e) := by
    intro e
    rw [Nat.mul_right_comm p c, Nat.mul_right_comm q c, divRoundEven_scale _ _ _ hc]
  simp only [ht, hm]

/-- Two ways of writing one fraction round alike. -/
theorem roundBinary64_congr (negative : Bool) (p q p2 q2 : Nat) (hq : 0 < q) (hq2 : 0 < q2)
    (h : p * q2 = p2 * q) : roundBinary64 negative p q = roundBinary64 negative p2 q2 := by
  rw [← roundBinary64_scale negative p q q2 hq2, ← roundBinary64_scale negative p2 q2 q hq, h,
    Nat.mul_comm q q2]

/-- The sign does not bear on the rounding of the magnitude. -/
theorem roundBinary64_sign (negative : Bool) (p q m e : Nat)
    (h : roundBinary64 false p q = .finite false m e) :
    roundBinary64 negative p q = .finite negative m e := by
  unfold roundBinary64 at h ⊢
  simp only at h ⊢
  generalize (if p * power 2 1074 / q < 2 ^ 53 then 0
    else binaryPosition (p * power 2 1074 / q) - 52) = e0 at h ⊢
  generalize divRoundEven (p * power 2 1074) (q * power 2 e0) = m0 at h ⊢
  by_cases h1 : m0 = 2 ^ 53
  · rw [if_pos h1] at h ⊢
    by_cases h2 : 2045 < e0 + 1
    · rw [if_pos h2] at h
      exact Binary64.noConfusion h
    · rw [if_neg h2] at h ⊢
      injection h with _ hm he
      rw [hm, he]
  · rw [if_neg h1] at h ⊢
    by_cases h2 : 2045 < e0
    · rw [if_pos h2] at h
      exact Binary64.noConfusion h
    · rw [if_neg h2] at h ⊢
      injection h with _ hm he
      rw [hm, he]

theorem binaryPosition_step (t acc step : Nat)
    (h : 2 ^ acc ≤ t ∧ t < 2 ^ (acc + 2 * step)) :
    2 ^ (if power 2 (acc + step) ≤ t then acc + step else acc) ≤ t ∧
      t < 2 ^ ((if power 2 (acc + step) ≤ t then acc + step else acc) + step) := by
  rw [power_eq]
  by_cases hc : 2 ^ (acc + step) ≤ t
  · rw [if_pos hc]
    refine ⟨hc, ?_⟩
    have : acc + step + step = acc + 2 * step := by omega
    rw [this]
    exact h.2
  · rw [if_neg hc]
    exact ⟨h.1, Nat.lt_of_not_le hc⟩

/-- The position of the leading binary digit, for a natural of at most 8192 binary
digits. -/
theorem binaryPosition_spec (t b : Nat) (hb : b = 0 + 2 * 4096) (h1 : 0 < t) (h2 : t < 2 ^ b) :
    2 ^ binaryPosition t ≤ t ∧ t < 2 ^ (binaryPosition t + 1) := by
  subst hb
  have s0 : 2 ^ 0 ≤ t ∧ t < 2 ^ (0 + 2 * 4096) := ⟨h1, h2⟩
  have s1 := binaryPosition_step t _ 4096 s0
  have s2 := binaryPosition_step t _ 2048 s1
  have s3 := binaryPosition_step t _ 1024 s2
  have s4 := binaryPosition_step t _ 512 s3
  have s5 := binaryPosition_step t _ 256 s4
  have s6 := binaryPosition_step t _ 128 s5
  have s7 := binaryPosition_step t _ 64 s6
  have s8 := binaryPosition_step t _ 32 s7
  have s9 := binaryPosition_step t _ 16 s8
  have s10 := binaryPosition_step t _ 8 s9
  have s11 := binaryPosition_step t _ 4 s10
  have s12 := binaryPosition_step t _ 2 s11
  have s13 := binaryPosition_step t _ 1 s12
  unfold binaryPosition
  simp only [List.foldl]
  exact s13

theorem binaryPosition_eq (t n : Nat) (h1 : 2 ^ n ≤ t) (h2 : t < 2 ^ (n + 1)) (hn : n < 8192) :
    binaryPosition t = n := by
  have hpos : 0 < t := Nat.lt_of_lt_of_le (pow_pos (by decide) _) h1
  obtain ⟨b, hb⟩ : ∃ b, b = 0 + 2 * 4096 := ⟨_, rfl⟩
  have hlt : t < 2 ^ b :=
    Nat.lt_of_lt_of_le h2 (Nat.pow_le_pow_right (by decide) (by omega))
  obtain ⟨b1, b2⟩ := binaryPosition_spec t b hb hpos hlt
  have c1 : binaryPosition t < n + 1 :=
    (Nat.pow_lt_pow_iff_right (by decide : 1 < 2)).1 (Nat.lt_of_le_of_lt b1 h2)
  have c2 : n < binaryPosition t + 1 :=
    (Nat.pow_lt_pow_iff_right (by decide : 1 < 2)).1 (Nat.lt_of_le_of_lt h1 b2)
  omega

/-- A binary64 value rounds to itself. -/
theorem roundBinary64_exact (negative : Bool) (m e : Nat)
    (h : (Binary64.finite negative m e).isFinite = true) :
    roundBinary64 negative (m * 2 ^ e) (2 ^ 1074) = .finite negative m e := by
  simp only [Binary64.isFinite, Bool.and_eq_true, Bool.or_eq_true, decide_eq_true_eq,
    beq_iff_eq] at h
  obtain ⟨⟨hm, he⟩, hnorm⟩ := h
  have hpow : 0 < (2 : Nat) ^ 1074 := pow_pos (by decide) _
  unfold roundBinary64
  rw [power_eq]
  generalize (2 : Nat) ^ 1074 = P at hpow ⊢
  simp only
  have ht : m * 2 ^ e * P / P = m * 2 ^ e := Nat.mul_div_cancel _ hpow
  rw [ht]
  by_cases he0 : e = 0
  · subst he0
    have hlt : m * 2 ^ 0 < 2 ^ 53 := by simpa using hm
    rw [if_pos hlt, power_eq]
    have hdiv : divRoundEven (m * 2 ^ 0 * P) (P * 2 ^ 0) = m := by
      have := divRoundEven_exact m P hpow
      simpa using this
    rw [hdiv, if_neg (Nat.ne_of_lt hm), if_neg (by omega)]
  · have hm52 : 2 ^ 52 ≤ m := by
      rcases hnorm with h | h
      · exact h
      · exact absurd h he0
    have hge : ¬ m * 2 ^ e < 2 ^ 53 := by
      have h1 : 2 ^ 52 * 2 ^ 1 ≤ m * 2 ^ e :=
        Nat.mul_le_mul hm52 (Nat.pow_le_pow_right (by decide) (by omega))
      have h2 : (2 : Nat) ^ 52 * 2 ^ 1 = 2 ^ 53 := by norm_num
      omega
    rw [if_neg hge]
    have hbp : binaryPosition (m * 2 ^ e) = 52 + e := by
      apply binaryPosition_eq
      · rw [Nat.pow_add]
        exact Nat.mul_le_mul_right _ hm52
      · have : 52 + e + 1 = 53 + e := by omega
        rw [this, Nat.pow_add]
        exact Nat.mul_lt_mul_of_pos_right hm (pow_pos (by decide) _)
      · omega
    rw [hbp]
    have hsub : 52 + e - 52 = e := by omega
    rw [hsub, power_eq]
    have hdiv : divRoundEven (m * 2 ^ e * P) (P * 2 ^ e) = m := by
      have h2 : m * 2 ^ e * P = m * (P * 2 ^ e) := by ring
      rw [h2]
      exact divRoundEven_exact m (P * 2 ^ e) (Nat.mul_pos hpow (pow_pos (by decide) _))
    rw [hdiv, if_neg (Nat.ne_of_lt hm), if_neg (by omega)]

/-! ## The search of `Number::toString` ends on a decimal that rounds to the value -/

theorem neighbours_lower (m e : Nat) (n : Int) (k : Nat) :
    (neighbours m e n k).1 = (lowerDecimal m e n k, (k : Int) - n) ∨
      (neighbours m e n k).2 = (lowerDecimal m e n k, (k : Int) - n) := by
  unfold neighbours
  simp only
  split
  · exact Or.inl rfl
  · exact Or.inr rfl

theorem shortestFrom_valid (m e : Nat) (n : Int) :
    ∀ fuel k : Nat,
      (∃ j, j < fuel ∧ roundsTo (lowerDecimal m e n (k + j)) (((k + j : Nat) : Int) - n) m e = true) →
      roundsTo (shortestFrom m e n fuel k).1 (shortestFrom m e n fuel k).2 m e = true := by
  intro fuel
  induction fuel with
  | zero =>
    rintro k ⟨j, hj, _⟩
    exact absurd hj (Nat.not_lt_zero _)
  | succ fuel ih =>
    rintro k ⟨j, hj, hvalid⟩
    have hstep : shortestFrom m e n (fuel + 1) k =
        if roundsTo (neighbours m e n k).1.1 (neighbours m e n k).1.2 m e then (neighbours m e n k).1
        else if roundsTo (neighbours m e n k).2.1 (neighbours m e n k).2.2 m e then
          (neighbours m e n k).2
        else shortestFrom m e n fuel (k + 1) := rfl
    rw [hstep]
    by_cases h1 : roundsTo (neighbours m e n k).1.1 (neighbours m e n k).1.2 m e = true
    · rw [if_pos h1]
      exact h1
    · rw [if_neg h1]
      by_cases h2 : roundsTo (neighbours m e n k).2.1 (neighbours m e n k).2.2 m e = true
      · rw [if_pos h2]
        exact h2
      · rw [if_neg h2]
        apply ih
        cases j with
        | zero =>
          exfalso
          rw [Nat.add_zero] at hvalid
          rcases neighbours_lower m e n k with h | h
          · rw [h] at h1
            exact h1 hvalid
          · rw [h] at h2
            exact h2 hvalid
        | succ j =>
          refine ⟨j, by omega, ?_⟩
          have : k + 1 + j = k + (j + 1) := by omega
          rw [this]
          exact hvalid

theorem findPosition_bounds (x y : Nat) :
    ∀ (fuel : Nat) (start : Int),
      start ≤ findPosition x y fuel start ∧ findPosition x y fuel start ≤ start + fuel := by
  intro fuel
  induction fuel with
  | zero =>
    intro start
    simp [findPosition]
  | succ fuel ih =>
    intro start
    have hstep : findPosition x y (fuel + 1) start =
        if ltPow10 x y start then start else findPosition x y fuel (start + 1) := rfl
    rw [hstep]
    split
    · constructor
      · exact le_refl _
      · push_cast
        omega
    · obtain ⟨h1, h2⟩ := ih (start + 1)
      constructor
      · omega
      · push_cast
        omega

/-- The exact decimal expansion of a binary64 value rounds to the value. -/
theorem roundsTo_exact (m e : Nat) (n : Int) (k : Nat) (hk : (k : Int) - n = 1074)
    (h : (Binary64.finite false m e).isFinite = true) :
    roundsTo (lowerDecimal m e n k) ((k : Int) - n) m e = true := by
  have hc : ∀ c : Nat, m * 2 ^ e * 10 ^ c / 2 ^ c = m * 2 ^ e * 5 ^ c := by
    intro c
    have h10 : (10 : Nat) ^ c = 5 ^ c * 2 ^ c := by
      rw [← Nat.mul_pow]
    rw [h10, ← Nat.mul_assoc]
    exact Nat.mul_div_cancel _ (pow_pos (by decide) _)
  have hs : ∀ c : Nat, roundBinary64 false (m * 2 ^ e * 5 ^ c) (10 ^ c) = .finite false m e →
      c = 1074 → roundsTo (lowerDecimal m e n k) ((k : Int) - n) m e = true := by
    intro c hround hc1074
    unfold roundsTo lowerDecimal shifted scaled
    rw [hk]
    simp only [show (0 : Int) ≤ 1074 by decide, show (0 : Int) < 1074 by decide, if_true,
      show (1074 : Int).toNat = 1074 from rfl, power_eq]
    rw [← hc1074, hc c, hround]
    exact beq_self_eq_true _
  obtain ⟨c, hc1074⟩ : ∃ c : Nat, c = 1074 := ⟨_, rfl⟩
  apply hs c _ hc1074
  have h10 : (10 : Nat) ^ c = 2 ^ c * 5 ^ c := by
    rw [← Nat.mul_pow]
  rw [h10, roundBinary64_scale false _ _ _ (pow_pos (by decide) _), hc1074]
  exact roundBinary64_exact false m e h

/-- The search of `Number::toString` ends on a decimal that rounds to the value. -/
theorem shortest_valid (m e : Nat) (h : (Binary64.finite false m e).isFinite = true) :
    roundsTo (shortest m e).1 (shortest m e).2 m e = true := by
  unfold shortest
  generalize hn : decimalPosition (m * power 2 e) (power 2 1074) = n
  have hb := findPosition_bounds (m * power 2 e) (power 2 1074) 640 (-324)
  have hn2 : findPosition (m * power 2 e) (power 2 1074) 640 (-324) = n := hn
  rw [hn2] at hb
  obtain ⟨b1, b2⟩ := hb
  apply shortestFrom_valid
  refine ⟨(n + 1073).toNat, by omega, ?_⟩
  apply roundsTo_exact _ _ _ _ _ h
  omega

/-! ## Decimal digits -/

theorem decimalDigitsFrom_eq :
    ∀ (n fuel : Nat) (acc : List Char), n < fuel →
      decimalDigitsFrom fuel n acc = decimalDigits n ++ acc := by
  intro n
  induction n using Nat.strong_induction_on with
  | _ n ih =>
    intro fuel acc hf
    obtain ⟨f, rfl⟩ := Nat.exists_eq_succ_of_ne_zero (Nat.not_eq_zero_of_lt hf)
    have hstep : ∀ acc2, decimalDigitsFrom (f + 1) n acc2 =
        if n < 10 then digitChar n :: acc2
        else decimalDigitsFrom f (n / 10) (digitChar (n % 10) :: acc2) := fun _ => rfl
    have hstep2 : decimalDigits n =
        if n < 10 then [digitChar n]
        else decimalDigitsFrom n (n / 10) [digitChar (n % 10)] := rfl
    rw [hstep, hstep2]
    by_cases h10 : n < 10
    · rw [if_pos h10, if_pos h10]
      rfl
    · rw [if_neg h10, if_neg h10]
      have hlt : n / 10 < n := Nat.div_lt_self (by omega) (by decide)
      rw [ih (n / 10) hlt f _ (by omega), ih (n / 10) hlt n _ hlt]
      simp

theorem decimalDigits_unfold (n : Nat) :
    decimalDigits n =
      if n < 10 then [digitChar n] else decimalDigits (n / 10) ++ [digitChar (n % 10)] := by
  have hstep : decimalDigits n =
      if n < 10 then [digitChar n]
      else decimalDigitsFrom n (n / 10) [digitChar (n % 10)] := rfl
  rw [hstep]
  by_cases h10 : n < 10
  · rw [if_pos h10, if_pos h10]
  · rw [if_neg h10, if_neg h10]
    exact decimalDigitsFrom_eq _ _ _ (Nat.div_lt_self (by omega) (by decide))

theorem digitChar_toNat (d : Nat) (h : d < 10) : (digitChar d).toNat = 48 + d := by
  interval_cases d <;> rfl

theorem digitChar_isAsciiDigit (d : Nat) (h : d < 10) : isAsciiDigit (digitChar d) = true := by
  interval_cases d <;> rfl

theorem digitChar_ne_zero (d : Nat) (h : d < 10) (h0 : 0 < d) : digitChar d ≠ '0' := by
  interval_cases d <;> decide

theorem decimalValue_foldl (ys : List Char) (a : Nat) :
    ys.foldl (fun n c => 10 * n + (c.toNat - 48)) a = a * 10 ^ ys.length + decimalValue ys := by
  induction ys generalizing a with
  | nil => simp [decimalValue]
  | cons c tl ih =>
    rw [List.foldl_cons, ih]
    have h2 : decimalValue (c :: tl) =
        tl.foldl (fun n c => 10 * n + (c.toNat - 48)) (10 * 0 + (c.toNat - 48)) := rfl
    rw [h2, ih (10 * 0 + (c.toNat - 48)), List.length_cons, Nat.pow_succ]
    ring

theorem decimalValue_append (xs ys : List Char) :
    decimalValue (xs ++ ys) = decimalValue xs * 10 ^ ys.length + decimalValue ys := by
  have h : decimalValue (xs ++ ys) =
      ys.foldl (fun n c => 10 * n + (c.toNat - 48)) (decimalValue xs) := by
    unfold decimalValue
    rw [List.foldl_append]
  rw [h, decimalValue_foldl]

theorem decimalValue_zeros (z : Nat) : decimalValue (List.replicate z '0') = 0 := by
  induction z with
  | zero => rfl
  | succ z ih =>
    have h : List.replicate (z + 1) '0' = ['0'] ++ List.replicate z '0' := rfl
    have h0 : decimalValue ['0'] = 0 := rfl
    rw [h, decimalValue_append, ih, h0]
    simp

theorem decimalDigits_spec (n : Nat) :
    decimalValue (decimalDigits n) = n ∧ (decimalDigits n).all isAsciiDigit = true ∧
      decimalDigits n ≠ [] ∧ (0 < n → (decimalDigits n).head? ≠ some '0') := by
  induction n using Nat.strong_induction_on with
  | _ n ih =>
    rw [decimalDigits_unfold]
    by_cases h10 : n < 10
    · rw [if_pos h10]
      refine ⟨?_, ?_, by simp, ?_⟩
      · have : decimalValue [digitChar n] = 10 * 0 + ((digitChar n).toNat - 48) := rfl
        rw [this, digitChar_toNat n h10]
        omega
      · simp [digitChar_isAsciiDigit n h10]
      · intro h0 hh
        simp only [List.head?_cons, Option.some.injEq] at hh
        exact digitChar_ne_zero n h10 h0 hh
    · rw [if_neg h10]
      have hlt : n / 10 < n := Nat.div_lt_self (by omega) (by decide)
      obtain ⟨i1, i2, i3, i4⟩ := ih (n / 10) hlt
      have hmod : n % 10 < 10 := Nat.mod_lt _ (by decide)
      refine ⟨?_, ?_, by simp, ?_⟩
      · rw [decimalValue_append, i1]
        have : decimalValue [digitChar (n % 10)] = 10 * 0 + ((digitChar (n % 10)).toNat - 48) := rfl
        rw [this, digitChar_toNat _ hmod]
        simp only [List.length_singleton, pow_one]
        omega
      · rw [List.all_append, i2]
        simp [digitChar_isAsciiDigit _ hmod]
      · intro _ hh
        have hpos : 0 < n / 10 := Nat.div_pos (by omega) (by decide)
        cases hd : decimalDigits (n / 10) with
        | nil => exact i3 hd
        | cons c tl =>
          rw [hd] at hh i4
          exact i4 hpos (by simpa using hh)

/-! ## The value and the grammar of a written decimal -/

theorem digit_not_special (c : Char) (h : isAsciiDigit c = true) :
    (c != '.') = true ∧ (!(c == 'e' || c == 'E')) = true ∧ c ≠ '-' ∧ isNumberChar c = true := by
  refine ⟨?_, ?_, ?_, ?_⟩
  · rw [bne_iff_ne]
    rintro rfl
    exact absurd h (by decide)
  · rw [Bool.not_eq_true', Bool.or_eq_false_iff]
    constructor
    · rw [beq_eq_false_iff_ne]
      rintro rfl
      exact absurd h (by decide)
    · rw [beq_eq_false_iff_ne]
      rintro rfl
      exact absurd h (by decide)
  · rintro rfl
    exact absurd h (by decide)
  · simp [isNumberChar, h]

theorem takeWhile_all_append {α : Type} (p : α → Bool) (x y : List α)
    (hx : ∀ b ∈ x, p b = true) (hy : y = [] ∨ ∃ a t, y = a :: t ∧ p a = false) :
    (x ++ y).takeWhile p = x ∧ (x ++ y).dropWhile p = y := by
  rcases hy with rfl | ⟨a, t, rfl, ha⟩
  · rw [List.append_nil]
    exact ⟨List.takeWhile_eq_self_iff.2 hx, List.dropWhile_eq_nil_iff.2 hx⟩
  · exact ⟨takeWhile_append_all p x a t hx ha, dropWhile_append_all p x a t hx ha⟩

/-- The value of a literal made of a sign, digits, a fraction part `P` (nothing, or a
point and digits) and an exponent part `E` (nothing, or what starts with `e`). -/
theorem literalValue_of_parts (negative : Bool) (W P E : List Char)
    (hW : ∀ c ∈ W, isAsciiDigit c = true) (hWne : W ≠ [])
    (hP : P = [] ∨ ∃ Fr, P = '.' :: Fr ∧ ∀ c ∈ Fr, isAsciiDigit c = true)
    (hE : E = [] ∨ ∃ t, E = 'e' :: t) :
    literalValue ((if negative then ['-'] else []) ++ (W ++ P ++ E)) =
      (negative,
        decimalValue (W ++ P.drop 1) *
          power 10 (if (E.drop 1).head? == some '-' then 0
            else decimalValue (if (E.drop 1).head? == some '-' || (E.drop 1).head? == some '+'
              then (E.drop 1).drop 1 else E.drop 1)),
        power 10 ((P.drop 1).length +
          (if (E.drop 1).head? == some '-' then
            decimalValue (if (E.drop 1).head? == some '-' || (E.drop 1).head? == some '+'
              then (E.drop 1).drop 1 else E.drop 1)
           else 0))) := by
  obtain ⟨w, W2, rfl⟩ := List.exists_cons_of_ne_nil hWne
  have hw := hW w (List.mem_cons_self _ _)
  have hsign : (((if negative then ['-'] else []) ++ (w :: W2 ++ P ++ E)).head? == some '-') =
      negative := by
    cases negative with
    | true => rfl
    | false =>
      simp only [Bool.false_eq_true, if_false, List.nil_append, List.cons_append,
        List.head?_cons, beq_eq_false_iff_ne, ne_eq, Option.some.injEq]
      exact (digit_not_special w hw).2.2.1
  have hbody : (if negative = true then
        ((if negative then ['-'] else []) ++ (w :: W2 ++ P ++ E)).drop 1
      else (if negative then ['-'] else []) ++ (w :: W2 ++ P ++ E)) = (w :: W2 ++ P) ++ E := by
    cases negative <;> simp
  have hWP : ∀ c ∈ w :: W2 ++ P, (!(c == 'e' || c == 'E')) = true := by
    intro c hc
    rcases List.mem_append.1 hc with h | h
    · exact (digit_not_special c (hW c h)).2.1
    · rcases hP with rfl | ⟨Fr, rfl, hFr⟩
      · exact absurd h (List.not_mem_nil _)
      · rcases List.mem_cons.1 h with rfl | h2
        · decide
        · exact (digit_not_special c (hFr c h2)).2.1
  have hsplitE := takeWhile_all_append (fun c => !(c == 'e' || c == 'E')) (w :: W2 ++ P) E hWP
    (by
      rcases hE with rfl | ⟨t, rfl⟩
      · exact Or.inl rfl
      · exact Or.inr ⟨'e', t, rfl, by decide⟩)
  have hsplitP := takeWhile_all_append (fun c => c != '.') (w :: W2) P
    (fun c hc => (digit_not_special c (hW c hc)).1)
    (by
      rcases hP with rfl | ⟨Fr, rfl, _⟩
      · exact Or.inl rfl
      · exact Or.inr ⟨'.', Fr, rfl, by decide⟩)
  unfold literalValue
  simp only [hsign, hbody, hsplitE.1, hsplitE.2, hsplitP.1, hsplitP.2]

theorem isDigits_of_all (X : List Char) (h : ∀ c ∈ X, isAsciiDigit c = true) (hne : X ≠ []) :
    isDigits X = true := by
  unfold isDigits
  rw [Bool.and_eq_true]
  constructor
  · cases X with
    | nil => exact absurd rfl hne
    | cons c t => rfl
  · exact List.all_eq_true.2 h

/-- A literal made of a sign, digits without a needless leading zero, a fraction part and
an exponent part is a JSON number literal, made of number characters. -/
theorem isNumberLiteral_of_parts (negative : Bool) (W P E : List Char)
    (hW : ∀ c ∈ W, isAsciiDigit c = true)
    (hlead : W = ['0'] ∨ (W ≠ [] ∧ W.head? ≠ some '0'))
    (hP : P = [] ∨ ∃ Fr, P = '.' :: Fr ∧ (∀ c ∈ Fr, isAsciiDigit c = true) ∧ Fr ≠ [])
    (hE : E = [] ∨ ∃ sg X, E = 'e' :: sg :: X ∧ (sg = '+' ∨ sg = '-') ∧
      (∀ c ∈ X, isAsciiDigit c = true) ∧ X ≠ []) :
    isNumberLiteral ((if negative then ['-'] else []) ++ (W ++ P ++ E)) = true ∧
      ((if negative then ['-'] else []) ++ (W ++ P ++ E)).all isNumberChar = true := by
  have hExp : isExponentPart E = true := by
    rcases hE with rfl | ⟨sg, X, rfl, hsg, hX, hXne⟩
    · rfl
    · have hstep : isExponentPart ('e' :: sg :: X) =
          (('e' == 'e' || 'e' == 'E') && isDigits (if sg == '+' || sg == '-' then X else sg :: X)) := rfl
      have hcond : (sg == '+' || sg == '-') = true := by
        rcases hsg with rfl | rfl <;> rfl
      rw [hstep, hcond, if_pos rfl, isDigits_of_all X hX hXne]
      rfl
  have hEhead : E = [] ∨ ∃ a t, E = a :: t ∧ isAsciiDigit a = false := by
    rcases hE with rfl | ⟨sg, X, rfl, _⟩
    · exact Or.inl rfl
    · exact Or.inr ⟨'e', _, rfl, by decide⟩
  have hFrac : isFractionPart (P ++ E) = true := by
    rcases hP with rfl | ⟨Fr, rfl, hFr, hFrne⟩
    · rw [List.nil_append]
      rcases hE with rfl | ⟨sg, X, rfl, _⟩
      · rfl
      · have hstep : isFractionPart ('e' :: sg :: X) = isExponentPart ('e' :: sg :: X) := rfl
        rw [hstep, hExp]
    · have hstep : isFractionPart ('.' :: Fr ++ E) =
          (isDigits ((Fr ++ E).takeWhile isAsciiDigit) &&
            isExponentPart ((Fr ++ E).dropWhile isAsciiDigit)) := rfl
      obtain ⟨h1, h2⟩ := takeWhile_all_append isAsciiDigit Fr E hFr hEhead
      rw [hstep, h1, h2, isDigits_of_all Fr hFr hFrne, hExp]
      rfl
  have hPEhead : P ++ E = [] ∨ ∃ a t, P ++ E = a :: t ∧ isAsciiDigit a = false := by
    rcases hP with rfl | ⟨Fr, rfl, _⟩
    · simpa using hEhead
    · exact Or.inr ⟨'.', _, rfl, by decide⟩
  have hWne : W ≠ [] := by
    rcases hlead with rfl | ⟨h, _⟩
    · simp
    · exact h
  obtain ⟨w, W2, rfl⟩ := List.exists_cons_of_ne_nil hWne
  have hw := hW w (List.mem_cons_self _ _)
  constructor
  · have key : isNumberLiteral ((if negative then ['-'] else []) ++ (w :: W2 ++ P ++ E)) =
        (if (w == '0') = true then isFractionPart (W2 ++ P ++ E)
         else isAsciiDigit w && isFractionPart ((W2 ++ P ++ E).dropWhile isAsciiDigit)) := by
      cases negative with
      | true => rfl
      | false =>
        have hne : (w == '-') = false := beq_eq_false_iff_ne.2 (digit_not_special w hw).2.2.1
        have hstep : isNumberLiteral (w :: W2 ++ P ++ E) =
            match (if (w == '-') = true then W2 ++ P ++ E else w :: W2 ++ P ++ E) with
            | [] => false
            | d :: rest =>
              if d == '0' then isFractionPart rest
              else isAsciiDigit d && isFractionPart (rest.dropWhile isAsciiDigit) := rfl
        simp only [Bool.false_eq_true, if_false, List.nil_append]
        rw [hstep, hne]
        rfl
    rw [key, List.append_assoc]
    by_cases h0 : (w == '0') = true
    · rw [if_pos h0]
      have hW2 : W2 = [] := by
        rcases hlead with h | ⟨_, h⟩
        · exact (List.cons.inj h).2
        · exfalso
          apply h
          rw [beq_iff_eq] at h0
          rw [h0]
          rfl
      rw [hW2, List.nil_append]
      exact hFrac
    · rw [if_neg h0, hw, Bool.true_and]
      obtain ⟨_, h2⟩ := takeWhile_all_append isAsciiDigit W2 (P ++ E)
        (fun c hc => hW c (List.mem_cons_of_mem _ hc)) hPEhead
      rw [h2]
      exact hFrac
  · rw [List.all_eq_true]
    intro c hc
    rcases List.mem_append.1 hc with h | h
    · cases negative with
      | true =>
        simp only [if_true, List.mem_singleton] at h
        rw [h]
        rfl
      | false => simp at h
    · rcases List.mem_append.1 h with h | h
      · rcases List.mem_append.1 h with h | h
        · exact (digit_not_special c (hW c h)).2.2.2
        · rcases hP with rfl | ⟨Fr, rfl, hFr, _⟩
          · exact absurd h (List.not_mem_nil _)
          · rcases List.mem_cons.1 h with rfl | h2
            · rfl
            · exact (digit_not_special c (hFr c h2)).2.2.2
      · rcases hE with rfl | ⟨sg, X, rfl, hsg, hX, _⟩
        · exact absurd h (List.not_mem_nil _)
        · rcases List.mem_cons.1 h with rfl | h2
          · rfl
          · rcases List.mem_cons.1 h2 with rfl | h3
            · rcases hsg with rfl | rfl <;> rfl
            · exact (digit_not_special c (hX c h3)).2.2.2

theorem fractionPart_cases (Fr : List Char) (hFr : ∀ c ∈ Fr, isAsciiDigit c = true) :
    ((if Fr.isEmpty then [] else '.' :: Fr) = [] ∨
      ∃ F, (if Fr.isEmpty then [] else '.' :: Fr) = '.' :: F ∧
        (∀ c ∈ F, isAsciiDigit c = true) ∧ F ≠ []) ∧
    (if Fr.isEmpty then [] else '.' :: Fr).drop 1 = Fr := by
  cases Fr with
  | nil => exact ⟨Or.inl rfl, rfl⟩
  | cons c t => exact ⟨Or.inr ⟨c :: t, rfl, hFr, List.cons_ne_nil _ _⟩, rfl⟩

/-- The value and the grammar of a decimal written without an exponent. -/
theorem decimalText_plain (negative : Bool) (W Fr : List Char)
    (hW : ∀ c ∈ W, isAsciiDigit c = true)
    (hlead : W = ['0'] ∨ (W ≠ [] ∧ W.head? ≠ some '0'))
    (hFr : ∀ c ∈ Fr, isAsciiDigit c = true) :
    literalValue ((if negative then ['-'] else []) ++ decimalText W Fr none) =
        (negative, decimalValue (W ++ Fr), 10 ^ Fr.length) ∧
      isNumberLiteral ((if negative then ['-'] else []) ++ decimalText W Fr none) = true ∧
      ((if negative then ['-'] else []) ++ decimalText W Fr none).all isNumberChar = true := by
  have hWne : W ≠ [] := by
    rcases hlead with rfl | ⟨h, _⟩
    · simp
    · exact h
  obtain ⟨hP, hdrop⟩ := fractionPart_cases Fr hFr
  have htext : decimalText W Fr none = W ++ (if Fr.isEmpty then [] else '.' :: Fr) ++ [] := rfl
  rw [htext]
  refine ⟨?_, isNumberLiteral_of_parts negative W _ [] hW hlead hP (Or.inl rfl)⟩
  rw [literalValue_of_parts negative W _ [] hW hWne
    (by
      rcases hP with h | ⟨F, h, hF, _⟩
      · exact Or.inl h
      · exact Or.inr ⟨F, h, hF⟩)
    (Or.inl rfl), hdrop]
  have h0 : decimalValue [] = 0 := rfl
  simp [power_eq, h0]

/-- The value and the grammar of a decimal written with an exponent. -/
theorem decimalText_exponent (negative : Bool) (W Fr : List Char) (negE : Bool) (X : List Char)
    (hW : ∀ c ∈ W, isAsciiDigit c = true)
    (hlead : W = ['0'] ∨ (W ≠ [] ∧ W.head? ≠ some '0'))
    (hFr : ∀ c ∈ Fr, isAsciiDigit c = true)
    (hX : ∀ c ∈ X, isAsciiDigit c = true) (hXne : X ≠ []) :
    literalValue ((if negative then ['-'] else []) ++ decimalText W Fr (some (negE, X))) =
        (negative, decimalValue (W ++ Fr) * 10 ^ (if negE then 0 else decimalValue X),
          10 ^ (Fr.length + (if negE then decimalValue X else 0))) ∧
      isNumberLiteral ((if negative then ['-'] else []) ++ decimalText W Fr (some (negE, X))) =
        true ∧
      ((if negative then ['-'] else []) ++ decimalText W Fr (some (negE, X))).all isNumberChar =
        true := by
  have hWne : W ≠ [] := by
    rcases hlead with rfl | ⟨h, _⟩
    · simp
    · exact h
  obtain ⟨hP, hdrop⟩ := fractionPart_cases Fr hFr
  have htext : decimalText W Fr (some (negE, X)) =
      W ++ (if Fr.isEmpty then [] else '.' :: Fr) ++ 'e' :: (if negE then '-' else '+') :: X := rfl
  rw [htext]
  refine ⟨?_, isNumberLiteral_of_parts negative W _ _ hW hlead hP
    (Or.inr ⟨_, X, rfl, by cases negE <;> simp, hX, hXne⟩)⟩
  rw [literalValue_of_parts negative W _ _ hW hWne
    (by
      rcases hP with h | ⟨F, h, hF, _⟩
      · exact Or.inl h
      · exact Or.inr ⟨F, h, hF⟩)
    (Or.inr ⟨_, rfl⟩), hdrop]
  cases negE <;> simp [power_eq]

/-! ## The text of `Number::toString` denotes the decimal it was written from -/

theorem toNumber_plain (negative : Bool) (W Fr : List Char)
    (hW : ∀ c ∈ W, isAsciiDigit c = true)
    (hlead : W = ['0'] ∨ (W ≠ [] ∧ W.head? ≠ some '0'))
    (hFr : ∀ c ∈ Fr, isAsciiDigit c = true) :
    toNumber ((if negative then ['-'] else []) ++ decimalText W Fr none) =
      roundBinary64 negative (decimalValue (W ++ Fr)) (10 ^ Fr.length) := by
  unfold toNumber
  rw [(decimalText_plain negative W Fr hW hlead hFr).1]

theorem toNumber_exponent (negative : Bool) (W Fr : List Char) (negE : Bool) (X : List Char)
    (hW : ∀ c ∈ W, isAsciiDigit c = true)
    (hlead : W = ['0'] ∨ (W ≠ [] ∧ W.head? ≠ some '0'))
    (hFr : ∀ c ∈ Fr, isAsciiDigit c = true)
    (hX : ∀ c ∈ X, isAsciiDigit c = true) (hXne : X ≠ []) :
    toNumber ((if negative then ['-'] else []) ++ decimalText W Fr (some (negE, X))) =
      roundBinary64 negative (decimalValue (W ++ Fr) * 10 ^ (if negE then 0 else decimalValue X))
        (10 ^ (Fr.length + (if negE then decimalValue X else 0))) := by
  unfold toNumber
  rw [(decimalText_exponent negative W Fr negE X hW hlead hFr hX hXne).1]

theorem scaled_pos (s : Nat) (sh : Int) (h : 0 < sh) : scaled s sh = (s, 10 ^ sh.toNat) := by
  unfold scaled
  rw [if_pos h, power_eq]

theorem scaled_nonpos (s : Nat) (sh : Int) (h : ¬ 0 < sh) :
    scaled s sh = (s * 10 ^ (-sh).toNat, 1) := by
  unfold scaled
  rw [if_neg h, power_eq]

theorem formatDecimal_eq (s : Nat) (sh : Int) :
    formatDecimal s sh =
      if ((decimalDigits s).length : Int) ≤ (decimalDigits s).length - sh ∧
          ((decimalDigits s).length : Int) - sh ≤ 21 then
        decimalText (decimalDigits s ++
          List.replicate (((decimalDigits s).length : Int) - sh - (decimalDigits s).length).toNat '0')
          [] none
      else if 0 < ((decimalDigits s).length : Int) - sh ∧
          ((decimalDigits s).length : Int) - sh ≤ 21 then
        decimalText ((decimalDigits s).take (((decimalDigits s).length : Int) - sh).toNat)
          ((decimalDigits s).drop (((decimalDigits s).length : Int) - sh).toNat) none
      else if -6 < ((decimalDigits s).length : Int) - sh ∧
          ((decimalDigits s).length : Int) - sh ≤ 0 then
        decimalText ['0']
          (List.replicate (-(((decimalDigits s).length : Int) - sh)).toNat '0' ++ decimalDigits s)
          none
      else
        decimalText ((decimalDigits s).take 1) ((decimalDigits s).drop 1)
          (some (decide (((decimalDigits s).length : Int) - sh - 1 < 0),
            decimalDigits (((decimalDigits s).length : Int) - sh - 1).natAbs)) := rfl

theorem head_take (ds : List Char) (i : Nat) (hi : 0 < i) (hne : ds ≠ [])
    (hhead : ds.head? ≠ some '0') :
    ds.take i ≠ [] ∧ (ds.take i).head? ≠ some '0' := by
  obtain ⟨j, rfl⟩ := Nat.exists_eq_succ_of_ne_zero (Nat.ne_of_gt hi)
  cases ds with
  | nil => exact absurd rfl hne
  | cons c t => exact ⟨List.cons_ne_nil _ _, hhead⟩

/-- The text written for the decimal `s × 10^(-shift)` is a JSON number literal, and the
Number it denotes is the one the decimal rounds to. -/
theorem formatDecimal_spec (negative : Bool) (s : Nat) (sh : Int) (hs : 0 < s) :
    toNumber ((if negative then ['-'] else []) ++ formatDecimal s sh) =
        roundBinary64 negative (scaled s sh).1 (scaled s sh).2 ∧
      isNumberLiteral ((if negative then ['-'] else []) ++ formatDecimal s sh) = true ∧
      ((if negative then ['-'] else []) ++ formatDecimal s sh).all isNumberChar = true := by
  obtain ⟨hval, hall, hne, hhead⟩ := decimalDigits_spec s
  have hhead := hhead hs
  rw [List.all_eq_true] at hall
  rw [formatDecimal_eq]
  generalize decimalDigits s = ds at hval hall hne hhead
  have hkpos : 0 < ds.length := List.length_pos.2 hne
  by_cases c1 : (ds.length : Int) ≤ ds.length - sh ∧ (ds.length : Int) - sh ≤ 21
  · -- an integer
    rw [if_pos c1]
    have hsh : ¬ 0 < sh := by omega
    have hz : ((ds.length : Int) - sh - ds.length).toNat = (-sh).toNat := by
      congr 1
      omega
    rw [hz]
    have hW : ∀ c ∈ ds ++ List.replicate (-sh).toNat '0', isAsciiDigit c = true := by
      intro c hc
      rcases List.mem_append.1 hc with h | h
      · exact hall c h
      · rw [(List.mem_replicate.1 h).2]
        rfl
    have hlead : ds ++ List.replicate (-sh).toNat '0' = ['0'] ∨
        (ds ++ List.replicate (-sh).toNat '0' ≠ [] ∧
          (ds ++ List.replicate (-sh).toNat '0').head? ≠ some '0') := by
      right
      cases ds with
      | nil => exact absurd rfl hne
      | cons c t => exact ⟨List.cons_ne_nil _ _, hhead⟩
    have hFr : ∀ c ∈ ([] : List Char), isAsciiDigit c = true := fun c hc => absurd hc (List.not_mem_nil _)
    refine ⟨?_, (decimalText_plain negative _ [] hW hlead hFr).2⟩
    rw [toNumber_plain negative _ [] hW hlead hFr, scaled_nonpos s sh hsh, List.append_nil,
      decimalValue_append, decimalValue_zeros, hval]
    simp
  · rw [if_neg c1]
    by_cases c2 : 0 < (ds.length : Int) - sh ∧ (ds.length : Int) - sh ≤ 21
    · -- a decimal fraction with digits before the point
      rw [if_pos c2]
      have hsh : 0 < sh := by omega
      obtain ⟨i, hi⟩ : ∃ i : Nat, ((ds.length : Int) - sh).toNat = i := ⟨_, rfl⟩
      have hi1 : 0 < i := by omega
      have hi2 : i < ds.length := by omega
      rw [hi]
      have hW : ∀ c ∈ ds.take i, isAsciiDigit c = true :=
        fun c hc => hall c (List.mem_of_mem_take hc)
      have hFr : ∀ c ∈ ds.drop i, isAsciiDigit c = true :=
        fun c hc => hall c (List.mem_of_mem_drop hc)
      have hlead : ds.take i = ['0'] ∨ (ds.take i ≠ [] ∧ (ds.take i).head? ≠ some '0') :=
        Or.inr (head_take ds i hi1 hne hhead)
      refine ⟨?_, (decimalText_plain negative _ _ hW hlead hFr).2⟩
      rw [toNumber_plain negative _ _ hW hlead hFr, scaled_pos s sh hsh, List.take_append_drop,
        hval, List.length_drop]
      have : ds.length - i = sh.toNat := by omega
      rw [this]
    · rw [if_neg c2]
      by_cases c3 : -6 < (ds.length : Int) - sh ∧ (ds.length : Int) - sh ≤ 0
      · -- a decimal fraction below one
        rw [if_pos c3]
        have hsh : 0 < sh := by omega
        obtain ⟨z, hz⟩ : ∃ z : Nat, (-((ds.length : Int) - sh)).toNat = z := ⟨_, rfl⟩
        rw [hz]
        have hW : ∀ c ∈ ['0'], isAsciiDigit c = true := by
          intro c hc
          rw [List.mem_singleton.1 hc]
          rfl
        have hFr : ∀ c ∈ List.replicate z '0' ++ ds, isAsciiDigit c = true := by
          intro c hc
          rcases List.mem_append.1 hc with h | h
          · rw [(List.mem_replicate.1 h).2]
            rfl
          · exact hall c h
        refine ⟨?_, (decimalText_plain negative _ _ hW (Or.inl rfl) hFr).2⟩
        rw [toNumber_plain negative _ _ hW (Or.inl rfl) hFr, scaled_pos s sh hsh,
          decimalValue_append, decimalValue_append, decimalValue_zeros, hval]
        have h0 : decimalValue ['0'] = 0 := rfl
        have hlen : (List.replicate z '0' ++ ds).length = sh.toNat := by
          rw [List.length_append, List.length_replicate]
          omega
        rw [h0, hlen]
        simp
      · -- the exponent form
        rw [if_neg c3]
        have hW : ∀ c ∈ ds.take 1, isAsciiDigit c = true :=
          fun c hc => hall c (List.mem_of_mem_take hc)
        have hFr : ∀ c ∈ ds.drop 1, isAsciiDigit c = true :=
          fun c hc => hall c (List.mem_of_mem_drop hc)
        have hlead : ds.take 1 = ['0'] ∨ (ds.take 1 ≠ [] ∧ (ds.take 1).head? ≠ some '0') :=
          Or.inr (head_take ds 1 (by decide) hne hhead)
        obtain ⟨hXval, hXall, hXne, _⟩ :=
          decimalDigits_spec ((ds.length : Int) - sh - 1).natAbs
        rw [List.all_eq_true] at hXall
        refine ⟨?_, (decimalText_exponent negative _ _ _ _ hW hlead hFr hXall hXne).2⟩
        rw [toNumber_exponent negative _ _ _ _ hW hlead hFr hXall hXne, List.take_append_drop,
          hval, hXval, List.length_drop]
        by_cases cneg : (ds.length : Int) - sh - 1 < 0
        · have hsh : 0 < sh := by omega
          rw [scaled_pos s sh hsh]
          simp only [cneg, decide_True, if_true, pow_zero, Nat.mul_one]
          have : ds.length - 1 + ((ds.length : Int) - sh - 1).natAbs = sh.toNat := by omega
          rw [this]
        · simp only [cneg, decide_False, Bool.false_eq_true, if_false, Nat.add_zero]
          by_cases hsh : 0 < sh
          · rw [scaled_pos s sh hsh]
            apply roundBinary64_congr _ _ _ _ _ (pow_pos (by decide) _) (pow_pos (by decide) _)
            have : ((ds.length : Int) - sh - 1).natAbs + sh.toNat = ds.length - 1 := by omega
            rw [Nat.mul_assoc, ← pow_add, this]
          · rw [scaled_nonpos s sh hsh]
            apply roundBinary64_congr _ _ _ _ _ (pow_pos (by decide) _) Nat.one_pos
            have : ((ds.length : Int) - sh - 1).natAbs = (-sh).toNat + (ds.length - 1) := by omega
            rw [Nat.mul_one, Nat.mul_assoc, ← pow_add, this]

/-! ## Every finite Number is read back from its text -/

theorem roundBinary64_zero (q : Nat) (hq : 0 < q) :
    roundBinary64 false 0 q = .finite false 0 0 := by
  unfold roundBinary64
  have hd : divRoundEven (0 * power 2 1074) (q * power 2 0) = 0 := by
    unfold divRoundEven
    have hb : 0 < q * power 2 0 := by
      rw [power_eq]
      simpa using hq
    simp [hb]
  have ht : 0 * power 2 1074 / q = 0 := by simp
  simp only [ht]
  rw [if_pos (by decide : (0 : Nat) < 2 ^ 53), hd, if_neg (by decide), if_neg (by decide)]

theorem scaled_den_pos (s : Nat) (sh : Int) : 0 < (scaled s sh).2 := by
  unfold scaled
  split
  · rw [power_eq]
    exact pow_pos (by decide) _
  · exact Nat.one_pos

theorem scaled_zero (sh : Int) : (scaled 0 sh).1 = 0 := by
  unfold scaled
  split <;> simp

/-- The text of a finite Number is a JSON number literal that denotes the Number (of the
two zeros, the positive one). -/
theorem toNumber_numberToString (negative : Bool) (m e : Nat)
    (h : (Binary64.finite negative m e).isFinite = true) :
    toNumber (numberToString (.finite negative m e)).data =
        (if m = 0 then .finite false 0 0 else .finite negative m e) ∧
      isNumberLiteral (numberToString (.finite negative m e)).data = true ∧
      (numberToString (.finite negative m e)).data.all isNumberChar = true := by
  by_cases hm : m = 0
  · subst hm
    have h0 : numberToString (.finite negative 0 e) = "0" := rfl
    have hl : literalValue "0".data = (false, 0, 1) := rfl
    rw [h0]
    refine ⟨?_, rfl, rfl⟩
    unfold toNumber
    rw [hl, if_pos rfl]
    exact roundBinary64_zero 1 Nat.one_pos
  · have hfin : (Binary64.finite false m e).isFinite = true := h
    have hvalid := shortest_valid m e hfin
    have hs : 0 < (shortest m e).1 := by
      rcases Nat.eq_zero_or_pos (shortest m e).1 with h0 | h0
      · exfalso
        unfold roundsTo at hvalid
        rw [beq_iff_eq] at hvalid
        have hz := roundBinary64_zero (scaled (shortest m e).1 (shortest m e).2).2
          (scaled_den_pos _ _)
        rw [h0, scaled_zero] at hvalid
        rw [h0] at hz
        rw [hz] at hvalid
        injection hvalid with _ h1 _
        exact hm h1.symm
      · exact h0
    have htext : (numberToString (.finite negative m e)).data =
        (if negative then ['-'] else []) ++ formatDecimal (shortest m e).1 (shortest m e).2 := by
      have hstep : numberToString (.finite negative m e) =
          if m = 0 then "0"
          else String.mk ((if negative then ['-'] else []) ++
            formatDecimal (shortest m e).1 (shortest m e).2) := rfl
      rw [hstep, if_neg hm]
    obtain ⟨f1, f2, f3⟩ := formatDecimal_spec negative (shortest m e).1 (shortest m e).2 hs
    rw [htext, if_neg hm]
    refine ⟨?_, f2, f3⟩
    rw [f1]
    unfold roundsTo at hvalid
    rw [beq_iff_eq] at hvalid
    exact roundBinary64_sign negative _ _ m e hvalid

/-- The text of every finite Number is a text that the decoder reads back. -/
theorem isCanonicalNumber_numberToString (d : Binary64) (h : d.isFinite = true) :
    isCanonicalNumber (numberToString d).data = true := by
  cases d with
  | infinite negative => exact absurd h (by simp [Binary64.isFinite])
  | finite negative m e =>
    obtain ⟨t1, t2, t3⟩ := toNumber_numberToString negative m e h
    unfold isCanonicalNumber
    rw [t2, t3, t1]
    by_cases hm : m = 0
    · subst hm
      rfl
    · rw [if_neg hm]
      simp

mutual
/-- A JSON value passes the test `isJSONValue`. -/
theorem isJSONValue_of_isJSON : ∀ v : JSValue, IsJSON v → isJSONValue v = true
  | .undefined, h => by simp [IsJSON] at h
  | .null, _ => rfl
  | .bool _, _ => rfl
  | .num r, h => by
    simp only [IsJSON] at h
    obtain ⟨d, hd, rfl⟩ := h
    simp only [isJSONValue]
    exact isCanonicalNumber_numberToString d hd
  | .str _, _ => rfl
  | .arr items, h => by
    simp only [IsJSON] at h
    simp only [isJSONValue]
    exact allJSONValues_of_allJSON items h
  | .obj props, h => by
    simp only [IsJSON] at h
    simp only [isJSONValue, Bool.and_eq_true, decide_eq_true_eq]
    exact ⟨⟨h.1, h.2.1⟩, allJSONMembers_of_all props h.2.2⟩
termination_by structural v => v
theorem allJSONValues_of_allJSON : ∀ l : List JSValue, AllJSON l → allJSONValues l = true
  | [], _ => rfl
  | x :: rest, h => by
    simp only [AllJSON] at h
    simp only [allJSONValues, Bool.and_eq_true]
    exact ⟨isJSONValue_of_isJSON x h.1, allJSONValues_of_allJSON rest h.2⟩
termination_by structural l => l
theorem allJSONMembers_of_all :
    ∀ l : List (String × JSValue), AllJSONMembers l → allJSONMembers l = true
  | [], _ => rfl
  | kv :: rest, h => by
    simp only [AllJSONMembers] at h
    simp only [allJSONMembers, Bool.and_eq_true]
    exact ⟨isJSONValue_of_isJSON kv.2 h.1, allJSONMembers_of_all rest h.2⟩
termination_by structural l => l
end

/-! ## C14: the round trip of `serializeBody` -/

/-- C14: for every JSON value `v` that is neither a string nor `null` (an object, an
array, a finite number or a boolean, made of JSON values), `serializeBody(v)` is a
string, and `JSON.parse` of that string is `v` again. -/
theorem serializeBody_round_trip (v : JSValue) (hv : IsJSON v)
    (hstr : ∀ s, v ≠ .str s) (hnull : v ≠ .null) :
    ∃ text, serializeBody v = some text ∧ jsonParse text = .ok v := by
  have hs : serializeBody v = jsonStringify v := by
    cases v with
    | undefined => simp [IsJSON] at hv
    | null => exact absurd rfl hnull
    | str s => exact absurd rfl (hstr s)
    | bool b => rfl
    | num r => rfl
    | arr items => rfl
    | obj props => rfl
  rw [hs]
  exact jsonParse_jsonStringify v (isJSONValue_of_isJSON v hv)

set_option maxRecDepth 100000 in
/-- C14, at the object `{a:1}`: the text sent is `{"a":1}`, and it is decoded to the
object. -/
theorem serializeBody_round_trip_witness :
    serializeBody (.obj [("a", .num "1")]) = some "\x7b\"a\":1\x7d" ∧
    jsonParse "\x7b\"a\":1\x7d" = .ok (.obj [("a", .num "1")]) ∧
    ∃ text, serializeBody (.obj [("a", .num "1")]) = some text ∧
      jsonParse text = .ok (.obj [("a", .num "1")]) :=
  ⟨rfl, rfl,
    serializeBody_round_trip (.obj [("a", .num "1")])
      (by
        simp only [IsJSON, AllJSONMembers]
        exact ⟨by decide, by decide, ⟨.finite false 4503599627370496 1022, rfl, rfl⟩, trivial⟩)
      (fun _ h => JSValue.noConfusion h) (fun h => JSValue.noConfusion h)⟩

end CouponMcp
